import Mathlib

/-!
Verification of `hack/update-capi-templates-to-beta2.py`, the CAPI template
migration script: a recursive YAML-tree transformer that rewrites legacy
v1beta1 shapes into v1beta2 shapes.

The YAML document tree (ruamel's `CommentedMap` / `CommentedSeq` / scalars)
is modelled as the inductive type `Node`; mappings are association lists of
string keys with Python-dict semantics (lookup and update address the first
occurrence of a key, insertion appends at the end, deletion removes the key).
The script's in-place mutation is modelled by explicit state passing, and the
recursive `transform` is indexed by fuel (every recursive call consumes one
unit; exhaustion is an explicit error, so an `ok` result denotes a completed
run of the Python recursion).
-/

set_option maxHeartbeats 1000000

inductive Node where
  | str (s : String)
  | int (n : Int)
  | bool (b : Bool)
  | null
  | map (entries : List (String × Node))
  | seq (items : List Node)
  deriving Repr

abbrev Entries := List (String × Node)

/-- Python dict lookup (`d[k]` / `d.get(k)`): first entry with the key. -/
def getEntry : Entries → String → Option Node
  | [], _ => none
  | (k, v) :: rest, key => if k = key then some v else getEntry rest key

/-- Python `k in d`. -/
def hasKey (es : Entries) (key : String) : Bool :=
  (getEntry es key).isSome

/-- Python dict assignment `d[k] = v`: replace in place if present, else append. -/
def setEntry : Entries → String → Node → Entries
  | [], key, v => [(key, v)]
  | (k, w) :: rest, key, v =>
    if k = key then (k, v) :: rest else (k, w) :: setEntry rest key v

/-- Python `d.pop(k)` / `del d[k]` (the value is read separately). -/
def delEntry : Entries → String → Entries
  | [], _ => []
  | (k, v) :: rest, key =>
    if k = key then delEntry rest key else (k, v) :: delEntry rest key

/-- Path lookup through nested mappings, used to state observations. -/
def getPath : Node → List String → Option Node
  | n, [] => some n
  | .map es, k :: ks =>
    match getEntry es k with
    | some v => getPath v ks
    | none => none
  | _, _ :: _ => none

/-- Convert a mapping of kubeletExtraArgs into a list of name/value maps
(`convert_mapping_to_seq` in the script; insertion order preserved). -/
def convert_mapping_to_seq (mapping : Entries) : List Node :=
  mapping.map (fun e => Node.map [("name", Node.str e.1), ("value", e.2)])

/-- The characters accepted by the regex group `[smhdSMHD]`. -/
def unitChars : List Char := ['s', 'm', 'h', 'd', 'S', 'M', 'H', 'D']

/-- Numeric value of an all-digit character list, as Python `int()` computes it. -/
def natOfDigits (cs : List Char) : Nat :=
  cs.foldl (fun a c => a * 10 + (c.toNat - '0'.toNat)) 0

/-- The characters Python `str.strip()` removes. -/
def pyWhitespace (c : Char) : Bool :=
  c = ' ' || c = '\t' || c = '\n' || c = '\r' || c = '\x0b' || c = '\x0c'

/-- Python `s.strip()`. -/
def pyStrip (s : String) : String :=
  ⟨((s.data.dropWhile pyWhitespace).reverse.dropWhile pyWhitespace).reverse⟩

/-- `re.fullmatch(r"(\d+)([smhdSMHD]?)", s)`: the digit group and optional
unit group, or `none` when the string does not match. -/
def durMatch (cs : List Char) : Option (List Char × Option Char) :=
  match cs.getLast? with
  | none => none
  | some last =>
    if last ∈ unitChars then
      if cs.dropLast ≠ [] ∧ cs.dropLast.all Char.isDigit then
        some (cs.dropLast, some last)
      else none
    else
      if cs.all Char.isDigit then some (cs, none) else none

/-- `duration_to_seconds` from the script: convert strings like 180s/15m/1h/1d
to seconds; `none` on non-matching input. -/
def duration_to_seconds (duration : String) : Option Nat :=
  match durMatch (pyStrip duration).data with
  | none => none
  | some (digits, unit) =>
    let value := natOfDigits digits
    let u := unit.map Char.toLower
    if u = some 'm' then some (value * 60)
    else if u = some 'h' then some (value * 60 * 60)
    else if u = some 'd' then some (value * 60 * 60 * 24)
    else some value

/-- The `explicit_kind_map` table in `infer_api_group`. -/
def explicit_kind_map : List (String × String) :=
  [("KubeadmControlPlane", "controlplane.cluster.x-k8s.io"),
   ("KubeadmControlPlaneTemplate", "controlplane.cluster.x-k8s.io"),
   ("KubeadmConfig", "bootstrap.cluster.x-k8s.io"),
   ("KubeadmConfigTemplate", "bootstrap.cluster.x-k8s.io"),
   ("KubeadmConfigTemplateList", "bootstrap.cluster.x-k8s.io")]

/-- The `infra_hints` tuple in `infer_api_group`. -/
def infra_hints : List String := ["HCloud", "Hetzner", "BareMetal", "BM"]

/-- First-match association lookup, Python dict indexing on a literal dict. -/
def lookupStr : List (String × String) → String → Option String
  | [], _ => none
  | (k, v) :: rest, key => if k = key then some v else lookupStr rest key

/-- Python substring test `sub in hay`. -/
def strContains (hay sub : String) : Bool :=
  hay.data.tails.any (fun t => sub.data.isPrefixOf t)

/-- Python `s.endswith(suf)`. -/
def strEnds (s suf : String) : Bool :=
  suf.data.isSuffixOf s.data

/-- The kind-based part of `infer_api_group` (lines after the apiVersion rule). -/
def inferFromKind (ref : Entries) : Option String :=
  match getEntry ref "kind" with
  | some (.str kind) =>
    match lookupStr explicit_kind_map kind with
    | some g => some g
    | none =>
      if infra_hints.any (fun h => strContains kind h) ||
          strEnds kind "Cluster" || strEnds kind "MachineTemplate" then
        some "infrastructure.cluster.x-k8s.io"
      else
        none
  | _ => none

/-- `infer_api_group` from the script: apiVersion prefix first, then the
static kind table, then the infrastructure heuristics. -/
def infer_api_group (ref : Entries) : Option String :=
  match getEntry ref "apiVersion" with
  | some (.str av) =>
    if av.data.contains '/' then some ⟨av.data.takeWhile (fun c => c ≠ '/')⟩
    else inferFromKind ref
  | _ => inferFromKind ref

/-- `str(x).strip() == ""` for a loaded YAML value: only a whitespace-only
string is blank (`str(None)` is `"None"`, numbers/booleans/containers print
non-blank). -/
def strBlank : Node → Bool
  | .str s => pyStrip s = ""
  | _ => false

/-- The `nodeStartupTimeout -> checks.nodeStartupTimeoutSeconds` block of
`transform_machine_health_check`, acting on (spec, checks). -/
def mhcStepStartup (spec checks : Entries) : Entries × Entries × Bool :=
  match getEntry spec "nodeStartupTimeout" with
  | none => (spec, checks, false)
  | some tv =>
    let spec1 := delEntry spec "nodeStartupTimeout"
    match tv with
    | .str s =>
      match duration_to_seconds s with
      | some secs =>
        (spec1, setEntry checks "nodeStartupTimeoutSeconds" (.int secs), true)
      | none => (spec1, checks, false)
    | other => (spec1, setEntry checks "nodeStartupTimeoutSeconds" other, true)

/-- Conversion of one `unhealthyConditions` entry into a new condition map
(the body of the `for cond in conditions` loop). -/
def convertCond (cond : Entries) : Entries :=
  let nc1 : Entries :=
    match getEntry cond "type" with
    | some tv => [("type", tv)]
    | none => []
  let nc2 : Entries :=
    match getEntry cond "status" with
    | some sv => nc1 ++ [("status", sv)]
    | none => nc1
  match getEntry cond "timeout" with
  | some (.str s) =>
    match duration_to_seconds s with
    | some secs => nc2 ++ [("timeoutSeconds", .int secs)]
    | none => nc2
  | some .null => nc2
  | some v => nc2 ++ [("timeoutSeconds", v)]
  | none => nc2

/-- The filtered list `new_conditions` built from the loaded sequence. -/
def convertConds (items : List Node) : List Node :=
  items.filterMap (fun cond =>
    match cond with
    | .map cm =>
      let nc := convertCond cm
      if nc.isEmpty then none else some (.map nc)
    | _ => none)

/-- The `unhealthyConditions -> checks.unhealthyNodeConditions` block. -/
def mhcStepConds (spec checks : Entries) : Entries × Entries × Bool :=
  match getEntry spec "unhealthyConditions" with
  | none => (spec, checks, false)
  | some cv =>
    let spec1 := delEntry spec "unhealthyConditions"
    match cv with
    | .seq items =>
      let ncs := convertConds items
      if ncs.isEmpty then (spec1, checks, false)
      else (spec1, setEntry checks "unhealthyNodeConditions" (.seq ncs), true)
    | _ => (spec1, checks, false)

/-- The `maxUnhealthy -> remediation.triggerIf.unhealthyLessThanOrEqualTo`
block. -/
def mhcStepMaxUnhealthy (spec : Entries) : Entries × Bool :=
  match getEntry spec "maxUnhealthy" with
  | none => (spec, false)
  | some mu =>
    let spec1 := delEntry spec "maxUnhealthy"
    let remediation : Entries :=
      match getEntry spec1 "remediation" with
      | some (.map r) => r
      | _ => []
    let triggerIf : Entries :=
      match getEntry remediation "triggerIf" with
      | some (.map t) => t
      | _ => []
    let ti :=
      if hasKey triggerIf "unhealthyLessThanOrEqualTo" then (triggerIf, false)
      else (setEntry triggerIf "unhealthyLessThanOrEqualTo" mu, true)
    (setEntry spec1 "remediation"
      (.map (setEntry remediation "triggerIf" (.map ti.1))), ti.2)

/-- The `remediationTemplate -> remediation.templateRef` block. -/
def mhcStepRemTemplate (spec : Entries) : Entries × Bool :=
  match getEntry spec "remediationTemplate" with
  | none => (spec, false)
  | some tv =>
    let spec1 := delEntry spec "remediationTemplate"
    match tv with
    | .map tm =>
      let remediation : Entries :=
        match getEntry spec1 "remediation" with
        | some (.map r) => r
        | _ => []
      let templRef : Entries :=
        match getEntry remediation "templateRef" with
        | some (.map t) => t
        | _ => []
      let templRef1 := ["kind", "name", "apiVersion"].foldl
        (fun acc key =>
          match getEntry tm key with
          | some v => if hasKey acc key then acc else setEntry acc key v
          | none => acc) templRef
      (setEntry spec1 "remediation"
        (.map (setEntry remediation "templateRef" (.map templRef1))), true)
    | _ => (spec1, false)

/-- The initial `checks` value: the existing mapping, or a fresh empty one. -/
def mhcChecks0 (spec0 : Entries) : Entries :=
  match getEntry spec0 "checks" with
  | some (.map c) => c
  | _ => []

/-- The whole reshaping pipeline on a spec mapping: the two checks moves, the
conditional `spec["checks"]` write, then the maxUnhealthy and
remediationTemplate moves; returns the new spec and the OR of the flags. -/
def mhcSpecPipeline (spec0 : Entries) : Entries × Bool :=
  let r1 := mhcStepStartup spec0 (mhcChecks0 spec0)
  let r2 := mhcStepConds r1.1 r1.2.1
  let spec3 := if r2.2.1.isEmpty then r2.1 else setEntry r2.1 "checks" (.map r2.2.1)
  let r3 := mhcStepMaxUnhealthy spec3
  let r4 := mhcStepRemTemplate r3.1
  (r4.1, r1.2.2 || r2.2.2 || r3.2 || r4.2)

/-- `transform_machine_health_check` from the script: reshape a
MachineHealthCheck node's spec to the v1beta2 structure. -/
def transform_machine_health_check (mhc : Entries) : Entries × Bool :=
  match getEntry mhc "spec" with
  | some (.map spec0) =>
    (setEntry mhc "spec" (.map (mhcSpecPipeline spec0).1), (mhcSpecPipeline spec0).2)
  | _ => (mhc, false)

/-- The kubeletExtraArgs rule of `transform` (a non-Mapping, non-Sequence
value raises TypeError). -/
def stepKubelet (es : Entries) : Except String (Entries × Bool) :=
  match getEntry es "kubeletExtraArgs" with
  | none => .ok (es, false)
  | some (.map m) =>
    .ok (setEntry es "kubeletExtraArgs" (.seq (convert_mapping_to_seq m)), true)
  | some (.seq _) => .ok (es, false)
  | some _ => .error "Unexpected kubeletExtraArgs type"

/-- The extraArgs rule of `transform` (only a Mapping value is converted; any
other shape is left alone). -/
def stepExtraArgs (es : Entries) : Entries × Bool :=
  match getEntry es "extraArgs" with
  | some (.map m) =>
    (setEntry es "extraArgs" (.seq (convert_mapping_to_seq m)), true)
  | _ => (es, false)

/-- The apiGroup half of the ref-key loop body: set an inferred group only
when `apiGroup` is absent and the inferred value is truthy (non-None and
non-empty). -/
def refApiGroupStep (rv : Entries) : Entries × Bool :=
  if hasKey rv "apiGroup" then (rv, false)
  else
    match infer_api_group rv with
    | some g => if g = "" then (rv, false) else (setEntry rv "apiGroup" (.str g), true)
    | none => (rv, false)

/-- The apiVersion half of the ref-key loop body: delete it when present. -/
def refApiVersionStep (rv : Entries) : Entries × Bool :=
  if hasKey rv "apiVersion" then (delEntry rv "apiVersion", true) else (rv, false)

/-- The per-reference body of the ref-key loop. -/
def processRef (rv : Entries) : Entries × Bool :=
  ((refApiVersionStep (refApiGroupStep rv).1).1,
   (refApiGroupStep rv).2 || (refApiVersionStep (refApiGroupStep rv).1).2)

/-- One iteration of the ref-key loop in `transform`. -/
def stepRef (es : Entries) (key : String) : Entries × Bool :=
  match getEntry es key with
  | some (.map rv) => (setEntry es key (.map (processRef rv).1), (processRef rv).2)
  | _ => (es, false)

/-- The ref-key loop over infrastructureRef/controlPlaneRef/configRef. -/
def stepRefs (es : Entries) : Entries × Bool :=
  let r1 := stepRef es "infrastructureRef"
  let r2 := stepRef r1.1 "controlPlaneRef"
  let r3 := stepRef r2.1 "configRef"
  (r3.1, r1.2 || r2.2 || r3.2)

/-- The empty controlPlaneEndpoint pruning rule. -/
def stepCPE (es : Entries) : Entries × Bool :=
  match getEntry es "controlPlaneEndpoint" with
  | some (.map cm) =>
    let hostBlank :=
      match getEntry cm "host" with
      | none => true
      | some v => strBlank v
    if hostBlank then (delEntry es "controlPlaneEndpoint", true) else (es, false)
  | _ => (es, false)

/-- `node.get("kind") == s`: Python equality of the loaded kind value with a
string literal (false for missing keys and non-string values). -/
def kindIs (es : Entries) (s : String) : Bool :=
  match getEntry es "kind" with
  | some (.str k) => k = s
  | _ => false

/-- The MachineHealthCheck dispatch in `transform`. -/
def stepMHC (es : Entries) : Entries × Bool :=
  if kindIs es "MachineHealthCheck" then
    transform_machine_health_check es
  else (es, false)

/-- `mt["spec"]` if it is a mapping, else a fresh empty mapping. -/
def kcpMtSpec (mtm : Entries) : Entries :=
  match getEntry mtm "spec" with
  | some (.map s) => s
  | _ => []

/-- The infrastructureRef move between `mt` and `mt_spec`. -/
def kcpMove (mtm mtSpec : Entries) : Entries × Entries × Bool :=
  match getEntry mtm "infrastructureRef" with
  | some iv =>
    if hasKey mtSpec "infrastructureRef" then (mtm, mtSpec, false)
    else (delEntry mtm "infrastructureRef", setEntry mtSpec "infrastructureRef" iv, true)
  | none => (mtm, mtSpec, false)

/-- The KubeadmControlPlane machineTemplate.infrastructureRef relocation. -/
def stepKCP (es : Entries) : Entries × Bool :=
  if kindIs es "KubeadmControlPlane" then
    match getEntry es "spec" with
    | some (.map sm) =>
      match getEntry sm "machineTemplate" with
      | some (.map mtm) =>
        let r := kcpMove mtm (kcpMtSpec mtm)
        let mtm2 := if r.2.1.isEmpty then r.1 else setEntry r.1 "spec" (.map r.2.1)
        (setEntry es "spec" (.map (setEntry sm "machineTemplate" (.map mtm2))), r.2.2)
      | _ => (es, false)
    | _ => (es, false)
  else (es, false)

/-- The rules after the kubeletExtraArgs rule, in the script's statement
order, OR-ing their changed flags. -/
def rulesTail (es : Entries) : Entries × Bool :=
  let r2 := stepExtraArgs es
  let r3 := stepRefs r2.1
  let r4 := stepCPE r3.1
  let r5 := stepMHC r4.1
  let r6 := stepKCP r5.1
  (r6.1, r2.2 || r3.2 || r4.2 || r5.2 || r6.2)

/-- All mapping-node rules of `transform`, in the script's statement order,
with the changed flags OR-ed. -/
def applyRules (es : Entries) : Except String (Entries × Bool) :=
  match stepKubelet es with
  | .error e => .error e
  | .ok r1 => .ok ((rulesTail r1.1).1, r1.2 || (rulesTail r1.1).2)

mutual

/-- `transform` from the script: apply the rules at a mapping node, then
recurse into all values; recurse into all items of a sequence; leave scalars
alone.  Fuel-indexed: each recursive call consumes one unit, and an `ok`
result means the Python recursion completed. -/
def transform : Nat → Node → Except String (Node × Bool)
  | 0, _ => .error "out of fuel"
  | fuel + 1, .map es =>
    match applyRules es with
    | .error e => .error e
    | .ok r1 =>
      match transformEntries fuel r1.1 with
      | .error e => .error e
      | .ok r2 => .ok (.map r2.1, r1.2 || r2.2)
  | fuel + 1, .seq items =>
    match transformItems fuel items with
    | .error e => .error e
    | .ok r => .ok (.seq r.1, r.2)
  | _ + 1, n => .ok (n, false)

/-- The `for value in node.values()` recursion. -/
def transformEntries : Nat → Entries → Except String (Entries × Bool)
  | 0, _ => .error "out of fuel"
  | _ + 1, [] => .ok ([], false)
  | fuel + 1, (k, v) :: rest =>
    match transform fuel v with
    | .error e => .error e
    | .ok rv =>
      match transformEntries fuel rest with
      | .error e => .error e
      | .ok rr => .ok ((k, rv.1) :: rr.1, rv.2 || rr.2)

/-- The `for item in node` recursion. -/
def transformItems : Nat → List Node → Except String (List Node × Bool)
  | 0, _ => .error "out of fuel"
  | _ + 1, [] => .ok ([], false)
  | fuel + 1, item :: rest =>
    match transform fuel item with
    | .error e => .error e
    | .ok ri =>
      match transformItems fuel rest with
      | .error e => .error e
      | .ok rr => .ok (ri.1 :: rr.1, ri.2 || rr.2)

end

/-- Python `str.replace`: leftmost, non-overlapping, replace all.  The `Nat`
argument is a structural bound on the scan; with `bound >= hay.length` the
scan runs to completion (each step consumes at least one character). -/
def replaceAux (pat rep : List Char) : Nat → List Char → List Char
  | 0, hay => hay
  | _ + 1, [] => []
  | n + 1, c :: rest =>
    if pat ≠ [] ∧ pat.isPrefixOf (c :: rest) then
      rep ++ replaceAux pat rep n ((c :: rest).drop pat.length)
    else
      c :: replaceAux pat rep n rest

/-- `original_text.replace(old, new)`. -/
def pyReplace (s pat rep : String) : String :=
  ⟨replaceAux pat.data rep.data s.data.length s.data⟩

/-- The legacy schema identifier replaced throughout the raw file text. -/
def legacyId : String := "cluster.x-k8s.io/v1beta1"

/-- The successor schema identifier. -/
def successorId : String := "cluster.x-k8s.io/v1beta2"

/-- Transform all documents of a file, OR-ing their changed flags. -/
def transformDocs (fuel : Nat) : List Node → Except String (List Node × Bool)
  | [] => .ok ([], false)
  | d :: ds =>
    match transform fuel d with
    | .error e => .error e
    | .ok rd =>
      match transformDocs fuel ds with
      | .error e => .error e
      | .ok rr => .ok (rd.1 :: rr.1, rd.2 || rr.2)

/-- `process_file` from the script, with the YAML parser abstracted: the raw
text first undergoes the global v1beta1->v1beta2 substitution, the documents
of the substituted text are transformed, and the returned flag (which decides
the rewrite and the "Updated" report) is true iff the substitution changed
the text or some document's transform returned true. -/
def process_file (fuel : Nat) (parse : String → List Node) (original_text : String) :
    Except String (Bool × List Node) :=
  let updated := pyReplace original_text legacyId successorId
  match transformDocs fuel (parse updated) with
  | .error e => .error e
  | .ok r => .ok ((updated ≠ original_text : Bool) || r.2, r.1)

/-! ### Basic lemmas about the dict operations -/

@[simp]
theorem getEntry_nil (key : String) : getEntry [] key = none := rfl

@[simp]
theorem getEntry_cons (k : String) (v : Node) (rest : Entries) (key : String) :
    getEntry ((k, v) :: rest) key = if k = key then some v else getEntry rest key := rfl

theorem getEntry_setEntry (es : Entries) (k key : String) (v : Node) :
    getEntry (setEntry es k v) key = if key = k then some v else getEntry es key := by
  induction es with
  | nil =>
    by_cases h : key = k
    · subst h; simp [setEntry]
    · have h2 : ¬k = key := fun hh => h hh.symm
      simp [setEntry, h, h2]
  | cons e rest ih =>
    obtain ⟨k1, w⟩ := e
    simp only [setEntry]
    by_cases h1 : k1 = k
    · subst h1
      by_cases h2 : k1 = key
      · subst h2; simp
      · have h3 : ¬key = k1 := fun hh => h2 hh.symm
        simp [h2, h3]
    · rw [if_neg h1]
      by_cases h2 : k1 = key
      · subst h2
        simp [h1]
      · simp [h2, ih]

theorem getEntry_delEntry (es : Entries) (k key : String) :
    getEntry (delEntry es k) key = if key = k then none else getEntry es key := by
  induction es with
  | nil => simp [delEntry]
  | cons e rest ih =>
    obtain ⟨k1, w⟩ := e
    simp only [delEntry]
    by_cases h1 : k1 = k
    · subst h1
      rw [if_pos rfl, ih]
      by_cases h2 : key = k1
      · simp [h2]
      · have h3 : ¬k1 = key := fun hh => h2 hh.symm
        simp [h2, h3]
    · rw [if_neg h1]
      by_cases h2 : k1 = key
      · subst h2
        simp [h1]
      · simp [h2, ih]

theorem setEntry_self (es : Entries) (k : String) (v : Node)
    (h : getEntry es k = some v) : setEntry es k v = es := by
  induction es with
  | nil => simp at h
  | cons e rest ih =>
    obtain ⟨k1, w⟩ := e
    simp only [setEntry]
    by_cases h1 : k1 = k
    · subst h1
      rw [getEntry_cons, if_pos rfl] at h
      rw [if_pos rfl]
      have hw : w = v := by simpa using h
      rw [hw]
    · rw [getEntry_cons, if_neg h1] at h
      rw [if_neg h1, ih h]

theorem hasKey_iff (es : Entries) (k : String) :
    hasKey es k = true ↔ ∃ v, getEntry es k = some v := by
  simp [hasKey, Option.isSome_iff_exists]

theorem hasKey_false_iff (es : Entries) (k : String) :
    hasKey es k = false ↔ getEntry es k = none := by
  cases h : getEntry es k <;> simp [hasKey, h]

@[simp]
theorem hasKey_setEntry (es : Entries) (k key : String) (v : Node) :
    hasKey (setEntry es k v) key = (key = k || hasKey es key) := by
  by_cases h : key = k <;> simp [hasKey, getEntry_setEntry, h]

@[simp]
theorem hasKey_delEntry (es : Entries) (k key : String) :
    hasKey (delEntry es k) key = (!(key = k : Bool) && hasKey es key) := by
  by_cases h : key = k <;> simp [hasKey, getEntry_delEntry, h]

/-! ### C6: the duration parser -/

/-- The per-unit multiplication table stated by the spec: seconds, minutes,
hours, days. -/
def unitFactor (c : Char) : Nat :=
  if c.toLower = 'm' then 60
  else if c.toLower = 'h' then 3600
  else if c.toLower = 'd' then 86400
  else 1

theorem digit_not_unitChar (c : Char) (h : c.isDigit = true) : c ∉ unitChars := by
  intro hmem
  simp only [unitChars, List.mem_cons, List.not_mem_nil, or_false] at hmem
  rcases hmem with h1 | h1 | h1 | h1 | h1 | h1 | h1 | h1 <;> subst h1 <;> simp at h

theorem durMatch_digits (cs : List Char) (hne : cs ≠ [])
    (hd : cs.all Char.isDigit = true) : durMatch cs = some (cs, none) := by
  obtain ⟨last, hlast⟩ : ∃ l, cs.getLast? = some l := by
    cases h : cs.getLast? with
    | none => exact absurd (List.getLast?_eq_none_iff.mp h) hne
    | some l => exact ⟨l, rfl⟩
  have hmem : last ∈ cs := List.mem_of_mem_getLast? hlast
  have hdig : last.isDigit = true := by
    rw [List.all_eq_true] at hd
    exact hd last hmem
  simp only [durMatch, hlast, if_neg (digit_not_unitChar last hdig), if_pos hd]

theorem durMatch_unit (ds : List Char) (c : Char) (hne : ds ≠ [])
    (hd : ds.all Char.isDigit = true) (hu : c ∈ unitChars) :
    durMatch (ds ++ [c]) = some (ds, some c) := by
  simp only [durMatch, List.getLast?_concat, if_pos hu, List.dropLast_concat,
    if_pos (And.intro hne hd)]

/-- C6 (duration parser correctness): a stripped string of the form
`<digits>` evaluates to its integer value, `<digits><unit>` with unit in
s/m/h/d (either case) evaluates to the value times 1, 60, 3600 or 86400,
and everything else yields no result. -/
theorem duration_to_seconds_correct (s : String) :
    ((pyStrip s).data ≠ [] → (pyStrip s).data.all Char.isDigit = true →
      duration_to_seconds s = some (natOfDigits (pyStrip s).data)) ∧
    (∀ ds c, (pyStrip s).data = ds ++ [c] → ds ≠ [] → ds.all Char.isDigit = true →
      c ∈ unitChars →
      duration_to_seconds s = some (natOfDigits ds * unitFactor c)) ∧
    ((¬ ((pyStrip s).data ≠ [] ∧ (pyStrip s).data.all Char.isDigit = true)) →
     (¬ ∃ ds c, (pyStrip s).data = ds ++ [c] ∧ ds ≠ [] ∧
        ds.all Char.isDigit = true ∧ c ∈ unitChars) →
      duration_to_seconds s = none) := by
  refine ⟨?_, ?_, ?_⟩
  · intro hne hd
    rw [duration_to_seconds, durMatch_digits (pyStrip s).data hne hd]
    simp
  · intro ds c hshape hne hd hu
    rw [duration_to_seconds, hshape, durMatch_unit ds c hne hd hu]
    simp only [unitChars, List.mem_cons, List.not_mem_nil, or_false] at hu
    rcases hu with h1 | h1 | h1 | h1 | h1 | h1 | h1 | h1 <;> subst h1 <;>
      simp [unitFactor, Option.map] <;> ring
  · intro hnotdig hnotunit
    rw [duration_to_seconds]
    cases hlast : (pyStrip s).data.getLast? with
    | none => simp only [durMatch, hlast]
    | some last =>
      have hprefull : (pyStrip s).data.dropLast ++ [last] = (pyStrip s).data :=
        List.dropLast_append_getLast? last hlast
      by_cases hu : last ∈ unitChars
      · have hfail : ¬ ((pyStrip s).data.dropLast ≠ [] ∧
            (pyStrip s).data.dropLast.all Char.isDigit = true) := by
          intro hboth
          exact hnotunit ⟨(pyStrip s).data.dropLast, last, hprefull.symm,
            hboth.1, hboth.2, hu⟩
        simp only [durMatch, hlast, if_pos hu, if_neg hfail]
      · have hne : (pyStrip s).data ≠ [] := by
          intro h
          rw [h] at hlast
          simp at hlast
        have hfail : ¬ (pyStrip s).data.all Char.isDigit = true := by
          intro hd
          exact hnotdig ⟨hne, hd⟩
        simp only [durMatch, hlast, if_neg hu, if_neg hfail]

/-- Witness for C6 at concrete inputs. -/
theorem duration_to_seconds_correct_witness :
    duration_to_seconds " 15m " = some (15 * 60) ∧ duration_to_seconds "banana" = none := by
  constructor
  · have h := (duration_to_seconds_correct " 15m ").2.1 ['1', '5'] 'm' (by decide)
      (by decide) (by decide) (by decide)
    rw [h]
    decide
  · refine (duration_to_seconds_correct "banana").2.2 (by decide) ?_
    intro hex
    obtain ⟨ds, c, hshape, hne, hd, hu⟩ := hex
    have hdl : ds = ['b', 'a', 'n', 'a', 'n'] := by
      have h1 := congrArg List.dropLast hshape
      rw [List.dropLast_concat] at h1
      rw [← h1]
      decide
    subst hdl
    simp at hd

/-! ### C7: api-group inference precedence -/

theorem takeWhile_until_slash (g rest : List Char) (hg : ∀ ch ∈ g, ch ≠ '/') :
    (g ++ '/' :: rest).takeWhile (fun c => (c ≠ '/' : Bool)) = g := by
  induction g with
  | nil => simp
  | cons c cs ih =>
    have hc : c ≠ '/' := hg c (List.mem_cons_self c cs)
    simp only [List.cons_append, List.takeWhile_cons]
    rw [if_pos (by simpa using hc)]
    rw [ih (fun ch hch => hg ch (List.mem_cons_of_mem c hch))]

/-- `apiVersion` is absent, not a string, or a string without a slash. -/
def noSlashApiVersion (ref : Entries) : Prop :=
  ∀ av, getEntry ref "apiVersion" = some (Node.str av) → av.data.contains '/' = false

theorem infer_skips_apiVersion (ref : Entries) (hns : noSlashApiVersion ref) :
    infer_api_group ref = inferFromKind ref := by
  cases h : getEntry ref "apiVersion" with
  | none => simp [infer_api_group, h]
  | some v =>
    cases v with
    | str av =>
      have hc : av.data.contains '/' = false := hns av h
      simp only [infer_api_group, h]
      rw [if_neg (by simp [List.contains_eq_any_beq] at hc; simpa using hc)]
    | int n => simp [infer_api_group, h]
    | bool b => simp [infer_api_group, h]
    | null => simp [infer_api_group, h]
    | map es => simp [infer_api_group, h]
    | seq items => simp [infer_api_group, h]

/-- C7 (inference precedence): the four rules of `infer_api_group` are tried
in order with the first success winning — (1) slash-containing string
apiVersion yields the part before the first slash; otherwise (2) a kind in
the static control-plane/bootstrap table yields its mapped group; otherwise
(3) a kind containing an infrastructure fragment or ending in Cluster or
MachineTemplate yields the fixed infrastructure group; otherwise (4) no
result. -/
theorem infer_api_group_precedence (ref : Entries) :
    (∀ av g rest, getEntry ref "apiVersion" = some (Node.str av) →
      av.data = g ++ '/' :: rest → (∀ ch ∈ g, ch ≠ '/') →
      infer_api_group ref = some ⟨g⟩) ∧
    (∀ kind g, noSlashApiVersion ref →
      getEntry ref "kind" = some (Node.str kind) →
      lookupStr explicit_kind_map kind = some g →
      infer_api_group ref = some g) ∧
    (∀ kind, noSlashApiVersion ref →
      getEntry ref "kind" = some (Node.str kind) →
      lookupStr explicit_kind_map kind = none →
      (infra_hints.any (fun h => strContains kind h) || strEnds kind "Cluster" ||
        strEnds kind "MachineTemplate") = true →
      infer_api_group ref = some "infrastructure.cluster.x-k8s.io") ∧
    (noSlashApiVersion ref →
      ((¬ ∃ kind, getEntry ref "kind" = some (Node.str kind)) →
        infer_api_group ref = none) ∧
      (∀ kind, getEntry ref "kind" = some (Node.str kind) →
        lookupStr explicit_kind_map kind = none →
        (infra_hints.any (fun h => strContains kind h) || strEnds kind "Cluster" ||
          strEnds kind "MachineTemplate") = false →
        infer_api_group ref = none)) := by
  refine ⟨?_, ?_, ?_, ?_⟩
  · intro av g rest hav hshape hg
    have hcont : av.data.contains '/' = true := by
      rw [hshape]
      simp [List.contains_eq_any_beq]
    rw [infer_api_group, hav]
    simp only [hcont, if_pos]
    rw [hshape, takeWhile_until_slash g rest hg]
  · intro kind g hns hkind hlook
    rw [infer_skips_apiVersion ref hns]
    simp only [inferFromKind, hkind, hlook]
  · intro kind hns hkind hlook hhint
    rw [infer_skips_apiVersion ref hns]
    simp only [inferFromKind, hkind, hlook]
    rw [if_pos hhint]
  · intro hns
    constructor
    · intro hnk
      rw [infer_skips_apiVersion ref hns, inferFromKind]
      cases h : getEntry ref "kind" with
      | none => rfl
      | some v =>
        cases v with
        | str kind => exact absurd ⟨kind, h⟩ hnk
        | int n => rfl
        | bool b => rfl
        | null => rfl
        | map es => rfl
        | seq items => rfl
    · intro kind hkind hlook hhint
      rw [infer_skips_apiVersion ref hns]
      simp only [inferFromKind, hkind, hlook]
      rw [if_neg (by simp [hhint])]

/-- Witness for C7 at concrete inputs. -/
theorem infer_api_group_precedence_witness :
    infer_api_group [("apiVersion", Node.str "infrastructure.cluster.x-k8s.io/v1beta1")] =
      some "infrastructure.cluster.x-k8s.io" ∧
    infer_api_group [("kind", Node.str "KubeadmConfigTemplate")] =
      some "bootstrap.cluster.x-k8s.io" ∧
    infer_api_group [("kind", Node.str "HetznerBareMetalHost")] =
      some "infrastructure.cluster.x-k8s.io" ∧
    infer_api_group [("kind", Node.str "Widget")] = none := by
  refine ⟨?_, ?_, ?_, ?_⟩
  · have h := (infer_api_group_precedence
      [("apiVersion", Node.str "infrastructure.cluster.x-k8s.io/v1beta1")]).1
      "infrastructure.cluster.x-k8s.io/v1beta1"
      "infrastructure.cluster.x-k8s.io".data "v1beta1".data rfl (by decide) (by decide)
    exact h
  · exact (infer_api_group_precedence _).2.1 "KubeadmConfigTemplate" _
      (by intro av hav; simp at hav) rfl rfl
  · exact (infer_api_group_precedence _).2.2.1 "HetznerBareMetalHost"
      (by intro av hav; simp at hav) rfl rfl (by decide)
  · exact ((infer_api_group_precedence _).2.2.2
      (by intro av hav; simp at hav)).2 "Widget" rfl rfl (by decide)

/-! ### MachineHealthCheck step lemmas (C3, C10) -/

theorem mhcStepStartup_frame (spec checks : Entries) (k : String)
    (hk : k ≠ "nodeStartupTimeout") :
    getEntry (mhcStepStartup spec checks).1 k = getEntry spec k := by
  rw [mhcStepStartup]
  cases h : getEntry spec "nodeStartupTimeout" with
  | none => rfl
  | some tv =>
    cases tv with
    | str s =>
      cases hd : duration_to_seconds s with
      | none => simp [hd, getEntry_delEntry, hk]
      | some secs => simp [hd, getEntry_delEntry, hk]
    | int n => simp [getEntry_delEntry, hk]
    | bool b => simp [getEntry_delEntry, hk]
    | null => simp [getEntry_delEntry, hk]
    | map es => simp [getEntry_delEntry, hk]
    | seq items => simp [getEntry_delEntry, hk]

theorem mhcStepConds_frame (spec checks : Entries) (k : String)
    (hk : k ≠ "unhealthyConditions") :
    getEntry (mhcStepConds spec checks).1 k = getEntry spec k := by
  rw [mhcStepConds]
  cases h : getEntry spec "unhealthyConditions" with
  | none => rfl
  | some cv =>
    cases cv with
    | seq items =>
      by_cases he : (convertConds items).isEmpty <;>
        simp [he, getEntry_delEntry, hk]
    | str s => simp [getEntry_delEntry, hk]
    | int n => simp [getEntry_delEntry, hk]
    | bool b => simp [getEntry_delEntry, hk]
    | null => simp [getEntry_delEntry, hk]
    | map es => simp [getEntry_delEntry, hk]

theorem mhcStepMaxUnhealthy_hasKey (spec : Entries) :
    hasKey (mhcStepMaxUnhealthy spec).1 "maxUnhealthy" = false := by
  rw [mhcStepMaxUnhealthy]
  cases h : getEntry spec "maxUnhealthy" with
  | none => simpa [hasKey_false_iff] using h
  | some mu =>
    by_cases ht : hasKey
        (match getEntry
          (match getEntry (delEntry spec "maxUnhealthy") "remediation" with
            | some (.map r) => r
            | _ => ([] : Entries)) "triggerIf" with
          | some (.map t) => t
          | _ => ([] : Entries)) "unhealthyLessThanOrEqualTo" <;>
      simp [ht, hasKey, getEntry_setEntry, getEntry_delEntry]

theorem mhcStepRemTemplate_frame (spec : Entries) (k : String)
    (hk1 : k ≠ "remediationTemplate") (hk2 : k ≠ "remediation") :
    getEntry (mhcStepRemTemplate spec).1 k = getEntry spec k := by
  rw [mhcStepRemTemplate]
  cases h : getEntry spec "remediationTemplate" with
  | none => rfl
  | some tv =>
    cases tv with
    | map tm => simp [getEntry_setEntry, getEntry_delEntry, hk1, hk2]
    | str s => simp [getEntry_delEntry, hk1]
    | int n => simp [getEntry_delEntry, hk1]
    | bool b => simp [getEntry_delEntry, hk1]
    | null => simp [getEntry_delEntry, hk1]
    | seq items => simp [getEntry_delEntry, hk1]

/-- C10 (implicit maxUnhealthy handling): a MachineHealthCheck spec containing
`maxUnhealthy` always loses that key; and when
`remediation.triggerIf.unhealthyLessThanOrEqualTo` already exists, the
sub-move only removes `maxUnhealthy` (discarding the popped value, leaving
the existing target untouched) and contributes no changed flag. -/
theorem mhc_maxUnhealthy_behavior :
    (∀ mhc sp, getEntry mhc "spec" = some (Node.map sp) →
      hasKey sp "maxUnhealthy" = true →
      transform_machine_health_check mhc =
        (setEntry mhc "spec" (Node.map (mhcSpecPipeline sp).1), (mhcSpecPipeline sp).2) ∧
      hasKey (mhcSpecPipeline sp).1 "maxUnhealthy" = false) ∧
    (∀ sp rem tri, getEntry sp "remediation" = some (Node.map rem) →
      getEntry rem "triggerIf" = some (Node.map tri) →
      hasKey tri "unhealthyLessThanOrEqualTo" = true →
      hasKey sp "maxUnhealthy" = true →
      mhcStepMaxUnhealthy sp = (delEntry sp "maxUnhealthy", false)) := by
  constructor
  · intro mhc sp hspec hmax
    constructor
    · rw [transform_machine_health_check, hspec]
    · rw [mhcSpecPipeline]
      have h4 := mhcStepRemTemplate_frame
        (mhcStepMaxUnhealthy
          (if (mhcStepConds (mhcStepStartup sp (mhcChecks0 sp)).1
              (mhcStepStartup sp (mhcChecks0 sp)).2.1).2.1.isEmpty then
            (mhcStepConds (mhcStepStartup sp (mhcChecks0 sp)).1
              (mhcStepStartup sp (mhcChecks0 sp)).2.1).1
          else
            setEntry (mhcStepConds (mhcStepStartup sp (mhcChecks0 sp)).1
              (mhcStepStartup sp (mhcChecks0 sp)).2.1).1 "checks"
              (Node.map (mhcStepConds (mhcStepStartup sp (mhcChecks0 sp)).1
                (mhcStepStartup sp (mhcChecks0 sp)).2.1).2.1))).1
        "maxUnhealthy" (by decide) (by decide)
      have h3 := mhcStepMaxUnhealthy_hasKey
        (if (mhcStepConds (mhcStepStartup sp (mhcChecks0 sp)).1
            (mhcStepStartup sp (mhcChecks0 sp)).2.1).2.1.isEmpty then
          (mhcStepConds (mhcStepStartup sp (mhcChecks0 sp)).1
            (mhcStepStartup sp (mhcChecks0 sp)).2.1).1
        else
          setEntry (mhcStepConds (mhcStepStartup sp (mhcChecks0 sp)).1
            (mhcStepStartup sp (mhcChecks0 sp)).2.1).1 "checks"
            (Node.map (mhcStepConds (mhcStepStartup sp (mhcChecks0 sp)).1
              (mhcStepStartup sp (mhcChecks0 sp)).2.1).2.1))
      rw [hasKey, h4, ← hasKey]
      exact h3
  · intro sp rem tri hrem htri htarget hmax
    obtain ⟨mu, hmu⟩ := (hasKey_iff sp "maxUnhealthy").mp hmax
    rw [mhcStepMaxUnhealthy, hmu]
    have hrem1 : getEntry (delEntry sp "maxUnhealthy") "remediation" =
        some (Node.map rem) := by
      rw [getEntry_delEntry, if_neg (by decide)]
      exact hrem
    simp only [hrem1, htri, htarget, if_pos]
    rw [setEntry_self rem "triggerIf" (Node.map tri) htri]
    rw [setEntry_self (delEntry sp "maxUnhealthy") "remediation" (Node.map rem) hrem1]

/-- Witness for C10 at a concrete input. -/
theorem mhc_maxUnhealthy_behavior_witness :
    transform_machine_health_check
      [("spec", Node.map [("maxUnhealthy", Node.str "40%"),
        ("remediation", Node.map [("triggerIf",
          Node.map [("unhealthyLessThanOrEqualTo", Node.str "30%")])])])] =
      ([("spec", Node.map [("remediation", Node.map [("triggerIf",
          Node.map [("unhealthyLessThanOrEqualTo", Node.str "30%")])])])], false) ∧
    mhcStepMaxUnhealthy
      [("maxUnhealthy", Node.str "40%"),
       ("remediation", Node.map [("triggerIf",
         Node.map [("unhealthyLessThanOrEqualTo", Node.str "30%")])])] =
      (delEntry
        [("maxUnhealthy", Node.str "40%"),
         ("remediation", Node.map [("triggerIf",
           Node.map [("unhealthyLessThanOrEqualTo", Node.str "30%")])])] "maxUnhealthy",
       false) := by
  constructor
  · have h := (mhc_maxUnhealthy_behavior).1
      [("spec", Node.map [("maxUnhealthy", Node.str "40%"),
        ("remediation", Node.map [("triggerIf",
          Node.map [("unhealthyLessThanOrEqualTo", Node.str "30%")])])])]
      [("maxUnhealthy", Node.str "40%"),
       ("remediation", Node.map [("triggerIf",
         Node.map [("unhealthyLessThanOrEqualTo", Node.str "30%")])])]
      rfl rfl
    rw [h.1]
    rfl
  · exact (mhc_maxUnhealthy_behavior).2
      [("maxUnhealthy", Node.str "40%"),
       ("remediation", Node.map [("triggerIf",
         Node.map [("unhealthyLessThanOrEqualTo", Node.str "30%")])])]
      [("triggerIf", Node.map [("unhealthyLessThanOrEqualTo", Node.str "30%")])]
      [("unhealthyLessThanOrEqualTo", Node.str "30%")]
      rfl rfl rfl rfl

/-! ### C3: malformed durations -/

/-- C3 counterexample: a MachineHealthCheck spec whose `nodeStartupTimeout`
is the non-matching string "banana" does NOT keep the original value — the
key is popped and the value dropped, leaving an empty spec (and the changed
flag stays false). -/
theorem mhc_malformed_duration_counterexample :
    transform_machine_health_check
      [("spec", Node.map [("nodeStartupTimeout", Node.str "banana")])] =
      ([("spec", Node.map [])], false) ∧
    duration_to_seconds "banana" = none := by
  constructor
  · rfl
  · rfl

/-- C3 amended: on a non-matching duration string the transformation raises
no error, but it removes the source field and silently discards the
unconvertible value — `nodeStartupTimeout` is popped with no
`nodeStartupTimeoutSeconds` written and no changed flag, and an
unhealthyConditions entry gets no `timeoutSeconds` entry. -/
theorem mhc_malformed_duration_amended :
    (∀ spec checks s, getEntry spec "nodeStartupTimeout" = some (Node.str s) →
      duration_to_seconds s = none →
      mhcStepStartup spec checks = (delEntry spec "nodeStartupTimeout", checks, false)) ∧
    (∀ cond s, getEntry cond "timeout" = some (Node.str s) →
      duration_to_seconds s = none →
      hasKey (convertCond cond) "timeoutSeconds" = false) := by
  constructor
  · intro spec checks s hget hdur
    rw [mhcStepStartup, hget]
    simp only [hdur]
  · intro cond s hget hdur
    rw [convertCond, hget]
    simp only [hdur]
    cases ht : getEntry cond "type" with
    | none =>
      cases hs : getEntry cond "status" with
      | none => simp [hasKey]
      | some sv => simp [hasKey]
    | some tv =>
      cases hs : getEntry cond "status" with
      | none => simp [hasKey]
      | some sv => simp [hasKey]

/-- Witness for the amended C3 at concrete inputs. -/
theorem mhc_malformed_duration_amended_witness :
    mhcStepStartup [("nodeStartupTimeout", Node.str "10x")] [] =
      (delEntry [("nodeStartupTimeout", Node.str "10x")] "nodeStartupTimeout", [], false) ∧
    hasKey (convertCond [("type", Node.str "Ready"), ("timeout", Node.str "10x")])
      "timeoutSeconds" = false := by
  constructor
  · exact mhc_malformed_duration_amended.1 [("nodeStartupTimeout", Node.str "10x")] []
      "10x" rfl rfl
  · exact mhc_malformed_duration_amended.2
      [("type", Node.str "Ready"), ("timeout", Node.str "10x")] "10x" rfl rfl

/-! ### C4: strict-type fatality -/

/-- C4 counterexample: a mapping whose `extraArgs` value is a plain string
(neither Mapping nor Sequence) raises no error at all — `transform` returns
the node untouched with a false changed flag. -/
theorem extraArgs_not_fatal_counterexample :
    transform 3 (Node.map [("extraArgs", Node.str "x")]) =
      .ok (Node.map [("extraArgs", Node.str "x")], false) := by
  rfl

/-- C4 amended: only `kubeletExtraArgs` is strict — a value that is neither a
Mapping nor a Sequence under `kubeletExtraArgs` makes `transform` raise the
fatal TypeError, while such a value under `extraArgs` is left in place with
no error and no change. -/
theorem kubeletExtraArgs_fatality_amended :
    (∀ fuel es v, getEntry es "kubeletExtraArgs" = some v →
      (∀ m, v ≠ Node.map m) → (∀ xs, v ≠ Node.seq xs) →
      transform (fuel + 1) (Node.map es) = .error "Unexpected kubeletExtraArgs type") ∧
    (∀ es v, getEntry es "extraArgs" = some v → (∀ m, v ≠ Node.map m) →
      stepExtraArgs es = (es, false)) := by
  constructor
  · intro fuel es v hget hnm hns
    have hsk : stepKubelet es = .error "Unexpected kubeletExtraArgs type" := by
      rw [stepKubelet, hget]
      cases v with
      | map m => exact absurd rfl (hnm m)
      | seq xs => exact absurd rfl (hns xs)
      | str s => rfl
      | int n => rfl
      | bool b => rfl
      | null => rfl
    rw [transform, applyRules, hsk]
  · intro es v hget hnm
    rw [stepExtraArgs, hget]
    cases v with
    | map m => exact absurd rfl (hnm m)
    | seq xs => rfl
    | str s => rfl
    | int n => rfl
    | bool b => rfl
    | null => rfl

/-- Witness for the amended C4 at concrete inputs. -/
theorem kubeletExtraArgs_fatality_amended_witness :
    transform 1 (Node.map [("kubeletExtraArgs", Node.str "x")]) =
      .error "Unexpected kubeletExtraArgs type" ∧
    stepExtraArgs [("extraArgs", Node.int 3)] = ([("extraArgs", Node.int 3)], false) := by
  constructor
  · exact kubeletExtraArgs_fatality_amended.1 0 [("kubeletExtraArgs", Node.str "x")]
      (Node.str "x") rfl (fun m h => Node.noConfusion h) (fun xs h => Node.noConfusion h)
  · exact kubeletExtraArgs_fatality_amended.2 [("extraArgs", Node.int 3)]
      (Node.int 3) rfl (fun m h => Node.noConfusion h)

/-! ### Frame lemmas for the rule steps -/

theorem stepKubelet_frame (es : Entries) (r : Entries × Bool)
    (h : stepKubelet es = .ok r) (k : String) (hk : k ≠ "kubeletExtraArgs") :
    getEntry r.1 k = getEntry es k := by
  rw [stepKubelet] at h
  cases hg : getEntry es "kubeletExtraArgs" with
  | none => rw [hg] at h; cases h; rfl
  | some v =>
    rw [hg] at h
    cases v with
    | map m =>
      cases h
      simp [getEntry_setEntry, hk]
    | seq xs => cases h; rfl
    | str s => cases h
    | int n => cases h
    | bool b => cases h
    | null => cases h

theorem stepExtraArgs_frame (es : Entries) (k : String) (hk : k ≠ "extraArgs") :
    getEntry (stepExtraArgs es).1 k = getEntry es k := by
  rw [stepExtraArgs]
  cases hg : getEntry es "extraArgs" with
  | none => rfl
  | some v =>
    cases v <;> simp [getEntry_setEntry, hk]

theorem stepRef_frame (es : Entries) (key k : String) (hk : k ≠ key) :
    getEntry (stepRef es key).1 k = getEntry es k := by
  rw [stepRef]
  cases hg : getEntry es key with
  | none => rfl
  | some v =>
    cases v <;> simp [getEntry_setEntry, hk]

theorem stepRefs_frame (es : Entries) (k : String)
    (h1 : k ≠ "infrastructureRef") (h2 : k ≠ "controlPlaneRef") (h3 : k ≠ "configRef") :
    getEntry (stepRefs es).1 k = getEntry es k := by
  rw [stepRefs]
  rw [stepRef_frame _ "configRef" k h3, stepRef_frame _ "controlPlaneRef" k h2,
    stepRef_frame _ "infrastructureRef" k h1]

theorem stepCPE_frame (es : Entries) (k : String) (hk : k ≠ "controlPlaneEndpoint") :
    getEntry (stepCPE es).1 k = getEntry es k := by
  rw [stepCPE]
  cases hg : getEntry es "controlPlaneEndpoint" with
  | none => rfl
  | some v =>
    cases v with
    | map cm =>
      by_cases hb : (match getEntry cm "host" with
        | none => true
        | some v => strBlank v) = true
      · simp [hb, getEntry_delEntry, hk]
      · simp [hb]
    | str s => rfl
    | int n => rfl
    | bool b => rfl
    | null => rfl
    | seq xs => rfl

theorem mhc_frame (es : Entries) (k : String) (hk : k ≠ "spec") :
    getEntry (transform_machine_health_check es).1 k = getEntry es k := by
  rw [transform_machine_health_check]
  cases hg : getEntry es "spec" with
  | none => rfl
  | some v =>
    cases v <;> simp [getEntry_setEntry, hk]

theorem stepMHC_frame (es : Entries) (k : String) (hk : k ≠ "spec") :
    getEntry (stepMHC es).1 k = getEntry es k := by
  rw [stepMHC]
  by_cases hkind : kindIs es "MachineHealthCheck" = true
  · rw [if_pos hkind]
    exact mhc_frame es k hk
  · rw [if_neg hkind]

theorem stepKCP_frame (es : Entries) (k : String) (hk : k ≠ "spec") :
    getEntry (stepKCP es).1 k = getEntry es k := by
  rw [stepKCP]
  by_cases hkind : kindIs es "KubeadmControlPlane" = true
  · rw [if_pos hkind]
    cases hg : getEntry es "spec" with
    | none => simp
    | some v =>
      cases v with
      | map sm =>
        cases hg2 : getEntry sm "machineTemplate" with
        | none => simp [hg2]
        | some w =>
          cases w <;> simp [hg2, getEntry_setEntry, hk]
      | str s => simp
      | int n => simp
      | bool b => simp
      | null => simp
      | seq xs => simp
  · rw [if_neg hkind]

/-- Composite frame: the rules after the kubeletExtraArgs rule leave a key
outside their written set untouched. -/
theorem rulesTail_frame (es : Entries) (k : String)
    (h2 : k ≠ "extraArgs") (h3a : k ≠ "infrastructureRef")
    (h3b : k ≠ "controlPlaneRef") (h3c : k ≠ "configRef")
    (h4 : k ≠ "controlPlaneEndpoint") (h5 : k ≠ "spec") :
    getEntry (rulesTail es).1 k = getEntry es k := by
  rw [rulesTail]
  rw [stepKCP_frame _ k h5, stepMHC_frame _ k h5, stepCPE_frame _ k h4,
    stepRefs_frame _ k h3a h3b h3c, stepExtraArgs_frame _ k h2]

/-! ### C5: mapping-to-list normalization -/

theorem applyRules_ok (es : Entries) (r1 : Entries × Bool)
    (h : stepKubelet es = .ok r1) :
    applyRules es = .ok ((rulesTail r1.1).1, r1.2 || (rulesTail r1.1).2) := by
  rw [applyRules, h]

/-- C5 (mapping-to-list): a Mapping under `kubeletExtraArgs` is replaced by
the Sequence of `{name, value}` maps in original key order with the changed
flag set (likewise for `extraArgs`); a Sequence value is left untouched by
the rule with no flag; and the whole `transform` reports a change. -/
theorem mapping_to_list_normalization :
    (∀ es m, getEntry es "kubeletExtraArgs" = some (Node.map m) →
      ∃ es6, applyRules es = .ok (es6, true) ∧
        getEntry es6 "kubeletExtraArgs" = some (Node.seq (convert_mapping_to_seq m))) ∧
    (∀ es xs, getEntry es "kubeletExtraArgs" = some (Node.seq xs) →
      stepKubelet es = .ok (es, false)) ∧
    (∀ es r1 m, stepKubelet es = .ok r1 →
      getEntry es "extraArgs" = some (Node.map m) →
      ∃ es6, applyRules es = .ok (es6, true) ∧
        getEntry es6 "extraArgs" = some (Node.seq (convert_mapping_to_seq m))) ∧
    (∀ fuel es m r, getEntry es "kubeletExtraArgs" = some (Node.map m) →
      transform (fuel + 1) (Node.map es) = .ok r → r.2 = true) ∧
    (∀ m, (convert_mapping_to_seq m).length = m.length ∧
      ∀ i (h : i < (convert_mapping_to_seq m).length),
        (convert_mapping_to_seq m).get ⟨i, h⟩ =
          Node.map [("name", Node.str (m.get ⟨i, by simpa [convert_mapping_to_seq] using h⟩).1),
                    ("value", (m.get ⟨i, by simpa [convert_mapping_to_seq] using h⟩).2)]) := by
  have hkub : ∀ es m, getEntry es "kubeletExtraArgs" = some (Node.map m) →
      stepKubelet es =
        .ok (setEntry es "kubeletExtraArgs" (Node.seq (convert_mapping_to_seq m)), true) := by
    intro es m hget
    rw [stepKubelet, hget]
  have hmain : ∀ es m, getEntry es "kubeletExtraArgs" = some (Node.map m) →
      ∃ es6, applyRules es = .ok (es6, true) ∧
        getEntry es6 "kubeletExtraArgs" = some (Node.seq (convert_mapping_to_seq m)) := by
    intro es m hget
    refine ⟨(rulesTail (setEntry es "kubeletExtraArgs"
      (Node.seq (convert_mapping_to_seq m)))).1, ?_, ?_⟩
    · rw [applyRules_ok es _ (hkub es m hget)]
      simp
    · rw [rulesTail_frame _ "kubeletExtraArgs" (by decide) (by decide) (by decide)
        (by decide) (by decide) (by decide)]
      rw [getEntry_setEntry, if_pos rfl]
  refine ⟨hmain, ?_, ?_, ?_, ?_⟩
  · intro es xs hget
    rw [stepKubelet, hget]
  · intro es r1 m h1 hget
    have hget1 : getEntry r1.1 "extraArgs" = some (Node.map m) := by
      rw [stepKubelet_frame es r1 h1 "extraArgs" (by decide), hget]
    have h2 : stepExtraArgs r1.1 =
        (setEntry r1.1 "extraArgs" (Node.seq (convert_mapping_to_seq m)), true) := by
      rw [stepExtraArgs, hget1]
    refine ⟨(rulesTail r1.1).1, ?_, ?_⟩
    · rw [applyRules_ok es r1 h1]
      have hflag : (rulesTail r1.1).2 = true := by
        rw [rulesTail, h2]
        simp
      rw [hflag]
      simp
    · rw [rulesTail, h2]
      simp only
      rw [stepKCP_frame _ "extraArgs" (by decide), stepMHC_frame _ "extraArgs" (by decide),
        stepCPE_frame _ "extraArgs" (by decide),
        stepRefs_frame _ "extraArgs" (by decide) (by decide) (by decide)]
      rw [getEntry_setEntry, if_pos rfl]
  · intro fuel es m r hget htr
    obtain ⟨es6, hrules, _⟩ := hmain es m hget
    rw [transform] at htr
    rw [hrules] at htr
    simp only at htr
    cases hte : transformEntries fuel es6 with
    | error e =>
      rw [hte] at htr
      cases htr
    | ok r2 =>
      rw [hte] at htr
      cases htr
      simp
  · intro m
    refine ⟨by simp [convert_mapping_to_seq], ?_⟩
    intro i h
    simp [convert_mapping_to_seq]

/-- Witness for C5 at concrete inputs. -/
theorem mapping_to_list_normalization_witness :
    (∃ es6, applyRules [("kubeletExtraArgs",
        Node.map [("a", Node.str "1"), ("b", Node.str "2")])] = .ok (es6, true) ∧
      getEntry es6 "kubeletExtraArgs" = some (Node.seq (convert_mapping_to_seq
        [("a", Node.str "1"), ("b", Node.str "2")]))) ∧
    stepKubelet [("kubeletExtraArgs", Node.seq [Node.str "x"])] =
      .ok ([("kubeletExtraArgs", Node.seq [Node.str "x"])], false) := by
  constructor
  · exact mapping_to_list_normalization.1
      [("kubeletExtraArgs", Node.map [("a", Node.str "1"), ("b", Node.str "2")])]
      [("a", Node.str "1"), ("b", Node.str "2")] rfl
  · exact mapping_to_list_normalization.2.1
      [("kubeletExtraArgs", Node.seq [Node.str "x"])] [Node.str "x"] rfl

/-! ### C8: reference-block normalization -/

/-- C8 counterexample: for the reference `{apiVersion: "/v1"}` the inference
succeeds (rule 1 returns the empty substring before the first slash), and
`apiGroup` is absent, yet the rule does not set it: the falsy empty string is
discarded, only the apiVersion deletion happens. -/
theorem reference_normalization_counterexample :
    infer_api_group [("apiVersion", Node.str "/v1")] = some "" ∧
    processRef [("apiVersion", Node.str "/v1")] = ([], true) ∧
    transform 4 (Node.map [("infrastructureRef", Node.map [("apiVersion", Node.str "/v1")])]) =
      .ok (Node.map [("infrastructureRef", Node.map [])], true) := by
  refine ⟨rfl, rfl, rfl⟩

/-- C8 amended: apiGroup is set (with the changed flag) only when it is
absent and inference yields a non-empty group; an inference failure or an
inferred empty group leaves apiGroup unset; apiVersion is deleted and the
flag set whenever it is present. -/
theorem reference_normalization_amended :
    (∀ rv g, hasKey rv "apiGroup" = false → infer_api_group rv = some g → g ≠ "" →
      refApiGroupStep rv = (setEntry rv "apiGroup" (Node.str g), true)) ∧
    (∀ rv, hasKey rv "apiGroup" = false → infer_api_group rv = some "" →
      refApiGroupStep rv = (rv, false)) ∧
    (∀ rv, hasKey rv "apiGroup" = false → infer_api_group rv = none →
      refApiGroupStep rv = (rv, false)) ∧
    (∀ rv, hasKey rv "apiGroup" = true → refApiGroupStep rv = (rv, false)) ∧
    (∀ rv, hasKey rv "apiVersion" = true →
      refApiVersionStep rv = (delEntry rv "apiVersion", true)) ∧
    (∀ rv, hasKey rv "apiVersion" = false → refApiVersionStep rv = (rv, false)) ∧
    (∀ rv, hasKey rv "apiVersion" = true →
      (processRef rv).2 = true ∧ hasKey (processRef rv).1 "apiVersion" = false) ∧
    (∀ es key rv, getEntry es key = some (Node.map rv) →
      stepRef es key = (setEntry es key (Node.map (processRef rv).1), (processRef rv).2)) := by
  have hgroup_preserves : ∀ rv, hasKey (refApiGroupStep rv).1 "apiVersion" =
      hasKey rv "apiVersion" := by
    intro rv
    rw [refApiGroupStep]
    by_cases hg : hasKey rv "apiGroup" = true
    · rw [if_pos hg]
    · rw [if_neg hg]
      cases hi : infer_api_group rv with
      | none => rfl
      | some g =>
        by_cases hge : g = ""
        · simp [hge]
        · simp [hge]
  refine ⟨?_, ?_, ?_, ?_, ?_, ?_, ?_, ?_⟩
  · intro rv g hg hi hge
    rw [refApiGroupStep, if_neg (by simp [hg]), hi]
    simp [hge]
  · intro rv hg hi
    rw [refApiGroupStep, if_neg (by simp [hg]), hi]
    simp
  · intro rv hg hi
    rw [refApiGroupStep, if_neg (by simp [hg]), hi]
  · intro rv hg
    rw [refApiGroupStep, if_pos hg]
  · intro rv hv
    rw [refApiVersionStep, if_pos hv]
  · intro rv hv
    rw [refApiVersionStep, if_neg (by simp [hv])]
  · intro rv hv
    have hv1 : hasKey (refApiGroupStep rv).1 "apiVersion" = true := by
      rw [hgroup_preserves rv, hv]
    constructor
    · rw [processRef, refApiVersionStep, if_pos hv1]
      simp
    · rw [processRef]
      simp only
      rw [refApiVersionStep, if_pos hv1]
      simp
  · intro es key rv hget
    rw [stepRef, hget]

/-- Witness for the amended C8 at concrete inputs. -/
theorem reference_normalization_amended_witness :
    refApiGroupStep [("kind", Node.str "HCloudCluster")] =
      (setEntry [("kind", Node.str "HCloudCluster")] "apiGroup"
        (Node.str "infrastructure.cluster.x-k8s.io"), true) ∧
    refApiGroupStep [("apiVersion", Node.str "/v1")] =
      ([("apiVersion", Node.str "/v1")], false) ∧
    refApiVersionStep [("apiVersion", Node.str "a/b")] =
      (delEntry [("apiVersion", Node.str "a/b")] "apiVersion", true) ∧
    (processRef [("apiVersion", Node.str "a/b"), ("apiGroup", Node.str "a")]).2 = true ∧
    hasKey (processRef [("apiVersion", Node.str "a/b"), ("apiGroup", Node.str "a")]).1
      "apiVersion" = false := by
  refine ⟨?_, ?_, ?_, ?_, ?_⟩
  · exact reference_normalization_amended.1 [("kind", Node.str "HCloudCluster")]
      "infrastructure.cluster.x-k8s.io" rfl rfl (by decide)
  · exact reference_normalization_amended.2.1 [("apiVersion", Node.str "/v1")] rfl rfl
  · exact reference_normalization_amended.2.2.2.2.1 [("apiVersion", Node.str "a/b")] rfl
  · exact (reference_normalization_amended.2.2.2.2.2.2.1
      [("apiVersion", Node.str "a/b"), ("apiGroup", Node.str "a")] rfl).1
  · exact (reference_normalization_amended.2.2.2.2.2.2.1
      [("apiVersion", Node.str "a/b"), ("apiGroup", Node.str "a")] rfl).2

/-! ### C9: the file-level change decision -/

theorem transformDocs_flag (fuel : Nat) (ds : List Node) (r : List Node × Bool)
    (h : transformDocs fuel ds = .ok r) :
    (r.2 = true ↔ ∃ d ∈ ds, ∃ rd, transform fuel d = .ok rd ∧ rd.2 = true) := by
  induction ds generalizing r with
  | nil =>
    rw [transformDocs] at h
    cases h
    simp
  | cons d ds ih =>
    rw [transformDocs] at h
    cases htd : transform fuel d with
    | error e => rw [htd] at h; cases h
    | ok rd =>
      rw [htd] at h
      cases htds : transformDocs fuel ds with
      | error e => rw [htds] at h; cases h
      | ok rr =>
        rw [htds] at h
        cases h
        simp only [Bool.or_eq_true, List.mem_cons]
        constructor
        · intro hor
          cases hor with
          | inl hd => exact ⟨d, Or.inl rfl, rd, htd, hd⟩
          | inr hr =>
            obtain ⟨d2, hmem, rd2, h1, h2⟩ := (ih rr htds).mp hr
            exact ⟨d2, Or.inr hmem, rd2, h1, h2⟩
        · intro hex
          obtain ⟨d2, hmem, rd2, h1, h2⟩ := hex
          cases hmem with
          | inl heq =>
            subst heq
            rw [htd] at h1
            cases h1
            exact Or.inl h2
          | inr hmem =>
            exact Or.inr ((ih rr htds).mpr ⟨d2, hmem, rd2, h1, h2⟩)

/-- C9 (file-level change decision): `process_file` performs the global
v1beta1-to-v1beta2 substitution on the raw text before parsing (the
documents are parsed from the substituted text), and its returned flag —
which alone decides the rewrite and the "Updated" report — is true iff the
substitution altered the text or `transform` returned true for at least one
parsed document. -/
theorem process_file_decision (fuel : Nat) (parse : String → List Node)
    (text : String) (b : Bool) (docs1 : List Node)
    (h : process_file fuel parse text = .ok (b, docs1)) :
    (b = true ↔ (pyReplace text legacyId successorId ≠ text ∨
      ∃ d ∈ parse (pyReplace text legacyId successorId), ∃ rd,
        transform fuel d = .ok rd ∧ rd.2 = true)) ∧
    (∃ r, transformDocs fuel (parse (pyReplace text legacyId successorId)) = .ok r ∧
      docs1 = r.1) := by
  rw [process_file] at h
  cases htd : transformDocs fuel (parse (pyReplace text legacyId successorId)) with
  | error e => rw [htd] at h; cases h
  | ok r =>
    rw [htd] at h
    cases h
    refine ⟨?_, ⟨r, rfl, rfl⟩⟩
    rw [Bool.or_eq_true, decide_eq_true_iff]
    rw [transformDocs_flag fuel _ r htd]

/-- Witness for C9 at a concrete input: a file whose only occurrence of the
legacy identifier is inside a comment, with one trivial document. -/
theorem process_file_decision_witness :
    process_file 1 (fun _ => [Node.null]) "# cluster.x-k8s.io/v1beta1\n" =
      .ok (true, [Node.null]) ∧
    (true = true ↔ (pyReplace "# cluster.x-k8s.io/v1beta1\n" legacyId successorId ≠
        "# cluster.x-k8s.io/v1beta1\n" ∨
      ∃ d ∈ (fun (_ : String) => [Node.null]) (pyReplace "# cluster.x-k8s.io/v1beta1\n"
          legacyId successorId), ∃ rd, transform 1 d = .ok rd ∧ rd.2 = true)) := by
  constructor
  · rfl
  · exact (process_file_decision 1 (fun _ => [Node.null]) "# cluster.x-k8s.io/v1beta1\n"
      true [Node.null] rfl).1

/-! ### C1 and C2 counterexamples -/

/-- C1 counterexample: for the document
`{infrastructureRef: {apiVersion: "/v1", kind: KubeadmControlPlane}}` the
first application completes without the fatal kubeletExtraArgs error (rule 1
infers the falsy empty group and only deletes apiVersion), yet the second
application changes the tree again (the kind table now fires) and returns
true. -/
theorem idempotence_counterexample :
    transform 10 (Node.map [("infrastructureRef",
        Node.map [("apiVersion", Node.str "/v1"), ("kind", Node.str "KubeadmControlPlane")])]) =
      .ok (Node.map [("infrastructureRef",
        Node.map [("kind", Node.str "KubeadmControlPlane")])], true) ∧
    transform 10 (Node.map [("infrastructureRef",
        Node.map [("kind", Node.str "KubeadmControlPlane")])]) =
      .ok (Node.map [("infrastructureRef",
        Node.map [("kind", Node.str "KubeadmControlPlane"),
          ("apiGroup", Node.str "controlplane.cluster.x-k8s.io")])], true) ∧
    getPath (Node.map [("infrastructureRef",
        Node.map [("kind", Node.str "KubeadmControlPlane"),
          ("apiGroup", Node.str "controlplane.cluster.x-k8s.io")])])
      ["infrastructureRef", "apiGroup"] = some (Node.str "controlplane.cluster.x-k8s.io") ∧
    getPath (Node.map [("infrastructureRef",
        Node.map [("kind", Node.str "KubeadmControlPlane")])])
      ["infrastructureRef", "apiGroup"] = none := by
  exact ⟨rfl, rfl, rfl, rfl⟩

/-- C2 counterexample: for the MachineHealthCheck node with
`spec.nodeStartupTimeout: "x"` the transform returns false, yet the tree
after the call differs from its form before (the key was silently popped). -/
theorem changed_flag_counterexample :
    transform 10 (Node.map [("kind", Node.str "MachineHealthCheck"),
        ("spec", Node.map [("nodeStartupTimeout", Node.str "x")])]) =
      .ok (Node.map [("kind", Node.str "MachineHealthCheck"),
        ("spec", Node.map [])], false) ∧
    Node.map [("kind", Node.str "MachineHealthCheck"), ("spec", Node.map [])] ≠
      Node.map [("kind", Node.str "MachineHealthCheck"),
        ("spec", Node.map [("nodeStartupTimeout", Node.str "x")])] := by
  constructor
  · rfl
  · intro h
    have hobs := congrArg (fun n => getPath n ["spec", "nodeStartupTimeout"]) h
    simp only [getPath, getEntry] at hobs
    exact Option.noConfusion hobs

/-! ### Deep tree predicates and transform shape lemmas -/

mutual

/-- Every mapping in the tree satisfies `Q`. -/
def NodeAll (Q : Entries → Prop) : Node → Prop
  | .map es => Q es ∧ EntriesAll Q es
  | .seq xs => ItemsAll Q xs
  | _ => True

/-- Every mapping in any entry value satisfies `Q`. -/
def EntriesAll (Q : Entries → Prop) : Entries → Prop
  | [] => True
  | e :: rest => NodeAll Q e.2 ∧ EntriesAll Q rest

/-- Every mapping in any item satisfies `Q`. -/
def ItemsAll (Q : Entries → Prop) : List Node → Prop
  | [] => True
  | x :: rest => NodeAll Q x ∧ ItemsAll Q rest

end

theorem getEntry_mem (es : Entries) (k : String) (v : Node)
    (h : getEntry es k = some v) : (k, v) ∈ es := by
  induction es with
  | nil => simp at h
  | cons e rest ih =>
    obtain ⟨k1, w⟩ := e
    rw [getEntry_cons] at h
    by_cases h1 : k1 = k
    · rw [if_pos h1] at h
      cases h
      rw [h1]
      exact List.mem_cons_self _ _
    · rw [if_neg h1] at h
      exact List.mem_cons_of_mem _ (ih h)

theorem EntriesAll_mem (Q : Entries → Prop) (es : Entries) (k : String) (v : Node)
    (hall : EntriesAll Q es) (h : (k, v) ∈ es) : NodeAll Q v := by
  induction es with
  | nil => simp at h
  | cons e rest ih =>
    rw [EntriesAll] at hall
    rcases List.mem_cons.mp h with h1 | h1
    · rw [← h1] at hall
      exact hall.1
    · exact ih hall.2 h1

theorem ItemsAll_mem (Q : Entries → Prop) (xs : List Node) (x : Node)
    (hall : ItemsAll Q xs) (h : x ∈ xs) : NodeAll Q x := by
  induction xs with
  | nil => simp at h
  | cons y rest ih =>
    rw [ItemsAll] at hall
    rcases List.mem_cons.mp h with h1 | h1
    · rw [h1]
      exact hall.1
    · exact ih hall.2 h1

/-- Completed transforms on scalars are the identity with a false flag. -/
theorem transform_scalar (fuel : Nat) (n : Node) (r : Node × Bool)
    (hscalar : (∀ es, n ≠ .map es) ∧ (∀ xs, n ≠ .seq xs))
    (h : transform fuel n = .ok r) : r = (n, false) := by
  cases fuel with
  | zero => cases h
  | succ f =>
    cases n with
    | map es => exact absurd rfl (hscalar.1 es)
    | seq xs => exact absurd rfl (hscalar.2 xs)
    | str s => cases h; rfl
    | int m => cases h; rfl
    | bool b => cases h; rfl
    | null => cases h; rfl

/-- Structure of a completed transform at a mapping node. -/
theorem transform_map_unfold (fuel : Nat) (es : Entries) (r : Node × Bool)
    (h : transform (fuel + 1) (Node.map es) = .ok r) :
    ∃ r1 r2, applyRules es = .ok r1 ∧ transformEntries fuel r1.1 = .ok r2 ∧
      r = (.map r2.1, r1.2 || r2.2) := by
  rw [transform] at h
  cases har : applyRules es with
  | error e => rw [har] at h; cases h
  | ok r1 =>
    rw [har] at h
    simp only at h
    cases hte : transformEntries fuel r1.1 with
    | error e => rw [hte] at h; cases h
    | ok r2 =>
      rw [hte] at h
      cases h
      exact ⟨r1, r2, rfl, hte, rfl⟩

/-- Structure of a completed transform at a sequence node. -/
theorem transform_seq_unfold (fuel : Nat) (xs : List Node) (r : Node × Bool)
    (h : transform (fuel + 1) (Node.seq xs) = .ok r) :
    ∃ r2, transformItems fuel xs = .ok r2 ∧ r = (.seq r2.1, r2.2) := by
  rw [transform] at h
  cases hti : transformItems fuel xs with
  | error e => rw [hti] at h; cases h
  | ok r2 =>
    rw [hti] at h
    cases h
    exact ⟨r2, rfl, rfl⟩

/-- Structure of a completed entries walk: cons case. -/
theorem transformEntries_cons (fuel : Nat) (k : String) (v : Node) (rest : Entries)
    (r : Entries × Bool) (h : transformEntries (fuel + 1) ((k, v) :: rest) = .ok r) :
    ∃ rv rr, transform fuel v = .ok rv ∧ transformEntries fuel rest = .ok rr ∧
      r = ((k, rv.1) :: rr.1, rv.2 || rr.2) := by
  rw [transformEntries] at h
  cases htv : transform fuel v with
  | error e => rw [htv] at h; cases h
  | ok rv =>
    rw [htv] at h
    cases htr : transformEntries fuel rest with
    | error e => rw [htr] at h; cases h
    | ok rr =>
      rw [htr] at h
      cases h
      exact ⟨rv, rr, rfl, rfl, rfl⟩

theorem transformEntries_nil (fuel : Nat) (r : Entries × Bool)
    (h : transformEntries fuel [] = .ok r) : r = ([], false) := by
  cases fuel with
  | zero => cases h
  | succ f => cases h; rfl

theorem transformItems_cons (fuel : Nat) (x : Node) (rest : List Node)
    (r : List Node × Bool) (h : transformItems (fuel + 1) (x :: rest) = .ok r) :
    ∃ rx rr, transform fuel x = .ok rx ∧ transformItems fuel rest = .ok rr ∧
      r = (rx.1 :: rr.1, rx.2 || rr.2) := by
  rw [transformItems] at h
  cases htv : transform fuel x with
  | error e => rw [htv] at h; cases h
  | ok rx =>
    rw [htv] at h
    cases htr : transformItems fuel rest with
    | error e => rw [htr] at h; cases h
    | ok rr =>
      rw [htr] at h
      cases h
      exact ⟨rx, rr, rfl, rfl, rfl⟩

theorem transformItems_nil (fuel : Nat) (r : List Node × Bool)
    (h : transformItems fuel [] = .ok r) : r = ([], false) := by
  cases fuel with
  | zero => cases h
  | succ f => cases h; rfl

/-- Pointwise description of a completed entries walk: keys are preserved
exactly, and each value is the completed transform of the old value (at some
fuel). -/
theorem transformEntries_pointwise (fuel : Nat) (es : Entries) (r : Entries × Bool)
    (h : transformEntries fuel es = .ok r) :
    (∀ k, getEntry es k = none → getEntry r.1 k = none) ∧
    (∀ k v, getEntry es k = some v →
      ∃ f2 rv, transform f2 v = .ok rv ∧ getEntry r.1 k = some rv.1) ∧
    (∀ k, hasKey r.1 k = hasKey es k) := by
  induction es generalizing fuel r with
  | nil =>
    have := transformEntries_nil fuel r h
    subst this
    exact ⟨fun k hk => rfl, fun k v hk => by simp at hk, fun k => rfl⟩
  | cons e rest ih =>
    obtain ⟨k1, v1⟩ := e
    cases fuel with
    | zero => cases h
    | succ f =>
      obtain ⟨rv, rr, htv, htr, hr⟩ := transformEntries_cons f k1 v1 rest r h
      subst hr
      obtain ⟨ih1, ih2, ih3⟩ := ih f rr htr
      refine ⟨?_, ?_, ?_⟩
      · intro k hk
        rw [getEntry_cons] at hk ⊢
        by_cases h1 : k1 = k
        · rw [if_pos h1] at hk; cases hk
        · rw [if_neg h1] at hk ⊢
          exact ih1 k hk
      · intro k v hk
        rw [getEntry_cons] at hk
        by_cases h1 : k1 = k
        · rw [if_pos h1] at hk
          cases hk
          exact ⟨f, rv, htv, by rw [getEntry_cons, if_pos h1]⟩
        · rw [if_neg h1] at hk
          obtain ⟨f2, rv2, h2, h3⟩ := ih2 k v hk
          exact ⟨f2, rv2, h2, by rw [getEntry_cons, if_neg h1]; exact h3⟩
      · intro k
        by_cases h1 : k1 = k
        · simp [hasKey, getEntry_cons, h1]
        · simp only [hasKey, getEntry_cons, if_neg h1]
          exact ih3 k

/-! ### hasKey-level frame lemmas and composites -/

theorem stepKubelet_hasKey (es : Entries) (r : Entries × Bool)
    (h : stepKubelet es = .ok r) (k : String) : hasKey r.1 k = hasKey es k := by
  rw [stepKubelet] at h
  cases hg : getEntry es "kubeletExtraArgs" with
  | none => rw [hg] at h; cases h; rfl
  | some v =>
    rw [hg] at h
    cases v with
    | map m =>
      cases h
      by_cases h1 : k = "kubeletExtraArgs"
      · subst h1
        simp [hasKey, hg, getEntry_setEntry]
      · simp [hasKey, getEntry_setEntry, h1]
    | seq xs => cases h; rfl
    | str s => cases h
    | int n => cases h
    | bool b => cases h
    | null => cases h

theorem stepExtraArgs_hasKey (es : Entries) (k : String) :
    hasKey (stepExtraArgs es).1 k = hasKey es k := by
  rw [stepExtraArgs]
  cases hg : getEntry es "extraArgs" with
  | none => rfl
  | some v =>
    cases v with
    | map m =>
      by_cases h1 : k = "extraArgs"
      · subst h1
        simp [hasKey, hg, getEntry_setEntry]
      · simp [hasKey, getEntry_setEntry, h1]
    | seq xs => rfl
    | str s => rfl
    | int n => rfl
    | bool b => rfl
    | null => rfl

theorem stepRef_hasKey (es : Entries) (key k : String) :
    hasKey (stepRef es key).1 k = hasKey es k := by
  rw [stepRef]
  cases hg : getEntry es key with
  | none => rfl
  | some v =>
    cases v with
    | map rv =>
      by_cases h1 : k = key
      · subst h1
        simp [hasKey, hg, getEntry_setEntry]
      · simp [hasKey, getEntry_setEntry, h1]
    | seq xs => rfl
    | str s => rfl
    | int n => rfl
    | bool b => rfl
    | null => rfl

theorem stepRefs_hasKey (es : Entries) (k : String) :
    hasKey (stepRefs es).1 k = hasKey es k := by
  rw [stepRefs]
  simp only
  rw [stepRef_hasKey, stepRef_hasKey, stepRef_hasKey]

theorem stepCPE_hasKey (es : Entries) (k : String) :
    (k ≠ "controlPlaneEndpoint" → hasKey (stepCPE es).1 k = hasKey es k) ∧
    (hasKey (stepCPE es).1 k = true → hasKey es k = true) := by
  rw [stepCPE]
  cases hg : getEntry es "controlPlaneEndpoint" with
  | none => exact ⟨fun _ => rfl, fun h => h⟩
  | some v =>
    cases v with
    | map cm =>
      by_cases hb : (match getEntry cm "host" with
        | none => true
        | some v => strBlank v) = true
      · constructor
        · intro hk
          simp [hb, hasKey, getEntry_delEntry, hk]
        · intro hk
          by_cases h1 : k = "controlPlaneEndpoint"
          · subst h1
            simp [hb, hasKey, getEntry_delEntry] at hk
          · simp [hb, hasKey, getEntry_delEntry, h1] at hk
            simp [hasKey, hk]
      · constructor
        · intro _
          simp [hb]
        · intro hk
          simp [hb] at hk
          exact hk
    | seq xs => exact ⟨fun _ => rfl, fun h => h⟩
    | str s => exact ⟨fun _ => rfl, fun h => h⟩
    | int n => exact ⟨fun _ => rfl, fun h => h⟩
    | bool b => exact ⟨fun _ => rfl, fun h => h⟩
    | null => exact ⟨fun _ => rfl, fun h => h⟩

theorem mhc_hasKey (es : Entries) (k : String) :
    hasKey (transform_machine_health_check es).1 k = hasKey es k := by
  rw [transform_machine_health_check]
  cases hg : getEntry es "spec" with
  | none => rfl
  | some v =>
    cases v with
    | map spec0 =>
      by_cases h1 : k = "spec"
      · subst h1
        simp [hasKey, hg, getEntry_setEntry]
      · simp [hasKey, getEntry_setEntry, h1]
    | seq xs => rfl
    | str s => rfl
    | int n => rfl
    | bool b => rfl
    | null => rfl

theorem stepMHC_hasKey (es : Entries) (k : String) :
    hasKey (stepMHC es).1 k = hasKey es k := by
  rw [stepMHC]
  by_cases hkind : kindIs es "MachineHealthCheck" = true
  · rw [if_pos hkind]
    exact mhc_hasKey es k
  · rw [if_neg hkind]

theorem stepKCP_hasKey (es : Entries) (k : String) :
    hasKey (stepKCP es).1 k = hasKey es k := by
  rw [stepKCP]
  by_cases hkind : kindIs es "KubeadmControlPlane" = true
  · rw [if_pos hkind]
    cases hg : getEntry es "spec" with
    | none => simp
    | some v =>
      cases v with
      | map sm =>
        cases hg2 : getEntry sm "machineTemplate" with
        | none => simp [hg2]
        | some w =>
          cases w with
          | map mtm =>
            simp only [hg2]
            by_cases h1 : k = "spec"
            · subst h1
              simp [hasKey, hg, getEntry_setEntry]
            · simp [hasKey, getEntry_setEntry, h1]
          | str s => simp [hg2]
          | int n => simp [hg2]
          | bool b => simp [hg2]
          | null => simp [hg2]
          | seq xs => simp [hg2]
      | str s => simp
      | int n => simp
      | bool b => simp
      | null => simp
      | seq xs => simp
  · rw [if_neg hkind]

/-- Keys behaviour of the whole rule phase: keys are preserved except that
`controlPlaneEndpoint` may be removed; no key is ever added. -/
theorem applyRules_keys (es : Entries) (r1 : Entries × Bool)
    (h : applyRules es = .ok r1) :
    (∀ k, k ≠ "controlPlaneEndpoint" → hasKey r1.1 k = hasKey es k) ∧
    (∀ k, hasKey r1.1 k = true → hasKey es k = true) := by
  rw [applyRules] at h
  cases hsk : stepKubelet es with
  | error e => rw [hsk] at h; cases h
  | ok rk =>
    rw [hsk] at h
    cases h
    simp only [rulesTail]
    constructor
    · intro k hk
      rw [stepKCP_hasKey, stepMHC_hasKey, (stepCPE_hasKey _ k).1 hk,
        stepRefs_hasKey, stepExtraArgs_hasKey, stepKubelet_hasKey es rk hsk]
    · intro k hk
      rw [stepKCP_hasKey, stepMHC_hasKey] at hk
      have hk2 := (stepCPE_hasKey (stepRefs (stepExtraArgs rk.1).1).1 k).2 hk
      rw [stepRefs_hasKey, stepExtraArgs_hasKey, stepKubelet_hasKey es rk hsk] at hk2
      exact hk2

/-- The rule phase never touches the `kind` entry. -/
theorem applyRules_kind (es : Entries) (r1 : Entries × Bool)
    (h : applyRules es = .ok r1) : getEntry r1.1 "kind" = getEntry es "kind" := by
  rw [applyRules] at h
  cases hsk : stepKubelet es with
  | error e => rw [hsk] at h; cases h
  | ok rk =>
    rw [hsk] at h
    cases h
    simp only [rulesTail]
    rw [stepKCP_frame _ _ (by decide), stepMHC_frame _ _ (by decide),
      stepCPE_frame _ _ (by decide), stepRefs_frame _ _ (by decide) (by decide) (by decide),
      stepExtraArgs_frame _ _ (by decide), stepKubelet_frame es rk hsk _ (by decide)]

theorem transform_map_shape (fuel : Nat) (es : Entries) (rv : Node × Bool)
    (h : transform fuel (Node.map es) = .ok rv) : ∃ es2, rv.1 = .map es2 := by
  cases fuel with
  | zero => cases h
  | succ f =>
    obtain ⟨r1, r2, _, _, hr⟩ := transform_map_unfold f es rv h
    exact ⟨r2.1, by rw [hr]⟩

theorem transform_seq_shape (fuel : Nat) (xs : List Node) (rv : Node × Bool)
    (h : transform fuel (Node.seq xs) = .ok rv) : ∃ xs2, rv.1 = .seq xs2 := by
  cases fuel with
  | zero => cases h
  | succ f =>
    obtain ⟨r2, _, hr⟩ := transform_seq_unfold f xs rv h
    exact ⟨r2.1, by rw [hr]⟩

/-- Keys behaviour of the whole transform at a mapping node. -/
theorem transform_map_keys (fuel : Nat) (es es2 : Entries) (c : Bool)
    (h : transform fuel (Node.map es) = .ok (.map es2, c)) :
    (∀ k, k ≠ "controlPlaneEndpoint" → hasKey es2 k = hasKey es k) ∧
    (∀ k, hasKey es2 k = true → hasKey es k = true) := by
  cases fuel with
  | zero => cases h
  | succ f =>
    obtain ⟨r1, r2, har, hte, hr⟩ := transform_map_unfold f es (.map es2, c) h
    obtain ⟨hak1, hak2⟩ := applyRules_keys es r1 har
    obtain ⟨_, _, hpk⟩ := transformEntries_pointwise f r1.1 r2 hte
    have hes2 : es2 = r2.1 := by
      have := congrArg Prod.fst hr
      simpa using this
    subst hes2
    constructor
    · intro k hk
      rw [hpk k, hak1 k hk]
    · intro k hk
      rw [hpk k] at hk
      exact hak2 k hk

/-! ### Identity lemmas: a false flag means the step did nothing -/

theorem stepKubelet_id (es : Entries) (r : Entries × Bool)
    (h : stepKubelet es = .ok r) (hf : r.2 = false) : r.1 = es := by
  rw [stepKubelet] at h
  cases hg : getEntry es "kubeletExtraArgs" with
  | none => rw [hg] at h; cases h; rfl
  | some v =>
    rw [hg] at h
    cases v with
    | map m => cases h; cases hf
    | seq xs => cases h; rfl
    | str s => cases h
    | int n => cases h
    | bool b => cases h
    | null => cases h

theorem stepExtraArgs_id (es : Entries) (hf : (stepExtraArgs es).2 = false) :
    (stepExtraArgs es).1 = es := by
  rw [stepExtraArgs] at hf ⊢
  cases hg : getEntry es "extraArgs" with
  | none => rfl
  | some v =>
    rw [hg] at hf
    cases v with
    | map m => cases hf
    | seq xs => rfl
    | str s => rfl
    | int n => rfl
    | bool b => rfl
    | null => rfl

theorem refApiGroupStep_id (rv : Entries) (hf : (refApiGroupStep rv).2 = false) :
    (refApiGroupStep rv).1 = rv := by
  rw [refApiGroupStep] at hf ⊢
  by_cases hg : hasKey rv "apiGroup" = true
  · rw [if_pos hg]
  · rw [if_neg hg] at hf ⊢
    cases hi : infer_api_group rv with
    | none => rfl
    | some g =>
      rw [hi] at hf
      by_cases hge : g = ""
      · simp [hge]
      · simp [hge] at hf
  
theorem refApiVersionStep_id (rv : Entries) (hf : (refApiVersionStep rv).2 = false) :
    (refApiVersionStep rv).1 = rv := by
  rw [refApiVersionStep] at hf ⊢
  by_cases hv : hasKey rv "apiVersion" = true
  · rw [if_pos hv] at hf
    cases hf
  · rw [if_neg hv]

theorem processRef_id (rv : Entries) (hf : (processRef rv).2 = false) :
    (processRef rv).1 = rv := by
  rw [processRef] at hf ⊢
  simp only [Bool.or_eq_false_iff] at hf
  have h1 := refApiGroupStep_id rv hf.1
  rw [h1] at hf ⊢
  exact refApiVersionStep_id rv hf.2

theorem stepRef_id (es : Entries) (key : String) (hf : (stepRef es key).2 = false) :
    (stepRef es key).1 = es := by
  rw [stepRef] at hf ⊢
  cases hg : getEntry es key with
  | none => rfl
  | some v =>
    rw [hg] at hf
    cases v with
    | map rv =>
      simp only at hf ⊢
      rw [processRef_id rv hf]
      exact setEntry_self es key (Node.map rv) hg
    | seq xs => rfl
    | str s => rfl
    | int n => rfl
    | bool b => rfl
    | null => rfl

theorem stepRefs_id (es : Entries) (hf : (stepRefs es).2 = false) :
    (stepRefs es).1 = es := by
  rw [stepRefs] at hf ⊢
  simp only [Bool.or_eq_false_iff] at hf
  obtain ⟨⟨h1, h2⟩, h3⟩ := hf
  have e1 := stepRef_id es "infrastructureRef" h1
  rw [e1] at h2 h3 ⊢
  have e2 := stepRef_id es "controlPlaneRef" h2
  rw [e2] at h3 ⊢
  exact stepRef_id es "configRef" h3

theorem stepCPE_id (es : Entries) (hf : (stepCPE es).2 = false) :
    (stepCPE es).1 = es := by
  rw [stepCPE] at hf ⊢
  cases hg : getEntry es "controlPlaneEndpoint" with
  | none => rfl
  | some v =>
    rw [hg] at hf
    cases v with
    | map cm =>
      by_cases hb : (match getEntry cm "host" with
        | none => true
        | some v => strBlank v) = true
      · simp [hb] at hf
      · simp [hb]
    | seq xs => rfl
    | str s => rfl
    | int n => rfl
    | bool b => rfl
    | null => rfl

theorem stepMHC_noMHC (es : Entries) (hkind : kindIs es "MachineHealthCheck" = false) :
    stepMHC es = (es, false) := by
  rw [stepMHC, if_neg (by simp [hkind])]

theorem stepKCP_id (es : Entries) (hf : (stepKCP es).2 = false) :
    (stepKCP es).1 = es := by
  rw [stepKCP] at hf ⊢
  by_cases hkind : kindIs es "KubeadmControlPlane" = true
  · rw [if_pos hkind] at hf ⊢
    cases hg : getEntry es "spec" with
    | none => rfl
    | some v =>
      rw [hg] at hf
      cases v with
      | map sm =>
        simp only at hf ⊢
        cases hg2 : getEntry sm "machineTemplate" with
        | none => simp [hg2]
        | some w =>
          rw [hg2] at hf
          cases w with
          | map mtm =>
            simp only [hg2] at hf ⊢
            have hmove : kcpMove mtm (kcpMtSpec mtm) = (mtm, kcpMtSpec mtm, false) := by
              rw [kcpMove] at hf ⊢
              cases hiv : getEntry mtm "infrastructureRef" with
              | none => rfl
              | some iv =>
                rw [hiv] at hf
                simp only at hf ⊢
                by_cases hin : hasKey (kcpMtSpec mtm) "infrastructureRef" = true
                · rw [if_pos hin]
                · rw [if_neg hin] at hf
                  cases hf
            rw [hmove]
            simp only
            have hmtm2 : (if (kcpMtSpec mtm).isEmpty then mtm
                else setEntry mtm "spec" (Node.map (kcpMtSpec mtm))) = mtm := by
              rw [kcpMtSpec]
              cases hsp : getEntry mtm "spec" with
              | none => simp [kcpMtSpec, hsp]
              | some sv =>
                cases sv with
                | map s =>
                  by_cases hse : (s : Entries).isEmpty
                  · simp [kcpMtSpec, hsp, hse]
                  · simp only [kcpMtSpec, hsp, hse, if_neg]
                    simp [hse]
                    exact setEntry_self mtm "spec" (Node.map s) hsp
                | seq xs => simp [kcpMtSpec, hsp]
                | str st => simp [kcpMtSpec, hsp]
                | int n => simp [kcpMtSpec, hsp]
                | bool b => simp [kcpMtSpec, hsp]
                | null => simp [kcpMtSpec, hsp]
            rw [hmtm2]
            rw [setEntry_self sm "machineTemplate" (Node.map mtm) hg2]
            exact setEntry_self es "spec" (Node.map sm) hg
          | str s => simp [hg2]
          | int n => simp [hg2]
          | bool b => simp [hg2]
          | null => simp [hg2]
          | seq xs => simp [hg2]
      | seq xs => rfl
      | str s => rfl
      | int n => rfl
      | bool b => rfl
      | null => rfl
  · rw [if_neg hkind]

/-- A rule phase that reports no change (at a node that is not a
MachineHealthCheck) is the identity. -/
theorem applyRules_id (es : Entries) (r1 : Entries × Bool)
    (h : applyRules es = .ok r1) (hf : r1.2 = false)
    (hkind : kindIs es "MachineHealthCheck" = false) : r1.1 = es := by
  rw [applyRules] at h
  cases hsk : stepKubelet es with
  | error e => rw [hsk] at h; cases h
  | ok rk =>
    rw [hsk] at h
    cases h
    simp only [Bool.or_eq_false_iff] at hf
    have hrk := stepKubelet_id es rk hsk hf.1
    simp only [rulesTail, Bool.or_eq_false_iff] at hf ⊢
    obtain ⟨_, ⟨⟨⟨⟨h2, h3⟩, h4⟩, h5⟩, h6⟩⟩ := hf
    rw [hrk] at h2 h3 h4 h5 h6 ⊢
    have e2 := stepExtraArgs_id es h2
    rw [e2] at h3 h4 h5 h6 ⊢
    have e3 := stepRefs_id es h3
    rw [e3] at h4 h5 h6 ⊢
    have e4 := stepCPE_id es h4
    rw [e4] at h5 h6 ⊢
    have e5 := stepMHC_noMHC es hkind
    rw [e5] at h6 ⊢
    simp only at h6 ⊢
    exact stepKCP_id es h6

/-! ### Flag lemmas: what a step did when it reported a change -/

theorem setEntry_ne_nil (es : Entries) (k : String) (v : Node) :
    setEntry es k v ≠ [] := by
  cases es with
  | nil => simp [setEntry]
  | cons e rest =>
    obtain ⟨k1, w⟩ := e
    rw [setEntry]
    by_cases h : k1 = k <;> simp [h]

theorem stepKubelet_flag (es : Entries) (rk : Entries × Bool)
    (h : stepKubelet es = .ok rk) (hf : rk.2 = true) :
    ∃ m, getEntry es "kubeletExtraArgs" = some (Node.map m) ∧
      rk.1 = setEntry es "kubeletExtraArgs" (Node.seq (convert_mapping_to_seq m)) := by
  rw [stepKubelet] at h
  cases hg : getEntry es "kubeletExtraArgs" with
  | none => rw [hg] at h; cases h; cases hf
  | some v =>
    rw [hg] at h
    cases v with
    | map m => cases h; exact ⟨m, rfl, rfl⟩
    | seq xs => cases h; cases hf
    | str s => cases h
    | int n => cases h
    | bool b => cases h
    | null => cases h

theorem stepExtraArgs_flag (es : Entries) (hf : (stepExtraArgs es).2 = true) :
    ∃ m, getEntry es "extraArgs" = some (Node.map m) ∧
      (stepExtraArgs es).1 = setEntry es "extraArgs" (Node.seq (convert_mapping_to_seq m)) := by
  rw [stepExtraArgs] at hf ⊢
  cases hg : getEntry es "extraArgs" with
  | none => rw [hg] at hf; cases hf
  | some v =>
    rw [hg] at hf
    cases v with
    | map m => exact ⟨m, rfl, rfl⟩
    | seq xs => cases hf
    | str s => cases hf
    | int n => cases hf
    | bool b => cases hf
    | null => cases hf

theorem refApiGroupStep_flag (rv : Entries) (hf : (refApiGroupStep rv).2 = true) :
    hasKey rv "apiGroup" = false ∧
    ∃ g, (refApiGroupStep rv).1 = setEntry rv "apiGroup" (Node.str g) := by
  rw [refApiGroupStep] at hf ⊢
  by_cases hk : hasKey rv "apiGroup" = true
  · rw [if_pos hk] at hf
    cases hf
  · rw [if_neg hk] at hf ⊢
    refine ⟨by simpa using hk, ?_⟩
    cases hi : infer_api_group rv with
    | none => rw [hi] at hf; cases hf
    | some g =>
      rw [hi] at hf
      simp only at hf ⊢
      by_cases hge : g = ""
      · simp [hge] at hf
      · rw [if_neg (by simpa using hge)]
        exact ⟨g, rfl⟩

theorem processRef_flag (rv : Entries) (hf : (processRef rv).2 = true) :
    (hasKey rv "apiGroup" = false ∧ hasKey (processRef rv).1 "apiGroup" = true) ∨
    (hasKey rv "apiVersion" = true ∧ hasKey (processRef rv).1 "apiVersion" = false) := by
  by_cases hg : (refApiGroupStep rv).2 = true
  · left
    obtain ⟨hno, g, hset⟩ := refApiGroupStep_flag rv hg
    refine ⟨hno, ?_⟩
    rw [processRef]
    simp only
    rw [refApiVersionStep, hset]
    by_cases hv : hasKey (setEntry rv "apiGroup" (Node.str g)) "apiVersion" = true
    · rw [if_pos hv]
      simp
    · rw [if_neg hv]
      simp
  · right
    have hg0 : (refApiGroupStep rv).2 = false := by simpa using hg
    have hid := refApiGroupStep_id rv hg0
    rw [processRef] at hf
    simp only [hg0, Bool.false_or] at hf
    rw [hid] at hf
    rw [refApiVersionStep] at hf
    by_cases hv : hasKey rv "apiVersion" = true
    · refine ⟨hv, ?_⟩
      rw [processRef]
      simp only
      rw [hid, refApiVersionStep, if_pos hv]
      simp
    · rw [if_neg hv] at hf
      cases hf

theorem stepRef_flag (es : Entries) (key : String) (hf : (stepRef es key).2 = true) :
    ∃ rv, getEntry es key = some (Node.map rv) ∧
      (stepRef es key).1 = setEntry es key (Node.map (processRef rv).1) ∧
      (processRef rv).2 = true := by
  rw [stepRef] at hf ⊢
  cases hg : getEntry es key with
  | none => rw [hg] at hf; cases hf
  | some v =>
    rw [hg] at hf
    cases v with
    | map rv => exact ⟨rv, rfl, rfl, hf⟩
    | seq xs => cases hf
    | str s => cases hf
    | int n => cases hf
    | bool b => cases hf
    | null => cases hf

theorem stepCPE_flag (es : Entries) (hf : (stepCPE es).2 = true) :
    hasKey es "controlPlaneEndpoint" = true ∧
    (stepCPE es).1 = delEntry es "controlPlaneEndpoint" := by
  rw [stepCPE] at hf ⊢
  cases hg : getEntry es "controlPlaneEndpoint" with
  | none => rw [hg] at hf; cases hf
  | some v =>
    rw [hg] at hf
    cases v with
    | map cm =>
      by_cases hb : (match getEntry cm "host" with
        | none => true
        | some v => strBlank v) = true
      · simp only [hb, if_pos] at hf ⊢
        exact ⟨by simp [hasKey, hg], by simp⟩
      · simp [hb] at hf
    | seq xs => cases hf
    | str s => cases hf
    | int n => cases hf
    | bool b => cases hf
    | null => cases hf

theorem stepKCP_flag (es : Entries) (hf : (stepKCP es).2 = true) :
    ∃ sm mtm iv, getEntry es "spec" = some (Node.map sm) ∧
      getEntry sm "machineTemplate" = some (Node.map mtm) ∧
      getEntry mtm "infrastructureRef" = some iv ∧
      hasKey (kcpMtSpec mtm) "infrastructureRef" = false ∧
      (stepKCP es).1 = setEntry es "spec" (Node.map (setEntry sm "machineTemplate"
        (Node.map (setEntry (delEntry mtm "infrastructureRef") "spec"
          (Node.map (setEntry (kcpMtSpec mtm) "infrastructureRef" iv)))))) := by
  rw [stepKCP] at hf ⊢
  by_cases hkind : kindIs es "KubeadmControlPlane" = true
  · rw [if_pos hkind] at hf ⊢
    cases hg : getEntry es "spec" with
    | none => rw [hg] at hf; cases hf
    | some v =>
      rw [hg] at hf
      cases v with
      | map sm =>
        simp only at hf ⊢
        cases hg2 : getEntry sm "machineTemplate" with
        | none => rw [hg2] at hf; cases hf
        | some w =>
          rw [hg2] at hf
          cases w with
          | map mtm =>
            simp only at hf ⊢
            rw [kcpMove] at hf ⊢
            cases hiv : getEntry mtm "infrastructureRef" with
            | none => rw [hiv] at hf; cases hf
            | some iv =>
              rw [hiv] at hf
              simp only at hf ⊢
              by_cases hin : hasKey (kcpMtSpec mtm) "infrastructureRef" = true
              · rw [if_pos hin] at hf; cases hf
              · rw [if_neg hin] at hf ⊢
                refine ⟨sm, mtm, iv, rfl, hg2, hiv, by simpa using hin, ?_⟩
                simp only
                rw [if_neg (by simp [setEntry_ne_nil])]
          | str s => cases hf
          | int n => cases hf
          | bool b => cases hf
          | null => cases hf
          | seq xs => cases hf
      | seq xs => cases hf
      | str s => cases hf
      | int n => cases hf
      | bool b => cases hf
      | null => cases hf
  · rw [if_neg hkind] at hf
    cases hf

/-! ### Composite frames through the whole transform -/

/-- Keys never written by any rule at the node itself. -/
def unwrittenKey (k : String) : Prop :=
  k ≠ "kubeletExtraArgs" ∧ k ≠ "extraArgs" ∧ k ≠ "infrastructureRef" ∧
  k ≠ "controlPlaneRef" ∧ k ≠ "configRef" ∧ k ≠ "controlPlaneEndpoint" ∧ k ≠ "spec"

theorem applyRules_frame (es : Entries) (r1 : Entries × Bool)
    (h : applyRules es = .ok r1) (k : String) (hk : unwrittenKey k) :
    getEntry r1.1 k = getEntry es k := by
  obtain ⟨h1, h2, h3, h4, h5, h6, h7⟩ := hk
  rw [applyRules] at h
  cases hsk : stepKubelet es with
  | error e => rw [hsk] at h; cases h
  | ok rk =>
    rw [hsk] at h
    cases h
    simp only [rulesTail]
    rw [stepKCP_frame _ _ h7, stepMHC_frame _ _ h7, stepCPE_frame _ _ h6,
      stepRefs_frame _ _ h3 h4 h5, stepExtraArgs_frame _ _ h2,
      stepKubelet_frame es rk hsk _ h1]

theorem kindIs_congr (es2 es : Entries) (h : getEntry es2 "kind" = getEntry es "kind")
    (s : String) : kindIs es2 s = kindIs es s := by
  rw [kindIs, kindIs, h]

/-- Value-level frame through an entire completed transform at a mapping
node, for keys no rule writes: the new value is a completed transform of the
old value. -/
theorem transform_map_value (fuel : Nat) (es es2 : Entries) (c : Bool)
    (h : transform fuel (Node.map es) = .ok (.map es2, c)) (k : String)
    (hk : unwrittenKey k) :
    (∀ v, getEntry es k = some v →
      ∃ f2 rv, transform f2 v = .ok rv ∧ getEntry es2 k = some rv.1) ∧
    (getEntry es k = none → getEntry es2 k = none) := by
  cases fuel with
  | zero => cases h
  | succ f =>
    obtain ⟨r1, r2, har, hte, hr⟩ := transform_map_unfold f es (.map es2, c) h
    have hes2 : es2 = r2.1 := by
      have := congrArg Prod.fst hr
      simpa using this
    subst hes2
    have hfr := applyRules_frame es r1 har k hk
    obtain ⟨hp1, hp2, _⟩ := transformEntries_pointwise f r1.1 r2 hte
    constructor
    · intro v hv
      exact hp2 k v (by rw [hfr, hv])
    · intro hv
      exact hp1 k (by rw [hfr, hv])

/-- `kindIs` is invariant under a completed transform of a mapping node. -/
theorem transform_map_kindIs (fuel : Nat) (es es2 : Entries) (c : Bool)
    (h : transform fuel (Node.map es) = .ok (.map es2, c)) (s : String) :
    kindIs es2 s = kindIs es s := by
  have hk : unwrittenKey "kind" := by
    rw [unwrittenKey]
    refine ⟨by decide, by decide, by decide, by decide, by decide, by decide, by decide⟩
  obtain ⟨hv1, hv2⟩ := transform_map_value fuel es es2 c h "kind" hk
  cases hg : getEntry es "kind" with
  | none =>
    rw [kindIs, kindIs, hg, hv2 hg]
  | some v =>
    obtain ⟨f2, rv, htv, hget2⟩ := hv1 v hg
    cases v with
    | str t =>
      have := transform_scalar f2 (.str t) rv
        ⟨fun es3 h3 => Node.noConfusion h3, fun xs h3 => Node.noConfusion h3⟩ htv
      rw [kindIs, kindIs, hg, hget2, this]
    | map m =>
      obtain ⟨m2, hm2⟩ := transform_map_shape f2 m rv htv
      rw [kindIs, kindIs, hg, hget2, hm2]
    | seq xs =>
      obtain ⟨xs2, hxs2⟩ := transform_seq_shape f2 xs rv htv
      rw [kindIs, kindIs, hg, hget2, hxs2]
    | int n =>
      have := transform_scalar f2 (.int n) rv
        ⟨fun es3 h3 => Node.noConfusion h3, fun xs h3 => Node.noConfusion h3⟩ htv
      rw [kindIs, kindIs, hg, hget2, this]
    | bool b =>
      have := transform_scalar f2 (.bool b) rv
        ⟨fun es3 h3 => Node.noConfusion h3, fun xs h3 => Node.noConfusion h3⟩ htv
      rw [kindIs, kindIs, hg, hget2, this]
    | null =>
      have := transform_scalar f2 Node.null rv
        ⟨fun es3 h3 => Node.noConfusion h3, fun xs h3 => Node.noConfusion h3⟩ htv
      rw [kindIs, kindIs, hg, hget2, this]

theorem getEntry_setEntry_same (es : Entries) (k : String) (v : Node) :
    getEntry (setEntry es k v) k = some v := by
  rw [getEntry_setEntry, if_pos rfl]

/-- If the rule phase set the changed flag (at a non-MachineHealthCheck
node), the final tree after the recursive descent differs from the original
entries. -/
theorem applyRules_flag_evidence (es : Entries) (r1 : Entries × Bool)
    (h : applyRules es = .ok r1) (hflag : r1.2 = true)
    (hkind : kindIs es "MachineHealthCheck" = false)
    (f : Nat) (r2 : Entries × Bool) (hte : transformEntries f r1.1 = .ok r2) :
    r2.1 ≠ es := by
  rw [applyRules] at h
  cases hsk : stepKubelet es with
  | error e => rw [hsk] at h; cases h
  | ok rk =>
    rw [hsk] at h
    cases h
    simp only at hflag hte
    obtain ⟨hp1, hp2, hpk⟩ := transformEntries_pointwise f _ r2 hte
    by_cases hc1 : rk.2 = true
    · -- kubeletExtraArgs conversion fired
      obtain ⟨m, hg, hrk⟩ := stepKubelet_flag es rk hsk hc1
      have hg1 : getEntry (rulesTail rk.1).1 "kubeletExtraArgs" =
          some (Node.seq (convert_mapping_to_seq m)) := by
        rw [rulesTail_frame _ _ (by decide) (by decide) (by decide) (by decide)
          (by decide) (by decide), hrk, getEntry_setEntry_same]
      obtain ⟨f2, rv, htv, hget2⟩ := hp2 _ _ hg1
      obtain ⟨xs2, hxs2⟩ := transform_seq_shape f2 _ rv htv
      intro heq
      rw [heq] at hget2
      rw [hg, hxs2] at hget2
      cases hget2
    · have hrk0 : rk.2 = false := by simpa using hc1
      have hrkid := stepKubelet_id es rk hsk hrk0
      rw [hrk0, Bool.false_or] at hflag
      rw [hrkid] at hflag hp1 hp2 hpk
      rw [rulesTail] at hflag hp1 hp2 hpk
      simp only [Bool.or_eq_true] at hflag
      by_cases hc2 : (stepExtraArgs es).2 = true
      · -- extraArgs conversion fired
        obtain ⟨m, hg, he2⟩ := stepExtraArgs_flag es hc2
        have hg1 : getEntry (stepKCP (stepMHC (stepCPE (stepRefs
            (stepExtraArgs es).1).1).1).1).1 "extraArgs" =
            some (Node.seq (convert_mapping_to_seq m)) := by
          rw [stepKCP_frame _ _ (by decide), stepMHC_frame _ _ (by decide),
            stepCPE_frame _ _ (by decide),
            stepRefs_frame _ _ (by decide) (by decide) (by decide),
            he2, getEntry_setEntry_same]
        obtain ⟨f2, rv, htv, hget2⟩ := hp2 _ _ hg1
        obtain ⟨xs2, hxs2⟩ := transform_seq_shape f2 _ rv htv
        intro heq
        rw [heq] at hget2
        rw [hg, hxs2] at hget2
        cases hget2
      · have hc20 : (stepExtraArgs es).2 = false := by simpa using hc2
        have he2id := stepExtraArgs_id es hc20
        rw [he2id] at hflag hp1 hp2 hpk
        by_cases hc3 : (stepRefs es).2 = true
        · -- a reference rule fired: find the flagged ref key and its input
          have hrefs : ∃ key, (key = "infrastructureRef" ∨ key = "controlPlaneRef" ∨
              key = "configRef") ∧ ∃ rv, getEntry es key = some (Node.map rv) ∧
              getEntry (stepRefs es).1 key = some (Node.map (processRef rv).1) ∧
              (processRef rv).2 = true := by
            rw [stepRefs] at hc3 ⊢
            simp only [Bool.or_eq_true] at hc3
            by_cases hr1 : (stepRef es "infrastructureRef").2 = true
            · obtain ⟨rv, hgrv, hout, hpr⟩ := stepRef_flag es _ hr1
              refine ⟨"infrastructureRef", Or.inl rfl, rv, hgrv, ?_, hpr⟩
              simp only
              rw [stepRef_frame _ _ _ (by decide), stepRef_frame _ _ _ (by decide),
                hout, getEntry_setEntry_same]
            · have hid1 := stepRef_id es "infrastructureRef" (by simpa using hr1)
              rw [hid1] at hc3 ⊢
              by_cases hr2 : (stepRef es "controlPlaneRef").2 = true
              · obtain ⟨rv, hgrv, hout, hpr⟩ := stepRef_flag es _ hr2
                refine ⟨"controlPlaneRef", Or.inr (Or.inl rfl), rv, hgrv, ?_, hpr⟩
                simp only
                rw [stepRef_frame _ _ _ (by decide), hout, getEntry_setEntry_same]
              · have hid2 := stepRef_id es "controlPlaneRef" (by simpa using hr2)
                rw [hid2] at hc3 ⊢
                have hr3 : (stepRef es "configRef").2 = true := by
                  rcases hc3 with (h | h) | h
                  · rw [h] at hr1; exact absurd rfl hr1
                  · rw [h] at hr2; exact absurd rfl hr2
                  · exact h
                obtain ⟨rv, hgrv, hout, hpr⟩ := stepRef_flag es _ hr3
                refine ⟨"configRef", Or.inr (Or.inr rfl), rv, hgrv, ?_, hpr⟩
                simp only
                rw [hout, getEntry_setEntry_same]
          obtain ⟨key, hkey, rv, hgrv, hgout, hpr⟩ := hrefs
          have hkne : key ≠ "controlPlaneEndpoint" ∧ key ≠ "spec" := by
            rcases hkey with h | h | h <;> subst h <;> exact ⟨by decide, by decide⟩
          have hg1 : getEntry (stepKCP (stepMHC (stepCPE
              (stepRefs es).1).1).1).1 key = some (Node.map (processRef rv).1) := by
            rw [stepKCP_frame _ _ hkne.2, stepMHC_frame _ _ hkne.2,
              stepCPE_frame _ _ hkne.1, hgout]
          obtain ⟨f2, rvt, htv, hget2⟩ := hp2 _ _ hg1
          obtain ⟨rvF, hrvF⟩ := transform_map_shape f2 _ rvt htv
          have htv2 : transform f2 (Node.map (processRef rv).1) =
              .ok (.map rvF, rvt.2) := by
            rw [htv, ← hrvF]
          obtain ⟨hK1, _⟩ := transform_map_keys f2 _ rvF rvt.2 htv2
          intro heq
          rw [heq, hgrv, hrvF] at hget2
          have hrvFrv : rv = rvF := by
            injection hget2 with h1
            injection h1
          rcases processRef_flag rv hpr with ⟨hno, hyes⟩ | ⟨hyes, hno⟩
          · have h2 := hK1 "apiGroup" (by decide)
            rw [← hrvFrv, hno, hyes] at h2
            cases h2
          · have h2 := hK1 "apiVersion" (by decide)
            rw [← hrvFrv, hyes, hno] at h2
            cases h2
        · have hc30 : (stepRefs es).2 = false := by simpa using hc3
          have he3id := stepRefs_id es hc30
          rw [he3id] at hflag hp1 hp2 hpk
          by_cases hc4 : (stepCPE es).2 = true
          · -- controlPlaneEndpoint pruning fired
            obtain ⟨hhad, he4⟩ := stepCPE_flag es hc4
            have hkind4 : kindIs (stepCPE es).1 "MachineHealthCheck" = false := by
              rw [he4]
              rw [kindIs_congr (delEntry es "controlPlaneEndpoint") es
                (by rw [getEntry_delEntry, if_neg (by decide)])]
              exact hkind
            have hmhc := stepMHC_noMHC (stepCPE es).1 hkind4
            have hg1 : hasKey (stepKCP (stepMHC (stepCPE es).1).1).1
                "controlPlaneEndpoint" = false := by
              rw [stepKCP_hasKey, hmhc]
              simp only
              rw [he4]
              simp
            intro heq
            have := hpk "controlPlaneEndpoint"
            rw [heq, hg1] at this
            rw [hhad] at this
            cases this
          · have hc40 : (stepCPE es).2 = false := by simpa using hc4
            have he4id := stepCPE_id es hc40
            rw [he4id] at hflag hp1 hp2 hpk
            have hmhc := stepMHC_noMHC es hkind
            rw [hmhc] at hflag hp1 hp2 hpk
            simp only at hflag hp1 hp2 hpk
            have hc6 : (stepKCP es).2 = true := by
              rcases hflag with (((h | h) | h) | h) | h
              · exact absurd h hc2
              · exact absurd h hc3
              · exact absurd h hc4
              · cases h
              · exact h
            -- KubeadmControlPlane relocation fired
            obtain ⟨sm, mtm, iv, hgsm, hgmt, hgiv, hnospec, he6⟩ := stepKCP_flag es hc6
            have hg1 : getEntry (stepKCP es).1 "spec" =
                some (Node.map (setEntry sm "machineTemplate"
                  (Node.map (setEntry (delEntry mtm "infrastructureRef") "spec"
                    (Node.map (setEntry (kcpMtSpec mtm) "infrastructureRef" iv)))))) := by
              rw [he6, getEntry_setEntry_same]
            obtain ⟨f2, rvt, htv, hget2⟩ := hp2 _ _ hg1
            obtain ⟨smF, hsmF⟩ := transform_map_shape f2 _ rvt htv
            have htv2 : transform f2 (Node.map (setEntry sm "machineTemplate"
                (Node.map (setEntry (delEntry mtm "infrastructureRef") "spec"
                  (Node.map (setEntry (kcpMtSpec mtm) "infrastructureRef" iv)))))) =
                .ok (.map smF, rvt.2) := by
              rw [htv, ← hsmF]
            obtain ⟨hv1, _⟩ := transform_map_value f2 _ smF rvt.2 htv2
              "machineTemplate" (by rw [unwrittenKey]; refine ⟨by decide, by decide,
                by decide, by decide, by decide, by decide, by decide⟩)
            obtain ⟨f3, rv3, htv3, hget3⟩ := hv1 _ (getEntry_setEntry_same _ _ _)
            obtain ⟨mtmF, hmtmF⟩ := transform_map_shape f3 _ rv3 htv3
            have htv4 : transform f3 (Node.map (setEntry (delEntry mtm "infrastructureRef")
                "spec" (Node.map (setEntry (kcpMtSpec mtm) "infrastructureRef" iv)))) =
                .ok (.map mtmF, rv3.2) := by
              rw [htv3, ← hmtmF]
            obtain ⟨hK1, _⟩ := transform_map_keys f3 _ mtmF rv3.2 htv4
            intro heq
            rw [heq, hgsm, hsmF] at hget2
            have hsmFsm : sm = smF := by
              injection hget2 with h1
              injection h1
            rw [← hsmFsm, hgmt, hmtmF] at hget3
            have hmtmFmtm : mtm = mtmF := by
              injection hget3 with h1
              injection h1
            have hKk := hK1 "infrastructureRef" (by decide)
            rw [← hmtmFmtm] at hKk
            rw [hasKey_setEntry, hasKey_delEntry] at hKk
            simp only [hasKey] at hKk
            rw [hgiv] at hKk
            simp at hKk

/-! ### C2 amended: the changed flag under a no-MachineHealthCheck proviso -/

/-- The node is not a MachineHealthCheck resource. -/
def noMHCKind (es : Entries) : Prop := kindIs es "MachineHealthCheck" = false

theorem changed_flag_aux : ∀ fuel : Nat,
    (∀ n r, NodeAll noMHCKind n → transform fuel n = .ok r → (r.2 = true ↔ r.1 ≠ n)) ∧
    (∀ es r, EntriesAll noMHCKind es → transformEntries fuel es = .ok r →
      (r.2 = true ↔ r.1 ≠ es)) ∧
    (∀ xs r, ItemsAll noMHCKind xs → transformItems fuel xs = .ok r →
      (r.2 = true ↔ r.1 ≠ xs)) := by
  intro fuel
  induction fuel with
  | zero =>
    refine ⟨fun n r _ h => ?_, fun es r _ h => ?_, fun xs r _ h => ?_⟩ <;> cases h
  | succ f ih =>
    obtain ⟨ihn, ihe, ihi⟩ := ih
    refine ⟨?_, ?_, ?_⟩
    · intro n r hall h
      cases n with
      | map es =>
        rw [NodeAll] at hall
        obtain ⟨hQ, hEA⟩ := hall
        obtain ⟨r1, r2, har, hte, hr⟩ := transform_map_unfold f es r h
        subst hr
        simp only [Bool.or_eq_true]
        constructor
        · intro hor
          by_cases hc1 : r1.2 = true
          · have hne := applyRules_flag_evidence es r1 har hc1 hQ f r2 hte
            intro heq
            injection heq with h1
            exact hne h1
          · have hc10 : r1.2 = false := by simpa using hc1
            have hid := applyRules_id es r1 har hc10 hQ
            rw [hid] at hte
            have hc2 : r2.2 = true := by
              rcases hor with h1 | h1
              · exact absurd h1 hc1
              · exact h1
            have hne := (ihe es r2 hEA hte).mp hc2
            intro heq
            injection heq with h1
            exact hne h1
        · intro hne
          by_contra hff
          rw [not_or] at hff
          obtain ⟨hf1, hf2⟩ := hff
          have hc10 : r1.2 = false := by simpa using hf1
          have hc20 : r2.2 = false := by simpa using hf2
          have hid := applyRules_id es r1 har hc10 hQ
          rw [hid] at hte
          have heq : r2.1 = es := by
            by_contra hne2
            exact absurd ((ihe es r2 hEA hte).mpr hne2) (by simp [hc20])
          rw [heq] at hne
          exact hne rfl
      | seq xs =>
        rw [NodeAll] at hall
        obtain ⟨r2, hti, hr⟩ := transform_seq_unfold f xs r h
        subst hr
        rw [ihi xs r2 hall hti]
        constructor
        · intro hne heq
          injection heq with h1
          exact hne h1
        · intro hne heq
          rw [heq] at hne
          exact hne rfl
      | str s =>
        cases h
        simp
      | int m =>
        cases h
        simp
      | bool b =>
        cases h
        simp
      | null =>
        cases h
        simp
    · intro es r hall hte
      cases es with
      | nil =>
        have := transformEntries_nil (f + 1) r hte
        subst this
        simp
      | cons e rest =>
        obtain ⟨k, v⟩ := e
        rw [EntriesAll] at hall
        obtain ⟨hv, hrest⟩ := hall
        obtain ⟨rv, rr, htv, htr, hr⟩ := transformEntries_cons f k v rest r hte
        subst hr
        simp only [Bool.or_eq_true]
        rw [ihn v rv hv htv, ihe rest rr hrest htr]
        simp only [ne_eq, List.cons.injEq, Prod.mk.injEq, true_and, not_and]
        constructor
        · intro hor
          intro h1 h2
          rcases hor with h3 | h3
          · exact h3 h1
          · exact h3 h2
        · intro himp
          by_contra hff
          rw [not_or, not_not, not_not] at hff
          exact himp hff.1 hff.2
    · intro xs r hall hti
      cases xs with
      | nil =>
        have := transformItems_nil (f + 1) r hti
        subst this
        simp
      | cons x rest =>
        rw [ItemsAll] at hall
        obtain ⟨hx, hrest⟩ := hall
        obtain ⟨rx, rr, htv, htr, hr⟩ := transformItems_cons f x rest r hti
        subst hr
        simp only [Bool.or_eq_true]
        rw [ihn x rx hx htv, ihi rest rr hrest htr]
        simp only [ne_eq, List.cons.injEq, not_and]
        constructor
        · intro hor h1 h2
          rcases hor with h3 | h3
          · exact h3 h1
          · exact h3 h2
        · intro himp
          by_contra hff
          rw [not_or, not_not, not_not] at hff
          exact himp hff.1 hff.2

/-- C2 amended: for every node containing no mapping whose kind is
MachineHealthCheck, a completed `transform` returns true iff the resulting
tree differs from the original; in particular a false flag means the node is
left exactly as it was.  (The MachineHealthCheck restructuring violates the
unrestricted claim: it can silently pop fields without reporting a change.) -/
theorem changed_flag_amended (fuel : Nat) (n : Node) (r : Node × Bool)
    (hall : NodeAll noMHCKind n) (h : transform fuel n = .ok r) :
    r.2 = true ↔ r.1 ≠ n :=
  (changed_flag_aux fuel).1 n r hall h

/-- Witness for the amended C2 at a concrete input. -/
theorem changed_flag_amended_witness :
    Node.map [("kubeletExtraArgs", Node.seq
      [Node.map [("name", Node.str "a"), ("value", Node.str "1")]])] ≠
    Node.map [("kubeletExtraArgs", Node.map [("a", Node.str "1")])] := by
  have hall : NodeAll noMHCKind
      (Node.map [("kubeletExtraArgs", Node.map [("a", Node.str "1")])]) := by
    simp only [NodeAll, EntriesAll, noMHCKind]
    refine ⟨by decide, ⟨by decide, trivial, trivial⟩, trivial⟩
  exact (changed_flag_amended 10
    (Node.map [("kubeletExtraArgs", Node.map [("a", Node.str "1")])])
    (Node.map [("kubeletExtraArgs", Node.seq
      [Node.map [("name", Node.str "a"), ("value", Node.str "1")]])], true)
    hall rfl).mp rfl

/-! ### C1 amended: idempotence under a no-leading-slash apiVersion proviso -/

/-- Mapping-level proviso for idempotence: an `apiVersion` entry that is a
string must not begin with `'/'`.  Such a value makes `infer_api_group`
return the empty group, which Python truthiness discards on the first pass
while the kind heuristics can still fire on the second pass. -/
def noSlashTop (es : Entries) : Prop :=
  ∀ av, getEntry es "apiVersion" = some (Node.str av) → av.data.head? ≠ some '/'

/-- String observation of an optional node: its value when it is a string
scalar. -/
def strOf : Option Node → Option String
  | some (.str s) => some s
  | _ => none

/-- The static kind table never maps to the empty group. -/
theorem lookupStr_explicit_ne (kind g : String)
    (h : lookupStr explicit_kind_map kind = some g) : g ≠ "" := by
  rw [explicit_kind_map, lookupStr] at h
  by_cases h1 : "KubeadmControlPlane" = kind
  · rw [if_pos h1] at h; cases h; decide
  · rw [if_neg h1, lookupStr] at h
    by_cases h2 : "KubeadmControlPlaneTemplate" = kind
    · rw [if_pos h2] at h; cases h; decide
    · rw [if_neg h2, lookupStr] at h
      by_cases h3 : "KubeadmConfig" = kind
      · rw [if_pos h3] at h; cases h; decide
      · rw [if_neg h3, lookupStr] at h
        by_cases h4 : "KubeadmConfigTemplate" = kind
        · rw [if_pos h4] at h; cases h; decide
        · rw [if_neg h4, lookupStr] at h
          by_cases h5 : "KubeadmConfigTemplateList" = kind
          · rw [if_pos h5] at h; cases h; decide
          · rw [if_neg h5, lookupStr] at h; cases h

/-- The kind heuristics never produce the empty group. -/
theorem inferFromKind_ne_empty (rv : Entries) : inferFromKind rv ≠ some "" := by
  rw [inferFromKind]
  cases hg : getEntry rv "kind" with
  | none => simp
  | some v =>
    cases v with
    | str kind =>
      simp only
      cases hl : lookupStr explicit_kind_map kind with
      | some g =>
        intro h
        injection h with h1
        exact lookupStr_explicit_ne kind g hl h1
      | none =>
        by_cases hcond : (infra_hints.any (fun h => strContains kind h) ||
            strEnds kind "Cluster" || strEnds kind "MachineTemplate") = true
        · rw [if_pos hcond]
          intro h
          injection h with h1
          exact absurd h1 (by decide)
        · rw [if_neg hcond]
          simp
    | int n => simp
    | bool b => simp
    | null => simp
    | map m => simp
    | seq xs => simp

/-- A failed inference means the kind heuristics alone already fail. -/
theorem infer_none_inferFromKind (rv : Entries) (h : infer_api_group rv = none) :
    inferFromKind rv = none := by
  rw [infer_api_group] at h
  cases hg : getEntry rv "apiVersion" with
  | none => rw [hg] at h; exact h
  | some v =>
    rw [hg] at h
    cases v with
    | str av =>
      simp only at h
      by_cases hc : av.data.contains '/' = true
      · rw [if_pos hc] at h; cases h
      · rw [if_neg hc] at h; exact h
    | int n => exact h
    | bool b => exact h
    | null => exact h
    | map m => exact h
    | seq xs => exact h

/-- Under the proviso, inference never produces the empty group. -/
theorem infer_not_empty (rv : Entries) (hP : noSlashTop rv) :
    infer_api_group rv ≠ some "" := by
  rw [infer_api_group]
  cases hg : getEntry rv "apiVersion" with
  | none => exact inferFromKind_ne_empty rv
  | some v =>
    cases v with
    | str av =>
      simp only
      by_cases hc : av.data.contains '/' = true
      · rw [if_pos hc]
        intro h
        injection h with h1
        have hdata : av.data.takeWhile (fun c => (c ≠ '/' : Bool)) = [] :=
          congrArg String.data h1
        cases hd : av.data with
        | nil => rw [hd] at hc; simp at hc
        | cons c t =>
          rw [hd, List.takeWhile_cons] at hdata
          by_cases hcc : (c ≠ '/' : Bool) = true
          · rw [if_pos hcc] at hdata; cases hdata
          · have hceq : c = '/' := by simpa using hcc
            exact hP av hg (by rw [hd, hceq]; rfl)
      · rw [if_neg hc]
        exact inferFromKind_ne_empty rv
    | int n => exact inferFromKind_ne_empty rv
    | bool b => exact inferFromKind_ne_empty rv
    | null => exact inferFromKind_ne_empty rv
    | map m => exact inferFromKind_ne_empty rv
    | seq xs => exact inferFromKind_ne_empty rv

/-- A completed transform preserves the string observation of a value. -/
theorem transform_strOf (f : Nat) (v : Node) (rv : Node × Bool)
    (h : transform f v = .ok rv) : strOf (some rv.1) = strOf (some v) := by
  cases v with
  | str s =>
    rw [transform_scalar f _ rv
      ⟨fun es h2 => Node.noConfusion h2, fun xs h2 => Node.noConfusion h2⟩ h]
  | int n =>
    rw [transform_scalar f _ rv
      ⟨fun es h2 => Node.noConfusion h2, fun xs h2 => Node.noConfusion h2⟩ h]
  | bool b =>
    rw [transform_scalar f _ rv
      ⟨fun es h2 => Node.noConfusion h2, fun xs h2 => Node.noConfusion h2⟩ h]
  | null =>
    rw [transform_scalar f _ rv
      ⟨fun es h2 => Node.noConfusion h2, fun xs h2 => Node.noConfusion h2⟩ h]
  | map es =>
    obtain ⟨es2, h2⟩ := transform_map_shape f es rv h
    rw [h2]
    rfl
  | seq xs =>
    obtain ⟨xs2, h2⟩ := transform_seq_shape f xs rv h
    rw [h2]
    rfl

/-- The entries walk preserves the string observation at any key. -/
theorem entries_strOf (f : Nat) (es : Entries) (r : Entries × Bool)
    (h : transformEntries f es = .ok r) (k : String) :
    strOf (getEntry r.1 k) = strOf (getEntry es k) := by
  obtain ⟨hp1, hp2, _⟩ := transformEntries_pointwise f es r h
  cases hg : getEntry es k with
  | none => rw [hp1 k hg]
  | some v =>
    obtain ⟨f2, rv, htv, hget⟩ := hp2 k v hg
    rw [hget]
    exact transform_strOf f2 v rv htv

/-- `kindIs` as a function of the string observation of the kind entry. -/
theorem kindIs_strOf (es : Entries) (s : String) :
    kindIs es s = (match strOf (getEntry es "kind") with
      | some k => (k = s : Bool)
      | none => false) := by
  rw [kindIs]
  cases hg : getEntry es "kind" with
  | none => rfl
  | some v => cases v <;> rfl

theorem kindIs_of_strOf (a b : Entries)
    (h : strOf (getEntry a "kind") = strOf (getEntry b "kind")) (s : String) :
    kindIs a s = kindIs b s := by
  rw [kindIs_strOf, kindIs_strOf, h]

/-- The kind heuristics as a function of the string observation. -/
theorem inferFromKind_strOf (es : Entries) :
    inferFromKind es = (match strOf (getEntry es "kind") with
      | some kind =>
        (match lookupStr explicit_kind_map kind with
         | some g => some g
         | none =>
           if infra_hints.any (fun h => strContains kind h) ||
               strEnds kind "Cluster" || strEnds kind "MachineTemplate" then
             some "infrastructure.cluster.x-k8s.io"
           else none)
      | none => none) := by
  rw [inferFromKind]
  cases hg : getEntry es "kind" with
  | none => rfl
  | some v => cases v <;> rfl

theorem inferFromKind_of_strOf (a b : Entries)
    (h : strOf (getEntry a "kind") = strOf (getEntry b "kind")) :
    inferFromKind a = inferFromKind b := by
  rw [inferFromKind_strOf, inferFromKind_strOf, h]

/-- A completed transform preserves blankness of a value. -/
theorem transform_strBlank (f : Nat) (v : Node) (rv : Node × Bool)
    (h : transform f v = .ok rv) : strBlank rv.1 = strBlank v := by
  cases v with
  | str s =>
    rw [transform_scalar f _ rv
      ⟨fun es h2 => Node.noConfusion h2, fun xs h2 => Node.noConfusion h2⟩ h]
  | int n =>
    rw [transform_scalar f _ rv
      ⟨fun es h2 => Node.noConfusion h2, fun xs h2 => Node.noConfusion h2⟩ h]
  | bool b =>
    rw [transform_scalar f _ rv
      ⟨fun es h2 => Node.noConfusion h2, fun xs h2 => Node.noConfusion h2⟩ h]
  | null =>
    rw [transform_scalar f _ rv
      ⟨fun es h2 => Node.noConfusion h2, fun xs h2 => Node.noConfusion h2⟩ h]
  | map es =>
    obtain ⟨es2, h2⟩ := transform_map_shape f es rv h
    rw [h2]
    rfl
  | seq xs =>
    obtain ⟨xs2, h2⟩ := transform_seq_shape f xs rv h
    rw [h2]
    rfl

/-- A node whose kind is one string literal is not of a different kind. -/
theorem kindIs_unique (es : Entries) (s t : String) (hs : kindIs es s = true)
    (hne : s ≠ t) : kindIs es t = false := by
  rw [kindIs] at hs ⊢
  cases hg : getEntry es "kind" with
  | none => simp [hg] at hs
  | some v =>
    rw [hg] at hs
    cases v with
    | str k =>
      simp only at hs ⊢
      have hk : k = s := by simpa using hs
      subst hk
      simpa using hne
    | int n => rfl
    | bool b => rfl
    | null => rfl
    | map m => rfl
    | seq xs => rfl

theorem stepKCP_noKCP (es : Entries) (h : kindIs es "KubeadmControlPlane" = false) :
    stepKCP es = (es, false) := by
  rw [stepKCP, if_neg (by simp [h])]

theorem kcpMtSpec_of_getEntry (mtm : Entries) (X : Entries)
    (h : getEntry mtm "spec" = some (Node.map X)) : kcpMtSpec mtm = X := by
  rw [kcpMtSpec, h]

/-- Re-writing a machineTemplate spec read by `kcpMtSpec` is the identity. -/
theorem kcpMtSpec_restore (mtm : Entries) :
    (if (kcpMtSpec mtm).isEmpty then mtm
     else setEntry mtm "spec" (Node.map (kcpMtSpec mtm))) = mtm := by
  rw [kcpMtSpec]
  cases hsp : getEntry mtm "spec" with
  | none => simp [kcpMtSpec, hsp]
  | some sv =>
    cases sv with
    | map s =>
      by_cases hse : (s : Entries).isEmpty
      · simp [kcpMtSpec, hsp, hse]
      · simp only [kcpMtSpec, hsp, hse, if_neg]
        simp [hse]
        exact setEntry_self mtm "spec" (Node.map s) hsp
    | seq xs => simp [kcpMtSpec, hsp]
    | str st => simp [kcpMtSpec, hsp]
    | int n => simp [kcpMtSpec, hsp]
    | bool b => simp [kcpMtSpec, hsp]
    | null => simp [kcpMtSpec, hsp]

/-- The apiVersion half of the ref loop always leaves apiVersion absent. -/
theorem refApiVersionStep_post (rv : Entries) :
    hasKey (refApiVersionStep rv).1 "apiVersion" = false := by
  rw [refApiVersionStep]
  by_cases hv : hasKey rv "apiVersion" = true
  · rw [if_pos hv]
    simp
  · rw [if_neg hv]
    simpa using hv

/-- A spec mapping from which all four legacy MachineHealthCheck source keys
are gone (the post-state of the reshaping pipeline). -/
def MhcMigrated (sp : Entries) : Prop :=
  hasKey sp "nodeStartupTimeout" = false ∧ hasKey sp "unhealthyConditions" = false ∧
  hasKey sp "maxUnhealthy" = false ∧ hasKey sp "remediationTemplate" = false

/-- A mapping on which the KubeadmControlPlane relocation has nothing to
move. -/
def KcpMigrated (es : Entries) : Prop :=
  ∀ sm, getEntry es "spec" = some (Node.map sm) →
    ∀ mtm, getEntry sm "machineTemplate" = some (Node.map mtm) →
      getEntry mtm "infrastructureRef" = none ∨
      hasKey (kcpMtSpec mtm) "infrastructureRef" = true

/-- A mapping whose reference value under `key` (when present as a mapping)
gives the ref loop body nothing to do. -/
def RefMigrated (es : Entries) (key : String) : Prop :=
  ∀ rv, getEntry es key = some (Node.map rv) →
    (hasKey rv "apiGroup" = true ∨ infer_api_group rv = none) ∧
    hasKey rv "apiVersion" = false

/-- A mapping on which every rule of the rule phase is a no-op. -/
def RulesMigrated (es : Entries) : Prop :=
  (getEntry es "kubeletExtraArgs" = none ∨
    ∃ xs, getEntry es "kubeletExtraArgs" = some (Node.seq xs)) ∧
  (∀ m, getEntry es "extraArgs" ≠ some (Node.map m)) ∧
  RefMigrated es "infrastructureRef" ∧ RefMigrated es "controlPlaneRef" ∧
  RefMigrated es "configRef" ∧
  (∀ cm, getEntry es "controlPlaneEndpoint" = some (Node.map cm) →
    (match getEntry cm "host" with
     | none => true
     | some v => strBlank v) = false) ∧
  (kindIs es "MachineHealthCheck" = true →
    ∀ sp, getEntry es "spec" = some (Node.map sp) → MhcMigrated sp) ∧
  (kindIs es "KubeadmControlPlane" = true → KcpMigrated es)

theorem stepKubelet_nop (es : Entries)
    (h : getEntry es "kubeletExtraArgs" = none ∨
      ∃ xs, getEntry es "kubeletExtraArgs" = some (Node.seq xs)) :
    stepKubelet es = .ok (es, false) := by
  rw [stepKubelet]
  rcases h with h | ⟨xs, h⟩
  · rw [h]
  · rw [h]

theorem stepExtraArgs_nop (es : Entries)
    (h : ∀ m, getEntry es "extraArgs" ≠ some (Node.map m)) :
    stepExtraArgs es = (es, false) := by
  rw [stepExtraArgs]
  cases hg : getEntry es "extraArgs" with
  | none => rfl
  | some v =>
    cases v with
    | map m => exact absurd hg (h m)
    | seq xs => rfl
    | str s => rfl
    | int n => rfl
    | bool b => rfl
    | null => rfl

theorem processRef_nop (rv : Entries)
    (hg : hasKey rv "apiGroup" = true ∨ infer_api_group rv = none)
    (hv : hasKey rv "apiVersion" = false) : processRef rv = (rv, false) := by
  have h1 : refApiGroupStep rv = (rv, false) := by
    rw [refApiGroupStep]
    rcases hg with hg | hg
    · rw [if_pos hg]
    · by_cases hk : hasKey rv "apiGroup" = true
      · rw [if_pos hk]
      · rw [if_neg hk, hg]
  have h2 : refApiVersionStep rv = (rv, false) := by
    rw [refApiVersionStep, if_neg (by simp [hv])]
  rw [processRef, h1]
  simp only [h2]
  rfl

theorem stepRef_nop (es : Entries) (key : String) (h : RefMigrated es key) :
    stepRef es key = (es, false) := by
  rw [stepRef]
  cases hg : getEntry es key with
  | none => rfl
  | some v =>
    cases v with
    | map rv =>
      obtain ⟨h1, h2⟩ := h rv hg
      simp only [processRef_nop rv h1 h2]
      rw [setEntry_self es key (Node.map rv) hg]
    | seq xs => rfl
    | str s => rfl
    | int n => rfl
    | bool b => rfl
    | null => rfl

theorem stepRefs_nop (es : Entries) (h1 : RefMigrated es "infrastructureRef")
    (h2 : RefMigrated es "controlPlaneRef") (h3 : RefMigrated es "configRef") :
    stepRefs es = (es, false) := by
  rw [stepRefs, stepRef_nop es "infrastructureRef" h1]
  simp only
  rw [stepRef_nop es "controlPlaneRef" h2]
  simp only
  rw [stepRef_nop es "configRef" h3]
  rfl

theorem stepCPE_nop (es : Entries)
    (h : ∀ cm, getEntry es "controlPlaneEndpoint" = some (Node.map cm) →
      (match getEntry cm "host" with
       | none => true
       | some v => strBlank v) = false) : stepCPE es = (es, false) := by
  rw [stepCPE]
  cases hg : getEntry es "controlPlaneEndpoint" with
  | none => rfl
  | some v =>
    cases v with
    | map cm =>
      simp only
      rw [if_neg (by simp [h cm hg])]
    | seq xs => rfl
    | str s => rfl
    | int n => rfl
    | bool b => rfl
    | null => rfl

/-- When `checks` was read from the spec non-empty, writing it back is the
identity. -/
theorem mhcChecks0_restore (sp : Entries) (hne : ¬(mhcChecks0 sp).isEmpty = true) :
    setEntry sp "checks" (Node.map (mhcChecks0 sp)) = sp := by
  rw [mhcChecks0] at hne ⊢
  cases hg : getEntry sp "checks" with
  | none => rw [hg] at hne; simp [List.isEmpty] at hne
  | some v =>
    cases v with
    | map c =>
      simp only
      exact setEntry_self sp "checks" (Node.map c) hg
    | seq xs => rw [hg] at hne; simp [List.isEmpty] at hne
    | str s => rw [hg] at hne; simp [List.isEmpty] at hne
    | int n => rw [hg] at hne; simp [List.isEmpty] at hne
    | bool b => rw [hg] at hne; simp [List.isEmpty] at hne
    | null => rw [hg] at hne; simp [List.isEmpty] at hne

/-- The reshaping pipeline does nothing on a migrated spec. -/
theorem mhcSpecPipeline_nop (sp : Entries) (h : MhcMigrated sp) :
    mhcSpecPipeline sp = (sp, false) := by
  obtain ⟨h1, h2, h3, h4⟩ := h
  rw [hasKey_false_iff] at h1 h2 h3 h4
  have e1 : mhcStepStartup sp (mhcChecks0 sp) = (sp, mhcChecks0 sp, false) := by
    rw [mhcStepStartup, h1]
  have e2 : mhcStepConds sp (mhcChecks0 sp) = (sp, mhcChecks0 sp, false) := by
    rw [mhcStepConds, h2]
  have e3 : mhcStepMaxUnhealthy sp = (sp, false) := by
    rw [mhcStepMaxUnhealthy, h3]
  have e4 : mhcStepRemTemplate sp = (sp, false) := by
    rw [mhcStepRemTemplate, h4]
  rw [mhcSpecPipeline]
  simp only [e1, e2]
  by_cases he : (mhcChecks0 sp).isEmpty = true
  · simp only [he, if_pos, e3]
    simp only [e4]
    rfl
  · rw [if_neg he]
    rw [mhcChecks0_restore sp he]
    simp only [e3, e4]
    rfl

theorem mhc_nop (es : Entries)
    (h : ∀ sp, getEntry es "spec" = some (Node.map sp) → MhcMigrated sp) :
    transform_machine_health_check es = (es, false) := by
  rw [transform_machine_health_check]
  cases hg : getEntry es "spec" with
  | none => rfl
  | some v =>
    cases v with
    | map sp =>
      simp only
      rw [mhcSpecPipeline_nop sp (h sp hg)]
      simp only
      rw [setEntry_self es "spec" (Node.map sp) hg]
    | seq xs => rfl
    | str s => rfl
    | int n => rfl
    | bool b => rfl
    | null => rfl

theorem stepMHC_nop (es : Entries)
    (h : kindIs es "MachineHealthCheck" = true →
      ∀ sp, getEntry es "spec" = some (Node.map sp) → MhcMigrated sp) :
    stepMHC es = (es, false) := by
  rw [stepMHC]
  by_cases hk : kindIs es "MachineHealthCheck" = true
  · rw [if_pos hk]
    exact mhc_nop es (h hk)
  · rw [if_neg hk]

theorem stepKCP_nop (es : Entries)
    (h : kindIs es "KubeadmControlPlane" = true → KcpMigrated es) :
    stepKCP es = (es, false) := by
  rw [stepKCP]
  by_cases hk : kindIs es "KubeadmControlPlane" = true
  · rw [if_pos hk]
    cases hg : getEntry es "spec" with
    | none => rfl
    | some v =>
      cases v with
      | map sm =>
        simp only
        cases hg2 : getEntry sm "machineTemplate" with
        | none => rfl
        | some w =>
          cases w with
          | map mtm =>
            simp only
            have hmove : kcpMove mtm (kcpMtSpec mtm) = (mtm, kcpMtSpec mtm, false) := by
              rw [kcpMove]
              rcases h hk sm hg mtm hg2 with hiv | hin
              · rw [hiv]
              · cases hiv : getEntry mtm "infrastructureRef" with
                | none => rfl
                | some iv =>
                  simp only
                  rw [if_pos hin]
            rw [hmove]
            simp only
            rw [kcpMtSpec_restore mtm]
            rw [setEntry_self sm "machineTemplate" (Node.map mtm) hg2]
            rw [setEntry_self es "spec" (Node.map sm) hg]
          | seq xs => rfl
          | str s => rfl
          | int n => rfl
          | bool b => rfl
          | null => rfl
      | seq xs => rfl
      | str s => rfl
      | int n => rfl
      | bool b => rfl
      | null => rfl
  · rw [if_neg hk]

/-- The whole rule phase does nothing on a migrated mapping. -/
theorem applyRules_nop (es : Entries) (h : RulesMigrated es) :
    applyRules es = .ok (es, false) := by
  obtain ⟨h1, h2, h3a, h3b, h3c, h4, h5, h6⟩ := h
  rw [applyRules, stepKubelet_nop es h1]
  simp only [rulesTail]
  rw [stepExtraArgs_nop es h2]
  simp only
  rw [stepRefs_nop es h3a h3b h3c]
  simp only
  rw [stepCPE_nop es h4]
  simp only
  rw [stepMHC_nop es h5]
  simp only
  rw [stepKCP_nop es h6]
  rfl

theorem hasKey_congr (a b : Entries) (k : String) (h : getEntry a k = getEntry b k) :
    hasKey a k = hasKey b k := by
  rw [hasKey, hasKey, h]

theorem mhcStepStartup_hasKey_self (spec checks : Entries) :
    hasKey (mhcStepStartup spec checks).1 "nodeStartupTimeout" = false := by
  rw [mhcStepStartup]
  cases h : getEntry spec "nodeStartupTimeout" with
  | none => simpa [hasKey_false_iff] using h
  | some tv =>
    cases tv with
    | str s =>
      cases hd : duration_to_seconds s with
      | none => simp [hd]
      | some secs => simp [hd]
    | int n => simp
    | bool b => simp
    | null => simp
    | map m => simp
    | seq xs => simp

theorem mhcStepConds_hasKey_self (spec checks : Entries) :
    hasKey (mhcStepConds spec checks).1 "unhealthyConditions" = false := by
  rw [mhcStepConds]
  cases h : getEntry spec "unhealthyConditions" with
  | none => simpa [hasKey_false_iff] using h
  | some cv =>
    cases cv with
    | seq items => by_cases he : (convertConds items).isEmpty <;> simp [he]
    | str s => simp
    | int n => simp
    | bool b => simp
    | null => simp
    | map m => simp

theorem mhcStepMaxUnhealthy_frame (spec : Entries) (k : String)
    (h1 : k ≠ "maxUnhealthy") (h2 : k ≠ "remediation") :
    getEntry (mhcStepMaxUnhealthy spec).1 k = getEntry spec k := by
  rw [mhcStepMaxUnhealthy]
  cases h : getEntry spec "maxUnhealthy" with
  | none => rfl
  | some mu => simp [getEntry_setEntry, getEntry_delEntry, h1, h2]

theorem mhcStepRemTemplate_hasKey_self (spec : Entries) :
    hasKey (mhcStepRemTemplate spec).1 "remediationTemplate" = false := by
  rw [mhcStepRemTemplate]
  cases h : getEntry spec "remediationTemplate" with
  | none => simpa [hasKey_false_iff] using h
  | some tv => cases tv <;> simp

theorem mhcChecksWrite_hasKey (spec checks : Entries) (k : String) (hk : k ≠ "checks") :
    hasKey (if (checks : Entries).isEmpty then spec
      else setEntry spec "checks" (Node.map checks)) k = hasKey spec k := by
  by_cases he : (checks : Entries).isEmpty = true
  · rw [if_pos he]
  · rw [if_neg he]
    simp [hk]

/-- The reshaped spec carries none of the four legacy source keys. -/
theorem mhcSpecPipeline_migrated (sp : Entries) : MhcMigrated (mhcSpecPipeline sp).1 := by
  rw [mhcSpecPipeline]
  simp only
  refine ⟨?_, ?_, ?_, ?_⟩
  · rw [hasKey_congr _ _ _ (mhcStepRemTemplate_frame _ _ (by decide) (by decide)),
      hasKey_congr _ _ _ (mhcStepMaxUnhealthy_frame _ _ (by decide) (by decide)),
      mhcChecksWrite_hasKey _ _ _ (by decide),
      hasKey_congr _ _ _ (mhcStepConds_frame _ _ _ (by decide))]
    exact mhcStepStartup_hasKey_self sp (mhcChecks0 sp)
  · rw [hasKey_congr _ _ _ (mhcStepRemTemplate_frame _ _ (by decide) (by decide)),
      hasKey_congr _ _ _ (mhcStepMaxUnhealthy_frame _ _ (by decide) (by decide)),
      mhcChecksWrite_hasKey _ _ _ (by decide)]
    exact mhcStepConds_hasKey_self _ _
  · rw [hasKey_congr _ _ _ (mhcStepRemTemplate_frame _ _ (by decide) (by decide))]
    exact mhcStepMaxUnhealthy_hasKey _
  · exact mhcStepRemTemplate_hasKey_self _

/-- Key-presence frame of the reshaping pipeline away from its written and
popped keys. -/
theorem mhcSpecPipeline_hasKey (sp : Entries) (k : String)
    (d1 : k ≠ "nodeStartupTimeout") (d2 : k ≠ "unhealthyConditions")
    (d3 : k ≠ "checks") (d4 : k ≠ "maxUnhealthy") (d5 : k ≠ "remediation")
    (d6 : k ≠ "remediationTemplate") :
    hasKey (mhcSpecPipeline sp).1 k = hasKey sp k := by
  rw [mhcSpecPipeline]
  simp only
  rw [hasKey_congr _ _ _ (mhcStepRemTemplate_frame _ _ d6 d5),
    hasKey_congr _ _ _ (mhcStepMaxUnhealthy_frame _ _ d4 d5),
    mhcChecksWrite_hasKey _ _ _ d3,
    hasKey_congr _ _ _ (mhcStepConds_frame _ _ _ d2),
    hasKey_congr _ _ _ (mhcStepStartup_frame _ _ _ d1)]

/-- Decomposition of a successful rule phase into its step chain. -/
theorem applyRules_unfold (es : Entries) (r1 : Entries × Bool)
    (h : applyRules es = .ok r1) :
    ∃ rk, stepKubelet es = .ok rk ∧
      r1.1 = (stepKCP (stepMHC (stepCPE (stepRefs (stepExtraArgs rk.1).1).1).1).1).1 := by
  rw [applyRules] at h
  cases hsk : stepKubelet es with
  | error e => rw [hsk] at h; cases h
  | ok rk =>
    rw [hsk] at h
    cases h
    exact ⟨rk, rfl, rfl⟩

theorem stepKubelet_post (es : Entries) (rk : Entries × Bool)
    (h : stepKubelet es = .ok rk) :
    getEntry rk.1 "kubeletExtraArgs" = none ∨
    ∃ xs, getEntry rk.1 "kubeletExtraArgs" = some (Node.seq xs) := by
  rw [stepKubelet] at h
  cases hg : getEntry es "kubeletExtraArgs" with
  | none => rw [hg] at h; cases h; exact Or.inl hg
  | some v =>
    rw [hg] at h
    cases v with
    | map m =>
      cases h
      exact Or.inr ⟨convert_mapping_to_seq m, getEntry_setEntry_same _ _ _⟩
    | seq xs => cases h; exact Or.inr ⟨xs, hg⟩
    | str s => cases h
    | int n => cases h
    | bool b => cases h
    | null => cases h

theorem applyRules_kubelet (es : Entries) (r1 : Entries × Bool)
    (h : applyRules es = .ok r1) :
    getEntry r1.1 "kubeletExtraArgs" = none ∨
    ∃ xs, getEntry r1.1 "kubeletExtraArgs" = some (Node.seq xs) := by
  obtain ⟨rk, hsk, hr⟩ := applyRules_unfold es r1 h
  have hfr : getEntry r1.1 "kubeletExtraArgs" = getEntry rk.1 "kubeletExtraArgs" := by
    rw [hr, stepKCP_frame _ _ (by decide), stepMHC_frame _ _ (by decide),
      stepCPE_frame _ _ (by decide),
      stepRefs_frame _ _ (by decide) (by decide) (by decide),
      stepExtraArgs_frame _ _ (by decide)]
  rw [hfr]
  exact stepKubelet_post es rk hsk

theorem stepExtraArgs_post (es : Entries) (m : Entries) :
    getEntry (stepExtraArgs es).1 "extraArgs" ≠ some (Node.map m) := by
  rw [stepExtraArgs]
  cases hg : getEntry es "extraArgs" with
  | none => simp only; rw [hg]; simp
  | some v =>
    cases v with
    | map m0 =>
      simp only
      rw [getEntry_setEntry_same]
      simp
    | seq xs => simp only; rw [hg]; simp
    | str s => simp only; rw [hg]; simp
    | int n => simp only; rw [hg]; simp
    | bool b => simp only; rw [hg]; simp
    | null => simp only; rw [hg]; simp

theorem applyRules_extraArgs (es : Entries) (r1 : Entries × Bool)
    (h : applyRules es = .ok r1) (m : Entries) :
    getEntry r1.1 "extraArgs" ≠ some (Node.map m) := by
  obtain ⟨rk, hsk, hr⟩ := applyRules_unfold es r1 h
  have hfr : getEntry r1.1 "extraArgs" = getEntry (stepExtraArgs rk.1).1 "extraArgs" := by
    rw [hr, stepKCP_frame _ _ (by decide), stepMHC_frame _ _ (by decide),
      stepCPE_frame _ _ (by decide),
      stepRefs_frame _ _ (by decide) (by decide) (by decide)]
  rw [hfr]
  exact stepExtraArgs_post rk.1 m

theorem stepRef_self (es : Entries) (key : String) :
    ((∀ rv, getEntry es key ≠ some (Node.map rv)) ∧
      getEntry (stepRef es key).1 key = getEntry es key) ∨
    (∃ rv0, getEntry es key = some (Node.map rv0) ∧
      getEntry (stepRef es key).1 key = some (Node.map (processRef rv0).1)) := by
  rw [stepRef]
  cases hg : getEntry es key with
  | none => exact Or.inl ⟨fun rv hh => by simp at hh, hg⟩
  | some v =>
    cases v with
    | map rv =>
      refine Or.inr ⟨rv, rfl, ?_⟩
      show getEntry (setEntry es key (Node.map (processRef rv).1)) key =
        some (Node.map (processRef rv).1)
      exact getEntry_setEntry_same _ _ _
    | seq xs => exact Or.inl ⟨fun rv hh => by simp at hh, hg⟩
    | str s => exact Or.inl ⟨fun rv hh => by simp at hh, hg⟩
    | int n => exact Or.inl ⟨fun rv hh => by simp at hh, hg⟩
    | bool b => exact Or.inl ⟨fun rv hh => by simp at hh, hg⟩
    | null => exact Or.inl ⟨fun rv hh => by simp at hh, hg⟩

theorem stepRefs_at (es : Entries) (key : String)
    (hkey : key = "infrastructureRef" ∨ key = "controlPlaneRef" ∨ key = "configRef") :
    ((∀ rv, getEntry es key ≠ some (Node.map rv)) ∧
      getEntry (stepRefs es).1 key = getEntry es key) ∨
    (∃ rv0, getEntry es key = some (Node.map rv0) ∧
      getEntry (stepRefs es).1 key = some (Node.map (processRef rv0).1)) := by
  rw [stepRefs]
  simp only
  rcases hkey with hk | hk | hk <;> subst hk
  · rw [stepRef_frame _ _ _ (by decide), stepRef_frame _ _ _ (by decide)]
    exact stepRef_self es "infrastructureRef"
  · rw [stepRef_frame _ _ _ (by decide)]
    have hi : getEntry (stepRef es "infrastructureRef").1 "controlPlaneRef" =
        getEntry es "controlPlaneRef" := stepRef_frame _ _ _ (by decide)
    rcases stepRef_self (stepRef es "infrastructureRef").1 "controlPlaneRef" with
      ⟨ha, hb⟩ | ⟨rv0, ha, hb⟩
    · exact Or.inl ⟨fun rv hh => ha rv (by rw [hi]; exact hh), by rw [hb, hi]⟩
    · exact Or.inr ⟨rv0, by rw [← hi]; exact ha, hb⟩
  · have hi : getEntry (stepRef (stepRef es "infrastructureRef").1
        "controlPlaneRef").1 "configRef" = getEntry es "configRef" := by
      rw [stepRef_frame _ _ _ (by decide), stepRef_frame _ _ _ (by decide)]
    rcases stepRef_self (stepRef (stepRef es "infrastructureRef").1
        "controlPlaneRef").1 "configRef" with ⟨ha, hb⟩ | ⟨rv0, ha, hb⟩
    · exact Or.inl ⟨fun rv hh => ha rv (by rw [hi]; exact hh), by rw [hb, hi]⟩
    · exact Or.inr ⟨rv0, by rw [← hi]; exact ha, hb⟩

theorem applyRules_ref (es : Entries) (r1 : Entries × Bool) (h : applyRules es = .ok r1)
    (key : String)
    (hkey : key = "infrastructureRef" ∨ key = "controlPlaneRef" ∨ key = "configRef") :
    ((∀ rv, getEntry es key ≠ some (Node.map rv)) ∧
      getEntry r1.1 key = getEntry es key) ∨
    (∃ rv0, getEntry es key = some (Node.map rv0) ∧
      getEntry r1.1 key = some (Node.map (processRef rv0).1)) := by
  obtain ⟨rk, hsk, hr⟩ := applyRules_unfold es r1 h
  have hne : key ≠ "controlPlaneEndpoint" ∧ key ≠ "spec" ∧ key ≠ "extraArgs" ∧
      key ≠ "kubeletExtraArgs" := by
    rcases hkey with hk | hk | hk <;> subst hk <;>
      exact ⟨by decide, by decide, by decide, by decide⟩
  have houter : getEntry r1.1 key =
      getEntry (stepRefs (stepExtraArgs rk.1).1).1 key := by
    rw [hr, stepKCP_frame _ _ hne.2.1, stepMHC_frame _ _ hne.2.1,
      stepCPE_frame _ _ hne.1]
  have hinner : getEntry (stepExtraArgs rk.1).1 key = getEntry es key := by
    rw [stepExtraArgs_frame _ _ hne.2.2.1, stepKubelet_frame es rk hsk _ hne.2.2.2]
  rcases stepRefs_at (stepExtraArgs rk.1).1 key hkey with ⟨ha, hb⟩ | ⟨rv0, ha, hb⟩
  · exact Or.inl ⟨fun rv hh => ha rv (by rw [hinner]; exact hh),
      by rw [houter, hb, hinner]⟩
  · exact Or.inr ⟨rv0, by rw [← hinner]; exact ha, by rw [houter]; exact hb⟩

theorem stepCPE_post (es : Entries) :
    getEntry (stepCPE es).1 "controlPlaneEndpoint" = none ∨
    (∃ cm, getEntry (stepCPE es).1 "controlPlaneEndpoint" = some (Node.map cm) ∧
      (match getEntry cm "host" with
       | none => true
       | some v => strBlank v) = false) ∨
    (∃ v, getEntry (stepCPE es).1 "controlPlaneEndpoint" = some v ∧
      ∀ cm, v ≠ Node.map cm) := by
  rw [stepCPE]
  cases hg : getEntry es "controlPlaneEndpoint" with
  | none => exact Or.inl hg
  | some v =>
    cases v with
    | map cm =>
      simp only
      by_cases hb : (match getEntry cm "host" with
        | none => true
        | some v => strBlank v) = true
      · rw [if_pos hb]
        exact Or.inl (by simp [getEntry_delEntry])
      · rw [if_neg hb]
        exact Or.inr (Or.inl ⟨cm, hg, by simpa using hb⟩)
    | seq xs => exact Or.inr (Or.inr ⟨_, hg, fun cm h2 => Node.noConfusion h2⟩)
    | str s => exact Or.inr (Or.inr ⟨_, hg, fun cm h2 => Node.noConfusion h2⟩)
    | int n => exact Or.inr (Or.inr ⟨_, hg, fun cm h2 => Node.noConfusion h2⟩)
    | bool b => exact Or.inr (Or.inr ⟨_, hg, fun cm h2 => Node.noConfusion h2⟩)
    | null => exact Or.inr (Or.inr ⟨_, hg, fun cm h2 => Node.noConfusion h2⟩)

theorem applyRules_cpe (es : Entries) (r1 : Entries × Bool)
    (h : applyRules es = .ok r1) :
    getEntry r1.1 "controlPlaneEndpoint" = none ∨
    (∃ cm, getEntry r1.1 "controlPlaneEndpoint" = some (Node.map cm) ∧
      (match getEntry cm "host" with
       | none => true
       | some v => strBlank v) = false) ∨
    (∃ v, getEntry r1.1 "controlPlaneEndpoint" = some v ∧ ∀ cm, v ≠ Node.map cm) := by
  obtain ⟨rk, hsk, hr⟩ := applyRules_unfold es r1 h
  have hfr : getEntry r1.1 "controlPlaneEndpoint" =
      getEntry (stepCPE (stepRefs (stepExtraArgs rk.1).1).1).1 "controlPlaneEndpoint" := by
    rw [hr, stepKCP_frame _ _ (by decide), stepMHC_frame _ _ (by decide)]
  rw [hfr]
  exact stepCPE_post _

theorem mhc_spec_post (es : Entries) :
    (∃ spc, getEntry (transform_machine_health_check es).1 "spec" =
        some (Node.map spc) ∧ MhcMigrated spc) ∨
    (getEntry (transform_machine_health_check es).1 "spec" = getEntry es "spec" ∧
      ∀ m, getEntry es "spec" ≠ some (Node.map m)) := by
  rw [transform_machine_health_check]
  cases hg : getEntry es "spec" with
  | none => exact Or.inr ⟨hg, fun m hh => by simp at hh⟩
  | some v =>
    cases v with
    | map sp =>
      refine Or.inl ⟨(mhcSpecPipeline sp).1, ?_, mhcSpecPipeline_migrated sp⟩
      show getEntry (setEntry es "spec" (Node.map (mhcSpecPipeline sp).1)) "spec" =
        some (Node.map (mhcSpecPipeline sp).1)
      exact getEntry_setEntry_same _ _ _
    | seq xs => exact Or.inr ⟨hg, fun m hh => by simp at hh⟩
    | str s => exact Or.inr ⟨hg, fun m hh => by simp at hh⟩
    | int n => exact Or.inr ⟨hg, fun m hh => by simp at hh⟩
    | bool b => exact Or.inr ⟨hg, fun m hh => by simp at hh⟩
    | null => exact Or.inr ⟨hg, fun m hh => by simp at hh⟩

theorem applyRules_mhc (es : Entries) (r1 : Entries × Bool)
    (h : applyRules es = .ok r1) (hkind : kindIs es "MachineHealthCheck" = true) :
    (∃ spc, getEntry r1.1 "spec" = some (Node.map spc) ∧ MhcMigrated spc) ∨
    (getEntry r1.1 "spec" = getEntry es "spec" ∧
      ∀ m, getEntry es "spec" ≠ some (Node.map m)) := by
  obtain ⟨rk, hsk, hr⟩ := applyRules_unfold es r1 h
  have hkeq : getEntry (stepCPE (stepRefs (stepExtraArgs rk.1).1).1).1 "kind" =
      getEntry es "kind" := by
    rw [stepCPE_frame _ _ (by decide),
      stepRefs_frame _ _ (by decide) (by decide) (by decide),
      stepExtraArgs_frame _ _ (by decide), stepKubelet_frame es rk hsk _ (by decide)]
  have hspec4 : getEntry (stepCPE (stepRefs (stepExtraArgs rk.1).1).1).1 "spec" =
      getEntry es "spec" := by
    rw [stepCPE_frame _ _ (by decide),
      stepRefs_frame _ _ (by decide) (by decide) (by decide),
      stepExtraArgs_frame _ _ (by decide), stepKubelet_frame es rk hsk _ (by decide)]
  have hkind4 : kindIs (stepCPE (stepRefs (stepExtraArgs rk.1).1).1).1
      "MachineHealthCheck" = true := by
    rw [kindIs_congr _ es hkeq]
    exact hkind
  have hmhc : stepMHC (stepCPE (stepRefs (stepExtraArgs rk.1).1).1).1 =
      transform_machine_health_check (stepCPE (stepRefs (stepExtraArgs rk.1).1).1).1 := by
    rw [stepMHC, if_pos hkind4]
  have hkind5 : kindIs (stepMHC (stepCPE (stepRefs (stepExtraArgs rk.1).1).1).1).1
      "KubeadmControlPlane" = false := by
    rw [hmhc]
    rw [kindIs_congr _ es (by rw [mhc_frame _ _ (by decide), hkeq])]
    exact kindIs_unique es _ _ hkind (by decide)
  have hr1 : r1.1 = (stepMHC (stepCPE (stepRefs (stepExtraArgs rk.1).1).1).1).1 := by
    rw [hr, stepKCP_noKCP _ hkind5]
  rw [hr1, hmhc]
  rcases mhc_spec_post (stepCPE (stepRefs (stepExtraArgs rk.1).1).1).1 with
    ⟨spc, ha, hb⟩ | ⟨ha, hb⟩
  · exact Or.inl ⟨spc, ha, hb⟩
  · exact Or.inr ⟨by rw [ha, hspec4], fun m hh => hb m (by rw [hspec4]; exact hh)⟩

theorem KcpMigrated_congr (a b : Entries) (h : getEntry a "spec" = getEntry b "spec")
    (hk : KcpMigrated a) : KcpMigrated b := by
  intro sm hsm mtm hmtm
  exact hk sm (by rw [h]; exact hsm) mtm hmtm

theorem stepKCP_nofire (es : Entries) (hf : (stepKCP es).2 = false)
    (hkind : kindIs es "KubeadmControlPlane" = true) (sm : Entries)
    (hsm : getEntry es "spec" = some (Node.map sm)) (mtm : Entries)
    (hmtm : getEntry sm "machineTemplate" = some (Node.map mtm)) :
    getEntry mtm "infrastructureRef" = none ∨
    hasKey (kcpMtSpec mtm) "infrastructureRef" = true := by
  rw [stepKCP, if_pos hkind, hsm] at hf
  simp only at hf
  rw [hmtm] at hf
  simp only at hf
  rw [kcpMove] at hf
  cases hiv : getEntry mtm "infrastructureRef" with
  | none => exact Or.inl rfl
  | some iv =>
    rw [hiv] at hf
    simp only at hf
    by_cases hin : hasKey (kcpMtSpec mtm) "infrastructureRef" = true
    · exact Or.inr hin
    · rw [if_neg hin] at hf
      cases hf

/-- Behaviour of the KubeadmControlPlane rule at a node of that kind: either
nothing to move (state kept, migrated shape), or the relocation fired and the
new machineTemplate no longer holds infrastructureRef. -/
theorem stepKCP_post (es : Entries) (hkind : kindIs es "KubeadmControlPlane" = true) :
    (getEntry (stepKCP es).1 "spec" = getEntry es "spec" ∧ KcpMigrated es) ∨
    (∃ sm mtm iv, getEntry es "spec" = some (Node.map sm) ∧
      getEntry sm "machineTemplate" = some (Node.map mtm) ∧
      getEntry mtm "infrastructureRef" = some iv ∧
      getEntry (stepKCP es).1 "spec" = some (Node.map (setEntry sm "machineTemplate"
        (Node.map (setEntry (delEntry mtm "infrastructureRef") "spec"
          (Node.map (setEntry (kcpMtSpec mtm) "infrastructureRef" iv))))))) := by
  by_cases hf : (stepKCP es).2 = true
  · obtain ⟨sm, mtm, iv, hgsm, hgmt, hgiv, hnospec, he6⟩ := stepKCP_flag es hf
    exact Or.inr ⟨sm, mtm, iv, hgsm, hgmt, hgiv,
      by rw [he6, getEntry_setEntry_same]⟩
  · have hf0 : (stepKCP es).2 = false := by simpa using hf
    have hid := stepKCP_id es hf0
    refine Or.inl ⟨by rw [hid], ?_⟩
    intro sm hsm mtm hmtm
    exact stepKCP_nofire es hf0 hkind sm hsm mtm hmtm

theorem applyRules_kcp (es : Entries) (r1 : Entries × Bool)
    (h : applyRules es = .ok r1) (hkind : kindIs es "KubeadmControlPlane" = true) :
    (getEntry r1.1 "spec" = getEntry es "spec" ∧ KcpMigrated es) ∨
    (∃ sm mtm iv, getEntry es "spec" = some (Node.map sm) ∧
      getEntry sm "machineTemplate" = some (Node.map mtm) ∧
      getEntry mtm "infrastructureRef" = some iv ∧
      getEntry r1.1 "spec" = some (Node.map (setEntry sm "machineTemplate"
        (Node.map (setEntry (delEntry mtm "infrastructureRef") "spec"
          (Node.map (setEntry (kcpMtSpec mtm) "infrastructureRef" iv))))))) := by
  obtain ⟨rk, hsk, hr⟩ := applyRules_unfold es r1 h
  have hkeq : getEntry (stepCPE (stepRefs (stepExtraArgs rk.1).1).1).1 "kind" =
      getEntry es "kind" := by
    rw [stepCPE_frame _ _ (by decide),
      stepRefs_frame _ _ (by decide) (by decide) (by decide),
      stepExtraArgs_frame _ _ (by decide), stepKubelet_frame es rk hsk _ (by decide)]
  have hspec4 : getEntry (stepCPE (stepRefs (stepExtraArgs rk.1).1).1).1 "spec" =
      getEntry es "spec" := by
    rw [stepCPE_frame _ _ (by decide),
      stepRefs_frame _ _ (by decide) (by decide) (by decide),
      stepExtraArgs_frame _ _ (by decide), stepKubelet_frame es rk hsk _ (by decide)]
  have hkindMHC : kindIs (stepCPE (stepRefs (stepExtraArgs rk.1).1).1).1
      "MachineHealthCheck" = false := by
    rw [kindIs_congr _ es hkeq]
    exact kindIs_unique es _ _ hkind (by decide)
  have hmhc := stepMHC_noMHC _ hkindMHC
  have hr2 : r1.1 = (stepKCP (stepCPE (stepRefs (stepExtraArgs rk.1).1).1).1).1 := by
    rw [hr, hmhc]
  have hkind4 : kindIs (stepCPE (stepRefs (stepExtraArgs rk.1).1).1).1
      "KubeadmControlPlane" = true := by
    rw [kindIs_congr _ es hkeq]
    exact hkind
  rcases stepKCP_post (stepCPE (stepRefs (stepExtraArgs rk.1).1).1).1 hkind4 with
    ⟨ha, hb⟩ | ⟨sm, mtm, iv, hgsm, hgmt, hgiv, hout⟩
  · exact Or.inl ⟨by rw [hr2, ha, hspec4],
      KcpMigrated_congr _ es hspec4 hb⟩
  · exact Or.inr ⟨sm, mtm, iv, by rw [← hspec4]; exact hgsm, hgmt, hgiv,
      by rw [hr2]; exact hout⟩

theorem stepMHC_spec_track (es : Entries) (X : Entries)
    (hsp : getEntry es "spec" = some (Node.map X)) :
    ∃ X1, getEntry (stepMHC es).1 "spec" = some (Node.map X1) ∧
      hasKey X1 "infrastructureRef" = hasKey X "infrastructureRef" := by
  rw [stepMHC]
  by_cases hk : kindIs es "MachineHealthCheck" = true
  · rw [if_pos hk, transform_machine_health_check, hsp]
    simp only
    refine ⟨(mhcSpecPipeline X).1, ?_, ?_⟩
    · show getEntry (setEntry es "spec" (Node.map (mhcSpecPipeline X).1)) "spec" =
        some (Node.map (mhcSpecPipeline X).1)
      exact getEntry_setEntry_same _ _ _
    · exact mhcSpecPipeline_hasKey X _ (by decide) (by decide) (by decide)
        (by decide) (by decide) (by decide)
  · rw [if_neg hk]
    exact ⟨X, hsp, rfl⟩

theorem stepKCP_spec_track (es : Entries) (X : Entries)
    (hsp : getEntry es "spec" = some (Node.map X)) :
    ∃ X1, getEntry (stepKCP es).1 "spec" = some (Node.map X1) ∧
      hasKey X1 "infrastructureRef" = hasKey X "infrastructureRef" := by
  by_cases hf : (stepKCP es).2 = true
  · obtain ⟨sm, mtm, iv, hgsm, hgmt, hgiv, hnospec, he6⟩ := stepKCP_flag es hf
    have hsmX : sm = X := by
      rw [hsp] at hgsm
      injection hgsm with h1
      injection h1 with h2
      exact h2.symm
    subst hsmX
    refine ⟨setEntry sm "machineTemplate"
      (Node.map (setEntry (delEntry mtm "infrastructureRef") "spec"
        (Node.map (setEntry (kcpMtSpec mtm) "infrastructureRef" iv)))), ?_, ?_⟩
    · rw [he6, getEntry_setEntry_same]
    · simp
  · have hf0 : (stepKCP es).2 = false := by simpa using hf
    rw [stepKCP_id es hf0]
    exact ⟨X, hsp, rfl⟩

/-- The rule phase keeps a mapping spec a mapping, preserving the presence of
`infrastructureRef` inside it. -/
theorem applyRules_spec_track (es : Entries) (r1 : Entries × Bool)
    (h : applyRules es = .ok r1) (X : Entries)
    (hsp : getEntry es "spec" = some (Node.map X)) :
    ∃ X1, getEntry r1.1 "spec" = some (Node.map X1) ∧
      hasKey X1 "infrastructureRef" = hasKey X "infrastructureRef" := by
  obtain ⟨rk, hsk, hr⟩ := applyRules_unfold es r1 h
  have hspec4 : getEntry (stepCPE (stepRefs (stepExtraArgs rk.1).1).1).1 "spec" =
      some (Node.map X) := by
    rw [stepCPE_frame _ _ (by decide),
      stepRefs_frame _ _ (by decide) (by decide) (by decide),
      stepExtraArgs_frame _ _ (by decide), stepKubelet_frame es rk hsk _ (by decide),
      hsp]
  obtain ⟨X1, hX1, hK1⟩ := stepMHC_spec_track _ X hspec4
  obtain ⟨X2, hX2, hK2⟩ := stepKCP_spec_track _ X1 hX1
  exact ⟨X2, by rw [hr]; exact hX2, by rw [hK2, hK1]⟩

theorem transform_not_map (f : Nat) (v : Node) (rv : Node × Bool)
    (h : transform f v = .ok rv) (hv : ∀ m, v ≠ Node.map m) (m : Entries) :
    rv.1 ≠ Node.map m := by
  cases v with
  | map es => exact absurd rfl (hv es)
  | seq xs =>
    obtain ⟨xs2, h2⟩ := transform_seq_shape f xs rv h
    rw [h2]
    exact fun hh => Node.noConfusion hh
  | str s =>
    rw [transform_scalar f _ rv
      ⟨fun es h2 => Node.noConfusion h2, fun xs h2 => Node.noConfusion h2⟩ h]
    exact hv m
  | int n =>
    rw [transform_scalar f _ rv
      ⟨fun es h2 => Node.noConfusion h2, fun xs h2 => Node.noConfusion h2⟩ h]
    exact hv m
  | bool b =>
    rw [transform_scalar f _ rv
      ⟨fun es h2 => Node.noConfusion h2, fun xs h2 => Node.noConfusion h2⟩ h]
    exact hv m
  | null =>
    rw [transform_scalar f _ rv
      ⟨fun es h2 => Node.noConfusion h2, fun xs h2 => Node.noConfusion h2⟩ h]
    exact hv m

theorem unwrittenKey_of_ne (k : String) (h1 : k ≠ "kubeletExtraArgs")
    (h2 : k ≠ "extraArgs") (h3 : k ≠ "infrastructureRef") (h4 : k ≠ "controlPlaneRef")
    (h5 : k ≠ "configRef") (h6 : k ≠ "controlPlaneEndpoint") (h7 : k ≠ "spec") :
    unwrittenKey k := ⟨h1, h2, h3, h4, h5, h6, h7⟩

/-- String observation at an unwritten key through a whole transform. -/
theorem transform_map_strOf (fuel : Nat) (es es2 : Entries) (c : Bool)
    (h : transform fuel (Node.map es) = .ok (.map es2, c)) (k : String)
    (hk : unwrittenKey k) : strOf (getEntry es2 k) = strOf (getEntry es k) := by
  obtain ⟨hv1, hv2⟩ := transform_map_value fuel es es2 c h k hk
  cases hg : getEntry es k with
  | none => rw [hv2 hg]
  | some v =>
    obtain ⟨f2, rv, htv, hget2⟩ := hv1 v hg
    rw [hget2]
    exact transform_strOf f2 v rv htv

theorem refApiVersionStep_frame (rv : Entries) (k : String) (hk : k ≠ "apiVersion") :
    getEntry (refApiVersionStep rv).1 k = getEntry rv k := by
  rw [refApiVersionStep]
  by_cases hv : hasKey rv "apiVersion" = true
  · rw [if_pos hv]
    simp [getEntry_delEntry, hk]
  · rw [if_neg hv]

theorem infer_no_version (rv : Entries) (h : getEntry rv "apiVersion" = none) :
    infer_api_group rv = inferFromKind rv := by
  rw [infer_api_group, h]

/-- When the ref body leaves `apiGroup` absent, the group step was a no-op
driven by a failed inference (under the proviso), and the kind entry is
untouched. -/
theorem processRef_noGroup (rv0 : Entries) (hQ : noSlashTop rv0)
    (hag0 : hasKey (processRef rv0).1 "apiGroup" = false) :
    infer_api_group rv0 = none ∧
    getEntry (processRef rv0).1 "kind" = getEntry rv0 "kind" := by
  have hgs : (refApiGroupStep rv0).1 = rv0 := by
    by_cases hgf : (refApiGroupStep rv0).2 = true
    · obtain ⟨hno, g, hset⟩ := refApiGroupStep_flag rv0 hgf
      exfalso
      rw [processRef] at hag0
      simp only at hag0
      rw [hasKey_congr _ _ _ (refApiVersionStep_frame _ _ (by decide)), hset] at hag0
      simp [hasKey_setEntry] at hag0
    · exact refApiGroupStep_id rv0 (by simpa using hgf)
  have hkind : getEntry (processRef rv0).1 "kind" = getEntry rv0 "kind" := by
    rw [processRef]
    simp only
    rw [hgs, refApiVersionStep_frame _ _ (by decide)]
  refine ⟨?_, hkind⟩
  have hag1 : hasKey rv0 "apiGroup" = false := by
    rw [processRef] at hag0
    simp only at hag0
    rw [hasKey_congr _ _ _ (refApiVersionStep_frame _ _ (by decide)), hgs] at hag0
    exact hag0
  cases hi : infer_api_group rv0 with
  | none => rfl
  | some g =>
    by_cases hge : g = ""
    · subst hge
      exact absurd hi (infer_not_empty rv0 hQ)
    · exfalso
      have hfire : (refApiGroupStep rv0).2 = true := by
        rw [refApiGroupStep, if_neg (by simp [hag1]), hi]
        simp [hge]
      obtain ⟨hno, g2, hset⟩ := refApiGroupStep_flag rv0 hfire
      rw [hset] at hgs
      have h2 := congrArg (fun es => hasKey es "apiGroup") hgs
      simp [hag1] at h2

theorem kcpMtSpec_spec (mtm : Entries) (h : kcpMtSpec mtm ≠ []) :
    getEntry mtm "spec" = some (Node.map (kcpMtSpec mtm)) := by
  rw [kcpMtSpec] at h ⊢
  cases hsp : getEntry mtm "spec" with
  | none => rw [hsp] at h; exact absurd rfl h
  | some v =>
    cases v with
    | map X => rfl
    | seq xs => rw [hsp] at h; exact absurd rfl h
    | str s => rw [hsp] at h; exact absurd rfl h
    | int n => rw [hsp] at h; exact absurd rfl h
    | bool b => rw [hsp] at h; exact absurd rfl h
    | null => rw [hsp] at h; exact absurd rfl h

/-- Through a whole transform of a mapping node, a mapping spec containing
`infrastructureRef` stays a mapping containing `infrastructureRef`. -/
theorem transform_map_specKey (f : Nat) (mtm mtmF : Entries) (c : Bool)
    (h : transform f (Node.map mtm) = .ok (.map mtmF, c))
    (X : Entries) (hsp : getEntry mtm "spec" = some (Node.map X))
    (hk : hasKey X "infrastructureRef" = true) :
    ∃ Y, getEntry mtmF "spec" = some (Node.map Y) ∧
      hasKey Y "infrastructureRef" = true := by
  cases f with
  | zero => cases h
  | succ f2 =>
    obtain ⟨q1, q2, har, hte, hr⟩ := transform_map_unfold f2 mtm (.map mtmF, c) h
    have hF : mtmF = q2.1 := by
      have h2 := congrArg Prod.fst hr
      simpa using h2
    subst hF
    obtain ⟨X1, hX1, hKX1⟩ := applyRules_spec_track mtm q1 har X hsp
    obtain ⟨hp1, hp2, _⟩ := transformEntries_pointwise f2 q1.1 q2 hte
    obtain ⟨f3, rv, htv, hget⟩ := hp2 _ _ hX1
    obtain ⟨X2, hX2⟩ := transform_map_shape f3 X1 rv htv
    have htv2 : transform f3 (Node.map X1) = .ok (.map X2, rv.2) := by
      rw [htv, ← hX2]
    obtain ⟨hK1, _⟩ := transform_map_keys f3 X1 X2 rv.2 htv2
    refine ⟨X2, by rw [hget, hX2], ?_⟩
    rw [hK1 _ (by decide), hKX1]
    exact hk

/-- Establishment of the ref criterion on the post-recursion state. -/
theorem ref_migrated_aux (f : Nat) (es : Entries) (r1 r2 : Entries × Bool)
    (hEA : EntriesAll noSlashTop es)
    (har : applyRules es = .ok r1) (hte : transformEntries f r1.1 = .ok r2)
    (key : String)
    (hkey : key = "infrastructureRef" ∨ key = "controlPlaneRef" ∨ key = "configRef") :
    RefMigrated r2.1 key := by
  obtain ⟨hp1, hp2, hpk⟩ := transformEntries_pointwise f r1.1 r2 hte
  intro rvF hgF
  rcases applyRules_ref es r1 har key hkey with ⟨ha, hb⟩ | ⟨rv0, ha, hb⟩
  · exfalso
    cases hg1 : getEntry r1.1 key with
    | none => rw [hp1 _ hg1] at hgF; cases hgF
    | some v =>
      obtain ⟨f2, rv, htv, hget⟩ := hp2 _ _ hg1
      rw [hget] at hgF
      injection hgF with h1
      have hvnm : ∀ m0, v ≠ Node.map m0 := by
        intro m0 hm0
        rw [hm0] at hg1
        rw [hg1] at hb
        exact ha m0 hb.symm
      exact transform_not_map f2 v rv htv hvnm rvF h1
  · obtain ⟨f2, rv, htv, hget⟩ := hp2 _ _ hb
    rw [hget] at hgF
    injection hgF with h1
    have htv2 : transform f2 (Node.map (processRef rv0).1) = .ok (.map rvF, rv.2) := by
      rw [htv, ← h1]
    obtain ⟨hK1, hK2⟩ := transform_map_keys f2 _ rvF rv.2 htv2
    have hver0 : hasKey (processRef rv0).1 "apiVersion" = false := by
      rw [processRef]
      exact refApiVersionStep_post _
    have hverF : hasKey rvF "apiVersion" = false := by
      rw [hK1 _ (by decide), hver0]
    refine ⟨?_, hverF⟩
    by_cases hag : hasKey (processRef rv0).1 "apiGroup" = true
    · exact Or.inl (by rw [hK1 _ (by decide)]; exact hag)
    · right
      have hag0 : hasKey (processRef rv0).1 "apiGroup" = false := by simpa using hag
      have hQ : noSlashTop rv0 := by
        have hmem := EntriesAll_mem noSlashTop es key (Node.map rv0) hEA
          (getEntry_mem es key _ ha)
        rw [NodeAll] at hmem
        exact hmem.1
      obtain ⟨hinone, hkindeq⟩ := processRef_noGroup rv0 hQ hag0
      have hvF : getEntry rvF "apiVersion" = none := by
        rw [← hasKey_false_iff]
        exact hverF
      rw [infer_no_version rvF hvF]
      have hso : strOf (getEntry rvF "kind") = strOf (getEntry rv0 "kind") := by
        rw [transform_map_strOf f2 _ rvF rv.2 htv2 "kind"
          (unwrittenKey_of_ne _ (by decide) (by decide) (by decide) (by decide)
            (by decide) (by decide) (by decide)), hkindeq]
      rw [inferFromKind_of_strOf rvF rv0 hso]
      exact infer_none_inferFromKind rv0 hinone

/-- Establishment of the MachineHealthCheck criterion on the post-recursion
state. -/
theorem mhc_migrated_aux (f : Nat) (es : Entries) (r1 r2 : Entries × Bool)
    (har : applyRules es = .ok r1) (hte : transformEntries f r1.1 = .ok r2)
    (hkind : kindIs es "MachineHealthCheck" = true) :
    ∀ spF, getEntry r2.1 "spec" = some (Node.map spF) → MhcMigrated spF := by
  obtain ⟨hp1, hp2, hpk⟩ := transformEntries_pointwise f r1.1 r2 hte
  intro spF hgFsp
  rcases applyRules_mhc es r1 har hkind with ⟨spc, ha, hb⟩ | ⟨ha, hb⟩
  · obtain ⟨f2, rv, htv, hget⟩ := hp2 _ _ ha
    rw [hget] at hgFsp
    injection hgFsp with h1
    have htv2 : transform f2 (Node.map spc) = .ok (.map spF, rv.2) := by
      rw [htv, ← h1]
    obtain ⟨hK1, hK2⟩ := transform_map_keys f2 spc spF rv.2 htv2
    obtain ⟨m1, m2, m3, m4⟩ := hb
    exact ⟨by rw [hK1 _ (by decide)]; exact m1, by rw [hK1 _ (by decide)]; exact m2,
      by rw [hK1 _ (by decide)]; exact m3, by rw [hK1 _ (by decide)]; exact m4⟩
  · exfalso
    cases hg1 : getEntry es "spec" with
    | none =>
      have hn : getEntry r1.1 "spec" = none := by rw [ha, hg1]
      rw [hp1 _ hn] at hgFsp
      cases hgFsp
    | some v =>
      have hv1 : getEntry r1.1 "spec" = some v := by rw [ha, hg1]
      obtain ⟨f2, rv, htv, hget⟩ := hp2 _ _ hv1
      rw [hget] at hgFsp
      injection hgFsp with h1
      have hnm : ∀ m0, v ≠ Node.map m0 := by
        intro m0 hm0
        rw [hm0] at hg1
        exact hb m0 hg1
      exact transform_not_map f2 v rv htv hnm spF h1

/-- Establishment of the KubeadmControlPlane criterion on the post-recursion
state. -/
theorem kcp_migrated_aux (f : Nat) (es : Entries) (r1 r2 : Entries × Bool)
    (har : applyRules es = .ok r1) (hte : transformEntries f r1.1 = .ok r2)
    (hkind : kindIs es "KubeadmControlPlane" = true) : KcpMigrated r2.1 := by
  obtain ⟨hp1, hp2, hpk⟩ := transformEntries_pointwise f r1.1 r2 hte
  intro smF hgFsp mtmF hgFmt
  rcases applyRules_kcp es r1 har hkind with
    ⟨ha, hb⟩ | ⟨sm, mtm, iv, hgsm, hgmt, hgiv, hout⟩
  · cases hg1 : getEntry es "spec" with
    | none =>
      exfalso
      have hn : getEntry r1.1 "spec" = none := by rw [ha, hg1]
      rw [hp1 _ hn] at hgFsp
      cases hgFsp
    | some v =>
      have hv1 : getEntry r1.1 "spec" = some v := by rw [ha, hg1]
      obtain ⟨f2, rv, htv, hget⟩ := hp2 _ _ hv1
      rw [hget] at hgFsp
      injection hgFsp with h1
      cases v with
      | map sm0 =>
        have htv2 : transform f2 (Node.map sm0) = .ok (.map smF, rv.2) := by
          rw [htv, ← h1]
        obtain ⟨hW1, hW2⟩ := transform_map_value f2 sm0 smF rv.2 htv2 "machineTemplate"
          (unwrittenKey_of_ne _ (by decide) (by decide) (by decide) (by decide)
            (by decide) (by decide) (by decide))
        cases hgmt0 : getEntry sm0 "machineTemplate" with
        | none =>
          exfalso
          rw [hW2 hgmt0] at hgFmt
          cases hgFmt
        | some w =>
          obtain ⟨f3, rv3, htv3, hget3⟩ := hW1 w hgmt0
          rw [hget3] at hgFmt
          injection hgFmt with h2
          cases w with
          | map mtm0 =>
            have htv4 : transform f3 (Node.map mtm0) = .ok (.map mtmF, rv3.2) := by
              rw [htv3, ← h2]
            rcases hb sm0 hg1 mtm0 hgmt0 with hiv0 | hin0
            · left
              obtain ⟨hK1, _⟩ := transform_map_keys f3 mtm0 mtmF rv3.2 htv4
              rw [← hasKey_false_iff, hK1 _ (by decide), hasKey_false_iff]
              exact hiv0
            · right
              have hXne : kcpMtSpec mtm0 ≠ [] := by
                intro hnil
                rw [hnil] at hin0
                simp [hasKey] at hin0
              have hXsp := kcpMtSpec_spec mtm0 hXne
              obtain ⟨Y, hY1, hY2⟩ :=
                transform_map_specKey f3 mtm0 mtmF rv3.2 htv4 _ hXsp hin0
              rw [kcpMtSpec_of_getEntry mtmF Y hY1]
              exact hY2
          | seq xs =>
            exact absurd h2 (transform_not_map f3 _ rv3 htv3
              (fun m0 hm0 => Node.noConfusion hm0) mtmF)
          | str s =>
            exact absurd h2 (transform_not_map f3 _ rv3 htv3
              (fun m0 hm0 => Node.noConfusion hm0) mtmF)
          | int n =>
            exact absurd h2 (transform_not_map f3 _ rv3 htv3
              (fun m0 hm0 => Node.noConfusion hm0) mtmF)
          | bool b =>
            exact absurd h2 (transform_not_map f3 _ rv3 htv3
              (fun m0 hm0 => Node.noConfusion hm0) mtmF)
          | null =>
            exact absurd h2 (transform_not_map f3 _ rv3 htv3
              (fun m0 hm0 => Node.noConfusion hm0) mtmF)
      | seq xs =>
        exact absurd h1 (transform_not_map f2 _ rv htv
          (fun m0 hm0 => Node.noConfusion hm0) smF)
      | str s =>
        exact absurd h1 (transform_not_map f2 _ rv htv
          (fun m0 hm0 => Node.noConfusion hm0) smF)
      | int n =>
        exact absurd h1 (transform_not_map f2 _ rv htv
          (fun m0 hm0 => Node.noConfusion hm0) smF)
      | bool b =>
        exact absurd h1 (transform_not_map f2 _ rv htv
          (fun m0 hm0 => Node.noConfusion hm0) smF)
      | null =>
        exact absurd h1 (transform_not_map f2 _ rv htv
          (fun m0 hm0 => Node.noConfusion hm0) smF)
  · obtain ⟨f2, rv, htv, hget⟩ := hp2 _ _ hout
    rw [hget] at hgFsp
    injection hgFsp with h1
    have htv2 : transform f2 (Node.map (setEntry sm "machineTemplate"
        (Node.map (setEntry (delEntry mtm "infrastructureRef") "spec"
          (Node.map (setEntry (kcpMtSpec mtm) "infrastructureRef" iv)))))) =
        .ok (.map smF, rv.2) := by
      rw [htv, ← h1]
    obtain ⟨hW1, hW2⟩ := transform_map_value f2 _ smF rv.2 htv2 "machineTemplate"
      (unwrittenKey_of_ne _ (by decide) (by decide) (by decide) (by decide)
        (by decide) (by decide) (by decide))
    obtain ⟨f3, rv3, htv3, hget3⟩ := hW1 _ (getEntry_setEntry_same _ _ _)
    rw [hget3] at hgFmt
    injection hgFmt with h2
    have htv4 : transform f3 (Node.map (setEntry (delEntry mtm "infrastructureRef")
        "spec" (Node.map (setEntry (kcpMtSpec mtm) "infrastructureRef" iv)))) =
        .ok (.map mtmF, rv3.2) := by
      rw [htv3, ← h2]
    obtain ⟨hK1, _⟩ := transform_map_keys f3 _ mtmF rv3.2 htv4
    left
    rw [← hasKey_false_iff, hK1 _ (by decide)]
    simp

/-- After a completed rule phase and recursive descent (under the proviso),
every rule is a no-op on the resulting entries. -/
theorem transform_post_migrated (f : Nat) (es : Entries) (r1 r2 : Entries × Bool)
    (hEA : EntriesAll noSlashTop es)
    (har : applyRules es = .ok r1) (hte : transformEntries f r1.1 = .ok r2) :
    RulesMigrated r2.1 := by
  obtain ⟨hp1, hp2, hpk⟩ := transformEntries_pointwise f r1.1 r2 hte
  have hkind2 : ∀ s, kindIs r2.1 s = kindIs es s := by
    intro s
    rw [kindIs_of_strOf r2.1 r1.1 (entries_strOf f r1.1 r2 hte "kind")]
    exact kindIs_congr _ _ (applyRules_kind es r1 har) _
  refine ⟨?_, ?_, ?_, ?_, ?_, ?_, ?_, ?_⟩
  · rcases applyRules_kubelet es r1 har with hk | ⟨xs, hk⟩
    · exact Or.inl (hp1 _ hk)
    · obtain ⟨f2, rv, htv, hget⟩ := hp2 _ _ hk
      obtain ⟨xs2, hxs2⟩ := transform_seq_shape f2 xs rv htv
      exact Or.inr ⟨xs2, by rw [hget, hxs2]⟩
  · intro m
    cases hg : getEntry r1.1 "extraArgs" with
    | none => rw [hp1 _ hg]; simp
    | some v =>
      obtain ⟨f2, rv, htv, hget⟩ := hp2 _ _ hg
      rw [hget]
      intro hh
      injection hh with h1
      exact transform_not_map f2 v rv htv
        (fun m0 hm0 => applyRules_extraArgs es r1 har m0 (hm0 ▸ hg)) m h1
  · exact ref_migrated_aux f es r1 r2 hEA har hte _ (Or.inl rfl)
  · exact ref_migrated_aux f es r1 r2 hEA har hte _ (Or.inr (Or.inl rfl))
  · exact ref_migrated_aux f es r1 r2 hEA har hte _ (Or.inr (Or.inr rfl))
  · intro cm hgF
    rcases applyRules_cpe es r1 har with hk | ⟨cm1, hk, hb⟩ | ⟨v, hk, hnm⟩
    · rw [hp1 _ hk] at hgF
      cases hgF
    · obtain ⟨f2, rv, htv, hget⟩ := hp2 _ _ hk
      rw [hget] at hgF
      injection hgF with h1
      have htv2 : transform f2 (Node.map cm1) = .ok (.map cm, rv.2) := by
        rw [htv, ← h1]
      obtain ⟨hv1, hv2⟩ := transform_map_value f2 cm1 cm rv.2 htv2 "host"
        (unwrittenKey_of_ne _ (by decide) (by decide) (by decide) (by decide)
          (by decide) (by decide) (by decide))
      cases hh : getEntry cm1 "host" with
      | none => rw [hh] at hb; cases hb
      | some hv =>
        rw [hh] at hb
        simp only at hb
        obtain ⟨f3, rv3, htv3, hget3⟩ := hv1 hv hh
        rw [hget3]
        simp only
        rw [transform_strBlank f3 hv rv3 htv3]
        exact hb
    · obtain ⟨f2, rv, htv, hget⟩ := hp2 _ _ hk
      rw [hget] at hgF
      injection hgF with h1
      exact absurd h1 (transform_not_map f2 v rv htv hnm cm)
  · intro hkindF
    rw [hkind2] at hkindF
    exact mhc_migrated_aux f es r1 r2 har hte hkindF
  · intro hkindF
    rw [hkind2] at hkindF
    exact kcp_migrated_aux f es r1 r2 har hte hkindF

theorem EntriesAll_iff (Q : Entries → Prop) (es : Entries) :
    EntriesAll Q es ↔ ∀ p ∈ es, NodeAll Q p.2 := by
  induction es with
  | nil => simp [EntriesAll]
  | cons e rest ih =>
    rw [EntriesAll]
    constructor
    · intro h p hp
      rcases List.mem_cons.mp hp with h3 | h3
      · rw [h3]
        exact h.1
      · exact (ih.mp h.2) p h3
    · intro h
      exact ⟨h e (List.mem_cons_self e rest),
        ih.mpr (fun p hp => h p (List.mem_cons_of_mem _ hp))⟩

theorem mem_setEntry (es : Entries) (k : String) (v : Node) (p : String × Node)
    (h : p ∈ setEntry es k v) : p.2 = v ∨ p ∈ es := by
  induction es with
  | nil =>
    rw [setEntry] at h
    rw [List.mem_singleton.mp h]
    exact Or.inl rfl
  | cons e rest ih =>
    obtain ⟨k1, w⟩ := e
    rw [setEntry] at h
    by_cases h1 : k1 = k
    · rw [if_pos h1] at h
      rcases List.mem_cons.mp h with h2 | h2
      · rw [h2]
        exact Or.inl rfl
      · exact Or.inr (List.mem_cons_of_mem _ h2)
    · rw [if_neg h1] at h
      rcases List.mem_cons.mp h with h2 | h2
      · rw [h2]
        exact Or.inr (List.mem_cons_self _ _)
      · rcases ih h2 with h3 | h3
        · exact Or.inl h3
        · exact Or.inr (List.mem_cons_of_mem _ h3)

theorem mem_delEntry (es : Entries) (k : String) (p : String × Node)
    (h : p ∈ delEntry es k) : p ∈ es := by
  induction es with
  | nil => exact h
  | cons e rest ih =>
    obtain ⟨k1, w⟩ := e
    rw [delEntry] at h
    by_cases h1 : k1 = k
    · rw [if_pos h1] at h
      exact List.mem_cons_of_mem _ (ih h)
    · rw [if_neg h1] at h
      rcases List.mem_cons.mp h with h2 | h2
      · rw [h2]
        exact List.mem_cons_self _ _
      · exact List.mem_cons_of_mem _ (ih h2)

theorem EntriesAll_setEntry (Q : Entries → Prop) (es : Entries) (k : String) (v : Node)
    (h : EntriesAll Q es) (hv : NodeAll Q v) : EntriesAll Q (setEntry es k v) := by
  rw [EntriesAll_iff] at h ⊢
  intro p hp
  rcases mem_setEntry es k v p hp with h1 | h1
  · rw [h1]
    exact hv
  · exact h p h1

theorem EntriesAll_delEntry (Q : Entries → Prop) (es : Entries) (k : String)
    (h : EntriesAll Q es) : EntriesAll Q (delEntry es k) := by
  rw [EntriesAll_iff] at h ⊢
  exact fun p hp => h p (mem_delEntry es k p hp)

theorem EntriesAll_append (Q : Entries → Prop) (a b : Entries)
    (ha : EntriesAll Q a) (hb : EntriesAll Q b) : EntriesAll Q (a ++ b) := by
  induction a with
  | nil => exact hb
  | cons e rest ih =>
    rw [EntriesAll] at ha
    exact ⟨ha.1, ih ha.2⟩

theorem NodeAll_getEntry (Q : Entries → Prop) (es : Entries) (k : String) (v : Node)
    (h : EntriesAll Q es) (hg : getEntry es k = some v) : NodeAll Q v :=
  EntriesAll_mem Q es k v h (getEntry_mem es k v hg)

/-- The invariant carried through the rule phase for one mapping: the proviso
at the top level and deeply in all values. -/
def MapOk (es : Entries) : Prop := noSlashTop es ∧ EntriesAll noSlashTop es

theorem MapOk_nil : MapOk [] :=
  ⟨fun av hh => by simp [getEntry] at hh, trivial⟩

theorem MapOk_getEntry (es : Entries) (k : String) (X : Entries)
    (h : EntriesAll noSlashTop es) (hg : getEntry es k = some (Node.map X)) :
    MapOk X := by
  have h2 := NodeAll_getEntry noSlashTop es k _ h hg
  rw [NodeAll] at h2
  exact h2

theorem MapOk_match (es : Entries) (k : String) (h : EntriesAll noSlashTop es) :
    MapOk (match getEntry es k with
      | some (.map r) => r
      | _ => ([] : Entries)) := by
  cases hg : getEntry es k with
  | none => exact MapOk_nil
  | some v =>
    cases v with
    | map r => exact MapOk_getEntry es k r h hg
    | seq xs => exact MapOk_nil
    | str s => exact MapOk_nil
    | int n => exact MapOk_nil
    | bool b => exact MapOk_nil
    | null => exact MapOk_nil

theorem noSlashTop_setEntry (es : Entries) (k : String) (v : Node)
    (hk : k ≠ "apiVersion") (h : noSlashTop es) : noSlashTop (setEntry es k v) := by
  intro av hh
  rw [getEntry_setEntry, if_neg (fun hh2 => hk hh2.symm)] at hh
  exact h av hh

theorem noSlashTop_delEntry (es : Entries) (k : String) (h : noSlashTop es) :
    noSlashTop (delEntry es k) := by
  intro av hh
  rw [getEntry_delEntry] at hh
  by_cases h2 : "apiVersion" = k
  · rw [if_pos h2] at hh
    cases hh
  · rw [if_neg h2] at hh
    exact h av hh

theorem MapOk_setEntry (es : Entries) (k : String) (v : Node) (hk : k ≠ "apiVersion")
    (h : MapOk es) (hv : NodeAll noSlashTop v) : MapOk (setEntry es k v) :=
  ⟨noSlashTop_setEntry es k v hk h.1, EntriesAll_setEntry _ es k v h.2 hv⟩

theorem MapOk_delEntry (es : Entries) (k : String) (h : MapOk es) :
    MapOk (delEntry es k) :=
  ⟨noSlashTop_delEntry es k h.1, EntriesAll_delEntry _ es k h.2⟩

theorem convert_preserves (m : Entries) (hm : EntriesAll noSlashTop m) :
    ItemsAll noSlashTop (convert_mapping_to_seq m) := by
  induction m with
  | nil => exact trivial
  | cons e rest ih =>
    obtain ⟨k, v⟩ := e
    rw [EntriesAll] at hm
    refine ⟨?_, ih hm.2⟩
    rw [NodeAll]
    refine ⟨?_, trivial, hm.1, trivial⟩
    intro av h
    simp [getEntry] at h

theorem stepKubelet_preserves (es : Entries) (rk : Entries × Bool)
    (h : stepKubelet es = .ok rk) (hEA : EntriesAll noSlashTop es) :
    EntriesAll noSlashTop rk.1 := by
  rw [stepKubelet] at h
  cases hg : getEntry es "kubeletExtraArgs" with
  | none => rw [hg] at h; cases h; exact hEA
  | some v =>
    rw [hg] at h
    cases v with
    | map m =>
      cases h
      refine EntriesAll_setEntry _ _ _ _ hEA ?_
      rw [NodeAll]
      have hm := NodeAll_getEntry _ es _ _ hEA hg
      rw [NodeAll] at hm
      exact convert_preserves m hm.2
    | seq xs => cases h; exact hEA
    | str s => cases h
    | int n => cases h
    | bool b => cases h
    | null => cases h

theorem stepExtraArgs_preserves (es : Entries) (hEA : EntriesAll noSlashTop es) :
    EntriesAll noSlashTop (stepExtraArgs es).1 := by
  rw [stepExtraArgs]
  cases hg : getEntry es "extraArgs" with
  | none => exact hEA
  | some v =>
    cases v with
    | map m =>
      refine EntriesAll_setEntry _ _ _ _ hEA ?_
      rw [NodeAll]
      have hm := NodeAll_getEntry _ es _ _ hEA hg
      rw [NodeAll] at hm
      exact convert_preserves m hm.2
    | seq xs => exact hEA
    | str s => exact hEA
    | int n => exact hEA
    | bool b => exact hEA
    | null => exact hEA

theorem processRef_preserves (rv : Entries) (hall : NodeAll noSlashTop (Node.map rv)) :
    NodeAll noSlashTop (Node.map (processRef rv).1) := by
  rw [NodeAll] at hall
  have hg : MapOk (refApiGroupStep rv).1 := by
    rw [refApiGroupStep]
    by_cases hk : hasKey rv "apiGroup" = true
    · rw [if_pos hk]
      exact hall
    · rw [if_neg hk]
      cases hi : infer_api_group rv with
      | none => exact hall
      | some g =>
        simp only
        by_cases hge : g = ""
        · rw [if_pos hge]
          exact hall
        · rw [if_neg hge]
          exact MapOk_setEntry _ _ _ (by decide) hall trivial
  rw [NodeAll, processRef]
  simp only
  rw [refApiVersionStep]
  by_cases hk : hasKey (refApiGroupStep rv).1 "apiVersion" = true
  · rw [if_pos hk]
    exact MapOk_delEntry _ _ hg
  · rw [if_neg hk]
    exact hg

theorem stepRef_preserves (es : Entries) (key : String)
    (hEA : EntriesAll noSlashTop es) : EntriesAll noSlashTop (stepRef es key).1 := by
  rw [stepRef]
  cases hg : getEntry es key with
  | none => exact hEA
  | some v =>
    cases v with
    | map rv =>
      exact EntriesAll_setEntry _ _ _ _ hEA
        (processRef_preserves rv (NodeAll_getEntry _ es _ _ hEA hg))
    | seq xs => exact hEA
    | str s => exact hEA
    | int n => exact hEA
    | bool b => exact hEA
    | null => exact hEA

theorem stepRefs_preserves (es : Entries) (hEA : EntriesAll noSlashTop es) :
    EntriesAll noSlashTop (stepRefs es).1 := by
  rw [stepRefs]
  exact stepRef_preserves _ _ (stepRef_preserves _ _ (stepRef_preserves _ _ hEA))

theorem stepCPE_preserves (es : Entries) (hEA : EntriesAll noSlashTop es) :
    EntriesAll noSlashTop (stepCPE es).1 := by
  rw [stepCPE]
  cases hg : getEntry es "controlPlaneEndpoint" with
  | none => exact hEA
  | some v =>
    cases v with
    | map cm =>
      simp only
      by_cases hb : (match getEntry cm "host" with
        | none => true
        | some v => strBlank v) = true
      · rw [if_pos hb]
        exact EntriesAll_delEntry _ _ _ hEA
      · rw [if_neg hb]
        exact hEA
    | seq xs => exact hEA
    | str s => exact hEA
    | int n => exact hEA
    | bool b => exact hEA
    | null => exact hEA

theorem getEntry_append_none (a b : Entries) (k : String)
    (ha : getEntry a k = none) (hb : getEntry b k = none) :
    getEntry (a ++ b) k = none := by
  induction a with
  | nil => exact hb
  | cons e rest ih =>
    obtain ⟨k1, v⟩ := e
    rw [getEntry_cons] at ha
    rw [List.cons_append, getEntry_cons]
    by_cases h1 : k1 = k
    · rw [if_pos h1] at ha
      cases ha
    · rw [if_neg h1] at ha ⊢
      exact ih ha

/-- The converted condition as an append of three optional singletons. -/
theorem convertCond_eq (cond : Entries) :
    convertCond cond =
      (match getEntry cond "type" with
       | some tv => [("type", tv)]
       | none => ([] : Entries)) ++
      ((match getEntry cond "status" with
       | some sv => [("status", sv)]
       | none => ([] : Entries)) ++
      (match getEntry cond "timeout" with
       | some (.str s) =>
         (match duration_to_seconds s with
          | some secs => [("timeoutSeconds", Node.int secs)]
          | none => ([] : Entries))
       | some .null => ([] : Entries)
       | some v => [("timeoutSeconds", v)]
       | none => ([] : Entries))) := by
  rw [convertCond]
  repeat' split
  all_goals rfl

theorem convertCond_keys (cm : Entries) (k : String) (h1 : k ≠ "type")
    (h2 : k ≠ "status") (h3 : k ≠ "timeoutSeconds") :
    getEntry (convertCond cm) k = none := by
  rw [convertCond_eq]
  refine getEntry_append_none _ _ _ ?_ (getEntry_append_none _ _ _ ?_ ?_)
  · cases ht : getEntry cm "type" with
    | none => rfl
    | some tv => simp [getEntry, Ne.symm h1]
  · cases hs : getEntry cm "status" with
    | none => rfl
    | some sv => simp [getEntry, Ne.symm h2]
  · cases hto : getEntry cm "timeout" with
    | none => rfl
    | some tv =>
      cases tv with
      | str s =>
        simp only
        cases hd : duration_to_seconds s with
        | none => rfl
        | some secs => simp [getEntry, Ne.symm h3]
      | null => rfl
      | int n => simp [getEntry, Ne.symm h3]
      | bool b => simp [getEntry, Ne.symm h3]
      | map m => simp [getEntry, Ne.symm h3]
      | seq xs => simp [getEntry, Ne.symm h3]

theorem convertCond_preserves (cm : Entries) (hEA : EntriesAll noSlashTop cm) :
    EntriesAll noSlashTop (convertCond cm) := by
  rw [convertCond_eq]
  refine EntriesAll_append _ _ _ ?_ (EntriesAll_append _ _ _ ?_ ?_)
  · cases ht : getEntry cm "type" with
    | none => exact trivial
    | some tv => exact ⟨NodeAll_getEntry _ cm _ _ hEA ht, trivial⟩
  · cases hs : getEntry cm "status" with
    | none => exact trivial
    | some sv => exact ⟨NodeAll_getEntry _ cm _ _ hEA hs, trivial⟩
  · cases hto : getEntry cm "timeout" with
    | none => exact trivial
    | some tv =>
      cases tv with
      | str s =>
        simp only
        cases hd : duration_to_seconds s with
        | none => exact trivial
        | some secs => exact ⟨trivial, trivial⟩
      | null => exact trivial
      | int n => exact ⟨NodeAll_getEntry _ cm _ _ hEA hto, trivial⟩
      | bool b => exact ⟨NodeAll_getEntry _ cm _ _ hEA hto, trivial⟩
      | map m => exact ⟨NodeAll_getEntry _ cm _ _ hEA hto, trivial⟩
      | seq xs => exact ⟨NodeAll_getEntry _ cm _ _ hEA hto, trivial⟩

theorem convertConds_preserves (items : List Node) (hall : ItemsAll noSlashTop items) :
    ItemsAll noSlashTop (convertConds items) := by
  induction items with
  | nil => exact trivial
  | cons x rest ih =>
    rw [ItemsAll] at hall
    obtain ⟨hx, hrest⟩ := hall
    rw [convertConds] at ih ⊢
    rw [List.filterMap_cons]
    cases x with
    | map cm =>
      simp only
      by_cases he : (convertCond cm).isEmpty = true
      · rw [if_pos he]
        exact ih hrest
      · rw [if_neg he]
        refine ⟨?_, ih hrest⟩
        rw [NodeAll] at hx ⊢
        refine ⟨?_, convertCond_preserves cm hx.2⟩
        intro av h
        rw [convertCond_keys cm "apiVersion" (by decide) (by decide) (by decide)] at h
        cases h
    | seq xs => exact ih hrest
    | str s => exact ih hrest
    | int n => exact ih hrest
    | bool b => exact ih hrest
    | null => exact ih hrest

theorem mhcStepStartup_preserves (spec checks : Entries) (hs : MapOk spec)
    (hc : MapOk checks) :
    MapOk (mhcStepStartup spec checks).1 ∧ MapOk (mhcStepStartup spec checks).2.1 := by
  rw [mhcStepStartup]
  cases hg : getEntry spec "nodeStartupTimeout" with
  | none => exact ⟨hs, hc⟩
  | some tv =>
    have hsd : MapOk (delEntry spec "nodeStartupTimeout") := MapOk_delEntry _ _ hs
    have htv : NodeAll noSlashTop tv := NodeAll_getEntry _ spec _ _ hs.2 hg
    cases tv with
    | str s =>
      simp only
      cases hd : duration_to_seconds s with
      | none => exact ⟨hsd, hc⟩
      | some secs => exact ⟨hsd, MapOk_setEntry _ _ _ (by decide) hc trivial⟩
    | int n => exact ⟨hsd, MapOk_setEntry _ _ _ (by decide) hc trivial⟩
    | bool b => exact ⟨hsd, MapOk_setEntry _ _ _ (by decide) hc trivial⟩
    | null => exact ⟨hsd, MapOk_setEntry _ _ _ (by decide) hc trivial⟩
    | map m => exact ⟨hsd, MapOk_setEntry _ _ _ (by decide) hc htv⟩
    | seq xs => exact ⟨hsd, MapOk_setEntry _ _ _ (by decide) hc htv⟩

theorem mhcStepConds_preserves (spec checks : Entries) (hs : MapOk spec)
    (hc : MapOk checks) :
    MapOk (mhcStepConds spec checks).1 ∧ MapOk (mhcStepConds spec checks).2.1 := by
  rw [mhcStepConds]
  cases hg : getEntry spec "unhealthyConditions" with
  | none => exact ⟨hs, hc⟩
  | some cv =>
    have hsd : MapOk (delEntry spec "unhealthyConditions") := MapOk_delEntry _ _ hs
    cases cv with
    | seq items =>
      simp only
      by_cases he : (convertConds items).isEmpty = true
      · rw [if_pos he]
        exact ⟨hsd, hc⟩
      · rw [if_neg he]
        refine ⟨hsd, MapOk_setEntry _ _ _ (by decide) hc ?_⟩
        rw [NodeAll]
        have hitems := NodeAll_getEntry _ spec _ _ hs.2 hg
        rw [NodeAll] at hitems
        exact convertConds_preserves items hitems
    | map m => exact ⟨hsd, hc⟩
    | str s => exact ⟨hsd, hc⟩
    | int n => exact ⟨hsd, hc⟩
    | bool b => exact ⟨hsd, hc⟩
    | null => exact ⟨hsd, hc⟩

theorem mhcChecksWrite_preserves (spec checks : Entries) (hs : MapOk spec)
    (hc : MapOk checks) :
    MapOk (if (checks : Entries).isEmpty then spec
      else setEntry spec "checks" (Node.map checks)) := by
  by_cases he : (checks : Entries).isEmpty = true
  · rw [if_pos he]
    exact hs
  · rw [if_neg he]
    refine MapOk_setEntry _ _ _ (by decide) hs ?_
    rw [NodeAll]
    exact hc

theorem mhcStepMaxUnhealthy_preserves (spec : Entries) (hs : MapOk spec) :
    MapOk (mhcStepMaxUnhealthy spec).1 := by
  rw [mhcStepMaxUnhealthy]
  cases hg : getEntry spec "maxUnhealthy" with
  | none => exact hs
  | some mu =>
    simp only
    have hmu : NodeAll noSlashTop mu := NodeAll_getEntry _ spec _ _ hs.2 hg
    have hsd : MapOk (delEntry spec "maxUnhealthy") := MapOk_delEntry _ _ hs
    have hrem : MapOk (match getEntry (delEntry spec "maxUnhealthy") "remediation" with
        | some (.map r) => r
        | _ => ([] : Entries)) := MapOk_match _ _ hsd.2
    have htif : MapOk (match getEntry (match getEntry (delEntry spec "maxUnhealthy")
          "remediation" with
        | some (.map r) => r
        | _ => ([] : Entries)) "triggerIf" with
        | some (.map t) => t
        | _ => ([] : Entries)) := MapOk_match _ _ hrem.2
    by_cases ht : hasKey (match getEntry (match getEntry (delEntry spec "maxUnhealthy")
          "remediation" with
        | some (.map r) => r
        | _ => ([] : Entries)) "triggerIf" with
        | some (.map t) => t
        | _ => ([] : Entries)) "unhealthyLessThanOrEqualTo" = true
    · rw [if_pos ht]
      refine MapOk_setEntry _ _ _ (by decide) hsd ?_
      rw [NodeAll]
      refine MapOk_setEntry _ _ _ (by decide) hrem ?_
      rw [NodeAll]
      exact htif
    · rw [if_neg ht]
      refine MapOk_setEntry _ _ _ (by decide) hsd ?_
      rw [NodeAll]
      refine MapOk_setEntry _ _ _ (by decide) hrem ?_
      rw [NodeAll]
      exact MapOk_setEntry _ _ _ (by decide) htif hmu

theorem templCopyStep (tm acc : Entries) (key : String) (htm : MapOk tm)
    (hacc : MapOk acc) :
    MapOk (match getEntry tm key with
      | some v => if hasKey acc key then acc else setEntry acc key v
      | none => acc) := by
  cases hg : getEntry tm key with
  | none => exact hacc
  | some v =>
    simp only
    by_cases hh : hasKey acc key = true
    · rw [if_pos hh]
      exact hacc
    · rw [if_neg hh]
      refine ⟨?_, EntriesAll_setEntry _ _ _ _ hacc.2 (NodeAll_getEntry _ tm _ _ htm.2 hg)⟩
      intro av hav
      rw [getEntry_setEntry] at hav
      by_cases h2 : "apiVersion" = key
      · rw [if_pos h2] at hav
        injection hav with h3
        rw [← h2] at hg
        rw [h3] at hg
        exact htm.1 av hg
      · rw [if_neg h2] at hav
        exact hacc.1 av hav

theorem mhcStepRemTemplate_preserves (spec : Entries) (hs : MapOk spec) :
    MapOk (mhcStepRemTemplate spec).1 := by
  rw [mhcStepRemTemplate]
  cases hg : getEntry spec "remediationTemplate" with
  | none => exact hs
  | some tv =>
    have hsd : MapOk (delEntry spec "remediationTemplate") := MapOk_delEntry _ _ hs
    cases tv with
    | map tm =>
      simp only
      have htm : MapOk tm := MapOk_getEntry spec _ tm hs.2 hg
      have hrem : MapOk (match getEntry (delEntry spec "remediationTemplate")
            "remediation" with
          | some (.map r) => r
          | _ => ([] : Entries)) := MapOk_match _ _ hsd.2
      have htr : MapOk (match getEntry (match getEntry (delEntry spec
            "remediationTemplate") "remediation" with
          | some (.map r) => r
          | _ => ([] : Entries)) "templateRef" with
          | some (.map t) => t
          | _ => ([] : Entries)) := MapOk_match _ _ hrem.2
      refine MapOk_setEntry _ _ _ (by decide) hsd ?_
      rw [NodeAll]
      refine MapOk_setEntry _ _ _ (by decide) hrem ?_
      rw [NodeAll]
      simp only [List.foldl_cons, List.foldl_nil]
      exact templCopyStep tm _ "apiVersion" htm
        (templCopyStep tm _ "name" htm (templCopyStep tm _ "kind" htm htr))
    | seq xs => exact hsd
    | str s => exact hsd
    | int n => exact hsd
    | bool b => exact hsd
    | null => exact hsd

theorem mhcSpecPipeline_preserves (sp : Entries) (hs : MapOk sp) :
    MapOk (mhcSpecPipeline sp).1 := by
  rw [mhcSpecPipeline]
  simp only
  have hc0 : MapOk (mhcChecks0 sp) := by
    rw [mhcChecks0]
    exact MapOk_match sp "checks" hs.2
  have h1 := mhcStepStartup_preserves sp (mhcChecks0 sp) hs hc0
  have h2 := mhcStepConds_preserves _ _ h1.1 h1.2
  have h3 := mhcChecksWrite_preserves _ _ h2.1 h2.2
  have h4 := mhcStepMaxUnhealthy_preserves _ h3
  exact mhcStepRemTemplate_preserves _ h4

theorem mhc_preserves (es : Entries) (hEA : EntriesAll noSlashTop es) :
    EntriesAll noSlashTop (transform_machine_health_check es).1 := by
  rw [transform_machine_health_check]
  cases hg : getEntry es "spec" with
  | none => exact hEA
  | some v =>
    cases v with
    | map sp =>
      simp only
      refine EntriesAll_setEntry _ _ _ _ hEA ?_
      rw [NodeAll]
      exact mhcSpecPipeline_preserves sp (MapOk_getEntry es "spec" sp hEA hg)
    | seq xs => exact hEA
    | str s => exact hEA
    | int n => exact hEA
    | bool b => exact hEA
    | null => exact hEA

theorem stepMHC_preserves (es : Entries) (hEA : EntriesAll noSlashTop es) :
    EntriesAll noSlashTop (stepMHC es).1 := by
  rw [stepMHC]
  by_cases hk : kindIs es "MachineHealthCheck" = true
  · rw [if_pos hk]
    exact mhc_preserves es hEA
  · rw [if_neg hk]
    exact hEA

theorem stepKCP_preserves (es : Entries) (hEA : EntriesAll noSlashTop es) :
    EntriesAll noSlashTop (stepKCP es).1 := by
  by_cases hf : (stepKCP es).2 = true
  · obtain ⟨sm, mtm, iv, hgsm, hgmt, hgiv, hnospec, he6⟩ := stepKCP_flag es hf
    rw [he6]
    have hsm : MapOk sm := MapOk_getEntry es "spec" sm hEA hgsm
    have hmtm : MapOk mtm := MapOk_getEntry sm "machineTemplate" mtm hsm.2 hgmt
    have hiv : NodeAll noSlashTop iv := NodeAll_getEntry _ mtm _ _ hmtm.2 hgiv
    have hmts : MapOk (kcpMtSpec mtm) := by
      rw [kcpMtSpec]
      exact MapOk_match mtm "spec" hmtm.2
    refine EntriesAll_setEntry _ _ _ _ hEA ?_
    rw [NodeAll]
    refine MapOk_setEntry _ _ _ (by decide) hsm ?_
    rw [NodeAll]
    refine MapOk_setEntry _ _ _ (by decide) (MapOk_delEntry _ _ hmtm) ?_
    rw [NodeAll]
    exact MapOk_setEntry _ _ _ (by decide) hmts hiv
  · have hid := stepKCP_id es (by simpa using hf)
    rw [hid]
    exact hEA

/-- The rule phase preserves the deep proviso on all values. -/
theorem applyRules_preserves (es : Entries) (r1 : Entries × Bool)
    (h : applyRules es = .ok r1) (hEA : EntriesAll noSlashTop es) :
    EntriesAll noSlashTop r1.1 := by
  obtain ⟨rk, hsk, hr⟩ := applyRules_unfold es r1 h
  rw [hr]
  exact stepKCP_preserves _ (stepMHC_preserves _ (stepCPE_preserves _
    (stepRefs_preserves _ (stepExtraArgs_preserves _
      (stepKubelet_preserves es rk hsk hEA)))))

theorem idem_aux : ∀ fuel : Nat,
    (∀ n r, NodeAll noSlashTop n → transform fuel n = .ok r →
      transform fuel r.1 = .ok (r.1, false)) ∧
    (∀ es r, EntriesAll noSlashTop es → transformEntries fuel es = .ok r →
      transformEntries fuel r.1 = .ok (r.1, false)) ∧
    (∀ xs r, ItemsAll noSlashTop xs → transformItems fuel xs = .ok r →
      transformItems fuel r.1 = .ok (r.1, false)) := by
  intro fuel
  induction fuel with
  | zero =>
    refine ⟨fun n r _ h => ?_, fun es r _ h => ?_, fun xs r _ h => ?_⟩ <;> cases h
  | succ f ih =>
    obtain ⟨ihn, ihe, ihi⟩ := ih
    refine ⟨?_, ?_, ?_⟩
    · intro n r hall h
      cases n with
      | map es =>
        rw [NodeAll] at hall
        obtain ⟨hQ, hEA⟩ := hall
        obtain ⟨r1, r2, har, hte, hr⟩ := transform_map_unfold f es r h
        subst hr
        simp only
        have hmig : RulesMigrated r2.1 := transform_post_migrated f es r1 r2 hEA har hte
        have hEA1 : EntriesAll noSlashTop r1.1 := applyRules_preserves es r1 har hEA
        have hsecond : transformEntries f r2.1 = .ok (r2.1, false) := ihe r1.1 r2 hEA1 hte
        rw [transform, applyRules_nop r2.1 hmig]
        simp only
        rw [hsecond]
        rfl
      | seq xs =>
        rw [NodeAll] at hall
        obtain ⟨r2, hti, hr⟩ := transform_seq_unfold f xs r h
        subst hr
        simp only
        rw [transform, ihi xs r2 hall hti]
      | str s => cases h; rfl
      | int m => cases h; rfl
      | bool b => cases h; rfl
      | null => cases h; rfl
    · intro es r hall hte
      cases es with
      | nil =>
        have h0 := transformEntries_nil (f + 1) r hte
        subst h0
        rfl
      | cons e rest =>
        obtain ⟨k, v⟩ := e
        rw [EntriesAll] at hall
        obtain ⟨hv, hrest⟩ := hall
        obtain ⟨rv, rr, htv, htr, hr⟩ := transformEntries_cons f k v rest r hte
        subst hr
        simp only
        rw [transformEntries, ihn v rv hv htv]
        simp only
        rw [ihe rest rr hrest htr]
        rfl
    · intro xs r hall hti
      cases xs with
      | nil =>
        have h0 := transformItems_nil (f + 1) r hti
        subst h0
        rfl
      | cons x rest =>
        rw [ItemsAll] at hall
        obtain ⟨hx, hrest⟩ := hall
        obtain ⟨rx, rr, htv, htr, hr⟩ := transformItems_cons f x rest r hti
        subst hr
        simp only
        rw [transformItems, ihn x rx hx htv]
        simp only
        rw [ihi rest rr hrest htr]
        rfl

/-- C1 amended: provided the first application completed (no fatal
kubeletExtraArgs error) and no mapping anywhere in the tree carries a string
apiVersion beginning with '/', the engine is idempotent: applying `transform`
a second time to the result of the first application leaves the tree
unchanged and returns false.  (Without the proviso idempotence fails: an
apiVersion such as "/v1" makes the first pass infer the empty group, which
Python truthiness discards, while the second pass can still fire the kind
heuristics and change the tree again.) -/
theorem idempotence_amended (fuel : Nat) (n : Node) (r : Node × Bool)
    (hall : NodeAll noSlashTop n) (h : transform fuel n = .ok r) :
    transform fuel r.1 = .ok (r.1, false) :=
  (idem_aux fuel).1 n r hall h

/-- Witness for the amended C1 at a concrete input. -/
theorem idempotence_amended_witness :
    transform 10 (Node.map [("extraArgs", Node.seq
      [Node.map [("name", Node.str "a"), ("value", Node.str "1")]])]) =
    .ok (Node.map [("extraArgs", Node.seq
      [Node.map [("name", Node.str "a"), ("value", Node.str "1")]])], false) := by
  have hQ1 : noSlashTop [("extraArgs", Node.map [("a", Node.str "1")])] := by
    intro av h
    simp [getEntry] at h
  have hQ2 : noSlashTop [("a", Node.str "1")] := by
    intro av h
    simp [getEntry] at h
  have hall : NodeAll noSlashTop
      (Node.map [("extraArgs", Node.map [("a", Node.str "1")])]) :=
    ⟨hQ1, ⟨⟨hQ2, trivial, trivial⟩, trivial⟩⟩
  exact idempotence_amended 10
    (Node.map [("extraArgs", Node.map [("a", Node.str "1")])])
    (Node.map [("extraArgs", Node.seq
      [Node.map [("name", Node.str "a"), ("value", Node.str "1")]])], true)
    hall rfl
